import Mathlib

/-!
# opencast-client-go: the request-execution substrate

A shallow embedding of the multipart streaming encoder (pkg/multipart), of
the request/response pipeline, the service mappers and the client (client),
and of the search options of the series (apis/external-api), with the
properties of the specification stated and settled over it.

Conventions of the embedding.

* A Go string or byte slice is the list of its bytes (GoString); len is
  List.length and string comparison is the lexicographic order on bytes.
* Go int and int64 quantities are byte counts and status codes; they are
  modelled as unbounded integers (Int), with the sentinel -1 kept as it is.
* A Go map is an association list read with first-binding-wins lookup, so
  that every list denotes a map and every map is denoted by a list.
* A Go error value is a term of GoError; the nil error is Option.none.
* Library code outside the repository (io.Pipe, io.Copy, fmt.Fprintf,
  http.StatusText, mime.ParseMediaType, url.Values.Encode, sync.RWMutex,
  rand.IntN, base64.StdEncoding, strconv) is modelled after the standard
  library, next to the place where the repository calls it; the file system,
  the JSON and XML decoders, the URL parser, the HTTP client, the clock, the
  service registry and the random source are inputs of the functions that
  use them, and a time.Time is given by what IsZero and Format report.
* A loop that need not end is run for a given number of turns and returns
  none when it has not ended by then.
-/

namespace Opencast

/-! ## Strings, errors, maps -/

/-- A Go string or byte slice: the sequence of its bytes. -/
abbrev GoString := List Nat

/-- The bytes of a string literal of the source (Go source text is UTF-8). -/
def str (s : String) : GoString :=
  s.toList.flatMap (fun c => (String.utf8EncodeChar c).map UInt8.toNat)

/-- Go error values. The sentinels are package-level variables and are compared
by identity; errorString is a value allocated by errors.New or fmt.Errorf at
the place of the call; PathError is what os.Open and os.Stat return. -/
inductive GoError where
  | EOF
  | ErrClosedPipe
  | ErrInvalidMediaParameter
  | UnexpectedStatusCodeErr
  | ServiceNotFoundErr
  | errorString (msg : GoString)
  | PathError (op : GoString) (path : GoString) (msg : GoString)
  deriving DecidableEq, Repr

/-- The method Error() of an error value. -/
def GoError.Error : GoError → GoString
  | .EOF => str "EOF"
  | .ErrClosedPipe => str "io: read/write on closed pipe"
  | .ErrInvalidMediaParameter => str "mime: invalid media parameter"
  | .UnexpectedStatusCodeErr => str "UnexpectedStatusCode"
  | .ServiceNotFoundErr => str "service not found"
  | .errorString msg => msg
  | .PathError op path msg => op ++ str " " ++ path ++ str ": " ++ msg

/-- The type map[string][]string behind textproto.MIMEHeader and http.Header. -/
abbrev MIMEHeader := List (GoString × List GoString)

/-- The distinct keys of the map (maps.Keys, and the keys a range visits). -/
def MIMEHeader.Keys (h : MIMEHeader) : List GoString :=
  (h.map Prod.fst).dedup

/-- The index expression h[k]: the value list bound to k, nil when absent. -/
def MIMEHeader.Get (h : MIMEHeader) (k : GoString) : List GoString :=
  (h.lookup k).getD []

/-- The assignment h[k] = []string{v}, as done by MIMEHeader.Set and Header.Set
for a key that is already in canonical form (all keys set in this repository
are canonical literals). -/
def MIMEHeader.Set (h : MIMEHeader) (k v : GoString) : MIMEHeader :=
  (k, [v]) :: h.filter (fun kv => kv.1 != k)

/-- The sorted key sequence slices.Sorted(maps.Keys(h)): ascending byte order. -/
def slices.Sorted (keys : List GoString) : List GoString :=
  keys.insertionSort (· ≤ ·)

/-! ## pkg/multipart: parts -/

/-- An io.ReadCloser as the encoder uses it: the bytes it yields, the error
that ends the reading (none for io.EOF), and the resource its Close releases
(none for io.NopCloser). -/
structure ReadCloser where
  data : GoString
  err : Option GoError
  closer : Option Nat
  deriving DecidableEq, Repr

/-- The part of the operating system the package calls: os.Stat (the size of
the named file) and os.Open (the named file as a reader). -/
structure FileSystem where
  Stat : GoString → Except GoError Int
  Open : GoString → Except GoError ReadCloser

/-- The four implementations of the interface Part. A StreamPart carries the
reader it was given (none for a nil reader) and the state of its sync.Once. -/
inductive Part where
  | BytePart (Header : MIMEHeader) (Body : GoString)
  | StringPart (Header : MIMEHeader) (Body : GoString)
  | FilePart (Header : MIMEHeader) (File : GoString)
  | StreamPart (Header : MIMEHeader) (Reader : Option ReadCloser) (once : Bool)
  deriving DecidableEq, Repr

/-- The replacer quoteEscaper: a backslash and a double quote each get a
backslash in front. -/
def EscapeQuotes (s : GoString) : GoString :=
  s.flatMap (fun c => if c = 92 then [92, 92] else if c = 34 then [92, 34] else [c])

/-- The constructor FormField. -/
def FormField (fieldname : GoString) (value : GoString) : Part :=
  .BytePart
    (MIMEHeader.Set [] (str "Content-Disposition")
      (str "form-data; name=\"" ++ EscapeQuotes fieldname ++ str "\""))
    value

/-- The constructor FormFieldString. -/
def FormFieldString (fieldname value : GoString) : Part :=
  .StringPart
    (MIMEHeader.Set [] (str "Content-Disposition")
      (str "form-data; name=\"" ++ EscapeQuotes fieldname ++ str "\""))
    value

/-- The method GetHeader of every part kind. -/
def Part.GetHeader : Part → MIMEHeader
  | .BytePart h _ => h
  | .StringPart h _ => h
  | .FilePart h _ => h
  | .StreamPart h _ _ => h

/-- The function HeaderLen: the two nested range loops over the map. -/
def HeaderLen (h : MIMEHeader) : Int :=
  h.Keys.foldl
    (fun n key => (h.Get key).foldl
      (fun n val => n + (key.length : Int) + 2 + (val.length : Int) + 2) n)
    0

/-- The method Len of every part kind. -/
def Part.Len (fs : FileSystem) : Part → Int
  | .BytePart h body => HeaderLen h + 2 + (body.length : Int) + 2
  | .StringPart h body => HeaderLen h + 2 + (body.length : Int) + 2
  | .FilePart h file =>
    match fs.Stat file with
    | .error _ => -1
    | .ok size => HeaderLen h + 2 + size + 2
  | .StreamPart _ _ _ => -1

/-- The method GetBody of every part kind: the body or the error, and the part
afterwards (a StreamPart has used its sync.Once). -/
def Part.GetBody (fs : FileSystem) : Part → Except GoError ReadCloser × Part
  | .BytePart h body => (.ok { data := body, err := none, closer := none }, .BytePart h body)
  | .StringPart h body => (.ok { data := body, err := none, closer := none }, .StringPart h body)
  | .FilePart h file => (fs.Open file, .FilePart h file)
  | .StreamPart h r once =>
    let got := if once then none else r
    match got with
    | none =>
      (.error (.errorString (str "multipart: body of stream part can only be accessed once")),
        .StreamPart h r true)
    | some body => (.ok body, .StreamPart h r true)

/-- Parts whose body is held in memory: BytePart and StringPart. -/
def Part.inMemory : Part → Bool
  | .BytePart _ _ => true
  | .StringPart _ _ => true
  | _ => false

/-- The body bytes of an in-memory part. -/
def Part.Body : Part → GoString
  | .BytePart _ body => body
  | .StringPart _ body => body
  | _ => []

/-! ## pkg/multipart: the message and its declared length -/

/-- The struct Multipart. -/
structure Multipart where
  parts : List Part
  boundary : GoString
  deriving DecidableEq, Repr

/-- The method AddPart. -/
def Multipart.AddPart (mp : Multipart) (p : Part) : Multipart :=
  { mp with parts := mp.parts ++ [p] }

/-- The loop of Multipart.Len, with its early return of -1. -/
def Multipart.Len.loop (fs : FileSystem) : List Part → Int → Int
  | [], n => n
  | part :: rest, n =>
    let partLen := part.Len fs
    if partLen < 0 then -1 else Multipart.Len.loop fs rest (n + partLen)

/-- The method Multipart.Len. -/
def Multipart.Len (fs : FileSystem) (mp : Multipart) : Int :=
  let n : Int :=
    (mp.parts.length : Int) * (2 + (mp.boundary.length : Int) + 2) +
      (2 + (mp.boundary.length : Int) + 4)
  Multipart.Len.loop fs mp.parts n

/-! ## io.Pipe, as the encoder uses it

The pipe is synchronous: a write returns once the consumer has taken the
bytes. The producer is modelled against a consumer that keeps reading, so the
state records the bytes handed over so far, whether the pipe is closed, and
the two close errors (each stored once). -/

/-- The state of an io.Pipe shared by its two halves. -/
structure pipe where
  delivered : GoString
  done : Bool
  rerr : Option GoError
  werr : Option GoError
  deriving DecidableEq, Repr

/-- The result of io.Pipe(): open, nothing written. -/
def io.Pipe : pipe :=
  { delivered := [], done := false, rerr := none, werr := none }

/-- The method onceError.Store: only the first error is kept. -/
def onceError.Store (cur : Option GoError) (err : GoError) : Option GoError :=
  match cur with
  | some e => some e
  | none => some err

/-- The method pipe.readCloseError: the error a read returns on a closed pipe. -/
def pipe.readCloseError (p : pipe) : GoError :=
  match p.rerr, p.werr with
  | none, some werr => werr
  | _, _ => .ErrClosedPipe

/-- The method pipe.writeCloseError: the error a write returns on a closed pipe. -/
def pipe.writeCloseError (p : pipe) : GoError :=
  match p.werr, p.rerr with
  | none, some rerr => rerr
  | _, _ => .ErrClosedPipe

/-- The method pipe.closeRead, behind PipeReader.Close and
PipeReader.CloseWithError. -/
def pipe.closeRead (p : pipe) (err : Option GoError) : pipe :=
  { p with rerr := onceError.Store p.rerr (err.getD .ErrClosedPipe), done := true }

/-- The method pipe.closeWrite, behind PipeWriter.Close and
PipeWriter.CloseWithError. -/
def pipe.closeWrite (p : pipe) (err : Option GoError) : pipe :=
  { p with werr := onceError.Store p.werr (err.getD .EOF), done := true }

/-- The method pipe.write against a reading consumer. -/
def pipe.write (p : pipe) (b : GoString) : pipe × Option GoError :=
  if p.done then (p, some p.writeCloseError)
  else ({ p with delivered := p.delivered ++ b }, none)

/-- The call fmt.Fprintf(pw, ...): one Write of the formatted bytes. -/
def fmt.Fprintf (p : pipe) (b : GoString) : pipe × Option GoError :=
  p.write b

/-- The call io.Copy(pw, body): the bytes of body are written (nothing is
written for an empty body), then the error that ended the reading is
returned, if any. -/
def io.Copy (p : pipe) (body : ReadCloser) : pipe × Option GoError :=
  if body.data = [] then (p, body.err)
  else
    match p.write body.data with
    | (p, some err) => (p, some err)
    | (p, none) => (p, body.err)

/-! ## pkg/multipart: the producer reader.write -/

/-- What a run of reader.write leaves behind: the pipe, the returned error,
the resources released by the deferred Close calls, in the order in which
they ran (last deferred first), and the parts of the message afterwards (a
stream part whose body was asked for has used its sync.Once). -/
structure writeResult where
  pipe : pipe
  err : Option GoError
  closed : List Nat
  parts : List Part
  deriving DecidableEq, Repr

/-- The deferred calls body.Close() run at the return of reader.write. -/
def runDeferred (deferred : List ReadCloser) : List Nat :=
  deferred.filterMap (fun body => body.closer)

/-- The method reader.handleErr followed by the return of reader.write: the
read half is closed with the error and the error is returned. The parts are
those from the current part on, as they are at the return. -/
def reader.handleErr (p : pipe) (err : GoError) (deferred : List ReadCloser)
    (parts : List Part) : writeResult :=
  { pipe := p.closeRead (some err), err := some err, closed := runDeferred deferred,
    parts := parts }

/-- The inner header loop of reader.write: one line per value of the key k.
An error is the error of the first failed write. -/
def reader.writeValues (k : GoString) : List GoString → pipe → pipe × Option GoError
  | [], p => (p, none)
  | v :: vs, p =>
    match fmt.Fprintf p (k ++ str ": " ++ v ++ str "\r\n") with
    | (p, some err) => (p, some err)
    | (p, none) => reader.writeValues k vs p

/-- The outer header loop of reader.write over the sorted keys. -/
def reader.writeHeader (header : MIMEHeader) : List GoString → pipe → pipe × Option GoError
  | [], p => (p, none)
  | k :: ks, p =>
    match reader.writeValues k (header.Get k) p with
    | (p, some err) => (p, some err)
    | (p, none) => reader.writeHeader header ks p

/-- The method reader.write: the loop over the parts, then the finishing
boundary and the close of the write half. The list deferred holds the bodies
whose Close has been deferred so far, the latest first. -/
def reader.write.loop (fs : FileSystem) (boundary : GoString) :
    List Part → pipe → List ReadCloser → writeResult
  | [], p, deferred =>
    -- finishing boundary
    match fmt.Fprintf p (str "--" ++ boundary ++ str "--\r\n") with
    | (p, some err) => reader.handleErr p err deferred []
    | (p, none) =>
      -- EOF
      { pipe := p.closeWrite none, err := none, closed := runDeferred deferred, parts := [] }
  | part :: rest, p, deferred =>
    -- boundary
    match fmt.Fprintf p (str "--" ++ boundary ++ str "\r\n") with
    | (p, some err) => reader.handleErr p err deferred (part :: rest)
    | (p, none) =>
      -- header
      let header := part.GetHeader
      match reader.writeHeader header (slices.Sorted header.Keys) p with
      | (p, some err) => reader.handleErr p err deferred (part :: rest)
      | (p, none) =>
        match fmt.Fprintf p (str "\r\n") with
        | (p, some err) => reader.handleErr p err deferred (part :: rest)
        | (p, none) =>
          -- body
          let after := (part.GetBody fs).2
          match (part.GetBody fs).1 with
          | .error err => reader.handleErr p err deferred (after :: rest)
          | .ok body =>
            match io.Copy p body with
            | (p, some err) => reader.handleErr p err (body :: deferred) (after :: rest)
            | (p, none) =>
              match fmt.Fprintf p (str "\r\n") with
              | (p, some err) => reader.handleErr p err (body :: deferred) (after :: rest)
              | (p, none) =>
                let others := reader.write.loop fs boundary rest p (body :: deferred)
                { others with parts := after :: others.parts }

/-- The method reader.write on the pipe of the reader. -/
def reader.write (fs : FileSystem) (mp : Multipart) (p : pipe) : writeResult :=
  reader.write.loop fs mp.boundary mp.parts p []

/-- The function Reader: a fresh pipe and the producer started on it. The
value is the state the producer leaves when it returns. -/
def Reader (fs : FileSystem) (mp : Multipart) : writeResult :=
  reader.write fs mp io.Pipe

/-- What a consumer that reads the stream to its end obtains from
reader.Read once the producer has returned: the bytes, and the error of the
read that ends the stream (none if the pipe was left open: that read would
block). -/
def reader.drain (p : pipe) : GoString × Option GoError :=
  (p.delivered, if p.done then some p.readCloseError else none)

/-! ## The framing as the specification words it -/

/-- The header block of a part as worded: for each key in ascending order and
each of its values in order, the line Key: value CRLF. -/
def specHeaderBlock (h : MIMEHeader) : GoString :=
  (slices.Sorted h.Keys).flatMap
    (fun k => (h.Get k).flatMap (fun v => k ++ str ": " ++ v ++ str "\r\n"))

/-- The framing of one part as worded: the boundary line, the header block, a
blank line, the body verbatim, a trailing CRLF. -/
def specPart (boundary : GoString) (header : MIMEHeader) (body : GoString) : GoString :=
  str "--" ++ boundary ++ str "\r\n" ++ specHeaderBlock header ++ str "\r\n" ++ body ++ str "\r\n"

/-- The byte stream as worded: the parts in insertion order, then once the
closing boundary line. -/
def specStream (boundary : GoString) (parts : List Part) : GoString :=
  parts.flatMap (fun part => specPart boundary part.GetHeader part.Body) ++
    (str "--" ++ boundary ++ str "--\r\n")

/-! ## pkg/multipart: file and stream parts, sample inputs -/

/-- The function path.Base: the last element of a slash-separated path. -/
def path.Base (p : GoString) : GoString :=
  if p = [] then str "."
  else
    -- strip trailing slashes
    let p := (p.reverse.dropWhile (fun c => c == 47)).reverse
    -- find the last element
    let p := (p.reverse.takeWhile (fun c => c != 47)).reverse
    -- if empty now, it had only slashes
    if p = [] then str "/" else p

/-- The constructor File. -/
def File (fieldname file : GoString) : Part :=
  .FilePart
    (MIMEHeader.Set
      (MIMEHeader.Set [] (str "Content-Disposition")
        (str "form-data; name=\"" ++ EscapeQuotes fieldname ++ str "\"; filename=\"" ++
          EscapeQuotes (path.Base file) ++ str "\""))
      (str "Content-Type") (str "application/octet-stream"))
    file

/-- The constructor Stream. -/
def Stream (fieldname filename : GoString) (r : Option ReadCloser) : Part :=
  .StreamPart
    (MIMEHeader.Set
      (MIMEHeader.Set [] (str "Content-Disposition")
        (str "form-data; name=\"" ++ EscapeQuotes fieldname ++ str "\"; filename=\"" ++
          EscapeQuotes filename ++ str "\""))
      (str "Content-Type") (str "application/octet-stream"))
    r false

/-- A file system on which no file exists: os.Stat and os.Open fail with the
PathError of the operation. -/
def noFiles : FileSystem where
  Stat := fun name => .error (.PathError (str "stat") name (str "no such file or directory"))
  Open := fun name => .error (.PathError (str "open") name (str "no such file or directory"))

/-- The message with the two string fields a = 1 and b = 2 and boundary X. -/
def twoFields : Multipart :=
  { parts := [FormFieldString (str "a") (str "1"), FormFieldString (str "b") (str "2")],
    boundary := str "X" }

/-- A message with one file part whose file does not exist. -/
def missingFile : Multipart :=
  { parts := [File (str "presenter") (str "/tmp/missing.mp4")], boundary := str "X" }

/-! ## client: responses and their classification -/

/-- The table of net/http behind http.StatusText: the status codes the library
knows and their reason text. -/
def http.statusText : List (Int × GoString) :=
  [
    (100, str "Continue"),
    (101, str "Switching Protocols"),
    (102, str "Processing"),
    (103, str "Early Hints"),
    (200, str "OK"),
    (201, str "Created"),
    (202, str "Accepted"),
    (203, str "Non-Authoritative Information"),
    (204, str "No Content"),
    (205, str "Reset Content"),
    (206, str "Partial Content"),
    (207, str "Multi-Status"),
    (208, str "Already Reported"),
    (226, str "IM Used"),
    (300, str "Multiple Choices"),
    (301, str "Moved Permanently"),
    (302, str "Found"),
    (303, str "See Other"),
    (304, str "Not Modified"),
    (305, str "Use Proxy"),
    (307, str "Temporary Redirect"),
    (308, str "Permanent Redirect"),
    (400, str "Bad Request"),
    (401, str "Unauthorized"),
    (402, str "Payment Required"),
    (403, str "Forbidden"),
    (404, str "Not Found"),
    (405, str "Method Not Allowed"),
    (406, str "Not Acceptable"),
    (407, str "Proxy Authentication Required"),
    (408, str "Request Timeout"),
    (409, str "Conflict"),
    (410, str "Gone"),
    (411, str "Length Required"),
    (412, str "Precondition Failed"),
    (413, str "Request Entity Too Large"),
    (414, str "Request URI Too Long"),
    (415, str "Unsupported Media Type"),
    (416, str "Requested Range Not Satisfiable"),
    (417, str "Expectation Failed"),
    (418, str "I\x27m a teapot"),
    (421, str "Misdirected Request"),
    (422, str "Unprocessable Entity"),
    (423, str "Locked"),
    (424, str "Failed Dependency"),
    (425, str "Too Early"),
    (426, str "Upgrade Required"),
    (428, str "Precondition Required"),
    (429, str "Too Many Requests"),
    (431, str "Request Header Fields Too Large"),
    (451, str "Unavailable For Legal Reasons"),
    (500, str "Internal Server Error"),
    (501, str "Not Implemented"),
    (502, str "Bad Gateway"),
    (503, str "Service Unavailable"),
    (504, str "Gateway Timeout"),
    (505, str "HTTP Version Not Supported"),
    (506, str "Variant Also Negotiates"),
    (507, str "Insufficient Storage"),
    (508, str "Loop Detected"),
    (510, str "Not Extended"),
    (511, str "Network Authentication Required")
  ]

/-- The function http.StatusText of net/http: the reason text of the status
codes the library knows, the empty string for every other code. -/
def http.StatusText (code : Int) : GoString :=
  (http.statusText.lookup code).getD []

/-- The struct Response, as far as the pipeline reads it: the status code,
the header and the bytes of the body of the embedded http.Response. -/
structure Response where
  StatusCode : Int
  Header : MIMEHeader
  Body : GoString
  deriving DecidableEq, Repr

/-- The variable UnexpectedStatusCodeErr. -/
def UnexpectedStatusCodeErr : GoError := .UnexpectedStatusCodeErr

/-- The function responseErr. -/
def responseErr (resp : Response) : GoError :=
  if 400 ≤ resp.StatusCode then
    let st := http.StatusText resp.StatusCode
    .errorString st
  else UnexpectedStatusCodeErr

deriving instance DecidableEq for Except

/-- How a call ends that may also panic or block: with a value and a nil
error, with an error, with a run-time panic, or never (a lock that is not
granted). -/
inductive Outcome (α : Type) where
  | ok (a : α)
  | error (err : GoError)
  | panic (msg : GoString)
  | blocked
  deriving DecidableEq, Repr

/-! ## client: bodies -/

/-- A strings.Reader: the string and the current reading index. -/
structure strings.Reader where
  s : GoString
  i : Nat
  deriving DecidableEq, Repr

/-- The function strings.NewReader. -/
def strings.NewReader (s : GoString) : strings.Reader :=
  { s := s, i := 0 }

/-- The method strings.Reader.Len: the number of bytes of the unread portion. -/
def strings.Reader.Len (r : strings.Reader) : Int :=
  if r.i ≥ r.s.length then 0 else (r.s.length : Int) - (r.i : Int)

/-- The function shouldEscape of net/url in the mode of a query component:
letters, digits and the marks - _ . ~ are kept. -/
def url.shouldEscape (c : Nat) : Bool :=
  if (97 ≤ c ∧ c ≤ 122) ∨ (65 ≤ c ∧ c ≤ 90) ∨ (48 ≤ c ∧ c ≤ 57) then false
  else if c = 45 ∨ c = 95 ∨ c = 46 ∨ c = 126 then false
  else true

/-- The upper-case hexadecimal digit of a value below 16. -/
def url.upperhex (n : Nat) : Nat :=
  if n < 10 then 48 + n else 55 + n

/-- The function url.QueryEscape. -/
def url.QueryEscape (s : GoString) : GoString :=
  s.flatMap (fun c =>
    if c = 32 then [43]
    else if url.shouldEscape c then [37, url.upperhex (c / 16), url.upperhex (c % 16)]
    else [c])

/-- The method url.Values.Encode: the pairs key=value joined by an ampersand,
keys in ascending order, the values of a key in their order. -/
def url.Values.Encode (v : MIMEHeader) : GoString :=
  (List.intersperse (str "&")
    ((slices.Sorted v.Keys).flatMap (fun k =>
      (v.Get k).map (fun val => url.QueryEscape k ++ str "=" ++ url.QueryEscape val)))).flatten

/-- An EncoderFunc with the value it is applied to, seen from the body that
holds it: what its successive invocations f(v) return (an invocation beyond
the list returns what the last one of the list returns, and no bytes and no
error for an empty list), and the number of invocations made so far. -/
structure EncoderFunc where
  returns : List (GoString × Option GoError)
  invoked : Nat
  deriving DecidableEq, Repr

/-- One invocation f(v): what it returns, and the function afterwards. -/
def EncoderFunc.invoke (f : EncoderFunc) : (GoString × Option GoError) × EncoderFunc :=
  (f.returns.getD f.invoked (f.returns.getLastD ([], none)),
    { f with invoked := f.invoked + 1 })

/-- An encode function that has not been invoked yet and returns the given
bytes and error at every invocation. -/
def EncoderFunc.const (result : GoString × Option GoError) : EncoderFunc :=
  { returns := [result], invoked := 0 }

/-- The implementations of the interface Body. An encoderBody carries its
encode function with its value (f), the memoized bytes and error, and the
state of its sync.Once; a formBody carries its fields, the encoded form once
made, and the state of its sync.Once. -/
inductive Body where
  | noBody
  | bytesBody (b : GoString) (ct : GoString)
  | stringReaderBody (sr : strings.Reader) (ct : GoString)
  | encoderBody (f : EncoderFunc) (b : GoString) (err : Option GoError)
      (once : Bool) (ct : GoString)
  | formBody (f : MIMEHeader) (enc : Option GoString) (once : Bool)
  | multipartBody (mp : Multipart)
  deriving DecidableEq, Repr

/-- The variable NoBody. -/
def NoBody : Body := .noBody

/-- The constructor NewBody. -/
def NewBody (b : GoString) (contentType : GoString) : Body :=
  .bytesBody b contentType

/-- The constructor NewStringBody. -/
def NewStringBody (s : GoString) (contentType : GoString) : Body :=
  .stringReaderBody (strings.NewReader s) contentType

/-- The constructor NewStringReaderBody. -/
def NewStringReaderBody (sr : strings.Reader) (contentType : GoString) : Body :=
  .stringReaderBody sr contentType

/-- The constructor NewEncoderBody; f stands for the function and its value. -/
def NewEncoderBody (f : EncoderFunc) (contentType : GoString) : Body :=
  .encoderBody f [] none false contentType

/-- The constructor NewFormBody. -/
def NewFormBody : Body :=
  .formBody [] none false

/-- The constructor NewMultipartBody. -/
def NewMultipartBody (mp : Multipart) : Body :=
  .multipartBody mp

/-- The method encoderBody.Encode on the fields of the body: the encode
function and the memoized bytes and error after the call. The function is
invoked inside the sync.Once, so only when the Once is unused, and what it
returns is stored in the two fields. -/
def encoderBody.Encode (f : EncoderFunc) (b : GoString)
    (err : Option GoError) (once : Bool) : EncoderFunc × GoString × Option GoError :=
  if once then (f, b, err)
  else (f.invoke.2, f.invoke.1.1, f.invoke.1.2)

/-- The method formBody.Encode on the fields of the body: the encoded form
after the call. The fields are encoded inside the sync.Once, so only on the
first call. -/
def formBody.Encode (f : MIMEHeader) (enc : Option GoString) (once : Bool) : Option GoString :=
  if once then enc else some (url.Values.Encode f)

/-- The method Encode of encoderBody and formBody: the error it returns and
the body afterwards. The other bodies have no such method and are left as
they are. -/
def Body.Encode : Body → Option GoError × Body
  | .encoderBody f b err once ct =>
    let after := encoderBody.Encode f b err once
    (after.2.2, .encoderBody after.1 after.2.1 after.2.2 true ct)
  | .formBody f enc once => (none, .formBody f (formBody.Encode f enc once) true)
  | b => (none, b)

/-- The method Len of every body: the declared length and the body
afterwards. -/
def Body.Len (fs : FileSystem) : Body → Int × Body
  | .noBody => (0, .noBody)
  | .bytesBody b ct => ((b.length : Int), .bytesBody b ct)
  | .stringReaderBody sr ct => (sr.Len, .stringReaderBody sr ct)
  | .encoderBody f b err once ct =>
    let after := encoderBody.Encode f b err once
    ((after.2.1.length : Int), .encoderBody after.1 after.2.1 after.2.2 true ct)
  | .formBody f enc once =>
    let after := formBody.Encode f enc once
    ((((after.getD []).length : Nat) : Int), .formBody f after true)
  | .multipartBody mp => (mp.Len fs, .multipartBody mp)

/-- The method Reader of every body: the stream or the error, and the body
afterwards. The stream of a multipart body is what the consumer of
multipart.Reader reads, and its parts afterwards are those the producer
leaves. -/
def Body.Reader (fs : FileSystem) : Body → Except GoError ReadCloser × Body
  | .noBody => (.ok { data := [], err := none, closer := none }, .noBody)
  | .bytesBody b ct => (.ok { data := b, err := none, closer := none }, .bytesBody b ct)
  | .stringReaderBody sr ct =>
    (.ok { data := sr.s.drop sr.i, err := none, closer := none }, .stringReaderBody sr ct)
  | .encoderBody f b err once ct =>
    let after := encoderBody.Encode f b err once
    match after.2.2 with
    | some e => (.error e, .encoderBody after.1 after.2.1 after.2.2 true ct)
    | none =>
      (.ok { data := after.2.1, err := none, closer := none },
        .encoderBody after.1 after.2.1 after.2.2 true ct)
  | .formBody f enc once =>
    let after := formBody.Encode f enc once
    (.ok { data := after.getD [], err := none, closer := none }, .formBody f after true)
  | .multipartBody mp =>
    let drained := reader.drain (Opencast.Reader fs mp).pipe
    (.ok { data := drained.1,
           err := if drained.2 = some GoError.EOF then none else drained.2,
           closer := none },
      .multipartBody { mp with parts := (Opencast.Reader fs mp).parts })

/-- The method ContentType of every body. -/
def Body.ContentType : Body → GoString
  | .noBody => []
  | .bytesBody _ ct => ct
  | .stringReaderBody _ ct => ct
  | .encoderBody _ _ _ _ ct => ct
  | .formBody _ _ _ => str "application/x-www-form-urlencoded"
  | .multipartBody mp => str "multipart/form-data; boundary=\"" ++ mp.boundary ++ str "\""

/-! ## client: requests and the execution of one call -/

/-- The struct Request. The context, the two maps and the body may be nil. -/
structure Request where
  Ctx : Option Unit
  Method : GoString
  Service : GoString
  Path : GoString
  Query : Option MIMEHeader
  Header : Option MIMEHeader
  Body : Option Body
  deriving DecidableEq, Repr

/-- The interface Doer: the method Do on a state of the implementation. An
implementation returns either a response or an error, as client.Do does. -/
abbrev Doer (σ : Type) := Request → σ → Except GoError Response × σ

/-- The function GenericDo; reqFunc is what the call reqFunc() returns. The
result is the returned pair (response, error). -/
def GenericDo {σ : Type} (doer : Doer σ) (reqFunc : Except GoError Request) (s : σ) :
    (Option Response × Option GoError) × σ :=
  match reqFunc with
  | .error err => ((none, some err), s)
  | .ok req =>
    match doer req s with
    | (.error err, s) => ((none, some err), s)
    | (.ok resp, s) =>
      if resp.StatusCode < 200 ∨ 300 ≤ resp.StatusCode then
        ((some resp, some (responseErr resp)), s)
      else ((some resp, none), s)

/-- A Doer that answers every request with the same response and counts the
calls made to it. -/
def respondWith (resp : Response) : Doer Nat :=
  fun _ calls => (.ok resp, calls + 1)

/-- A GET request for the path /api/events of the service
org.opencastproject.external, with the two maps made and no body. -/
def sampleRequest : Request :=
  { Ctx := some (), Method := str "GET", Service := str "org.opencastproject.external",
    Path := str "/api/events", Query := some [], Header := some [], Body := none }

/-- A response with the given status code, no header and an empty body. -/
def statusResponse (code : Int) : Response :=
  { StatusCode := code, Header := [], Body := [] }

/-! ## mime.ParseMediaType

The parser of the standard library, on bytes: letters are lowered and white
space is recognised in the ASCII range. The parameters themselves are not
returned (AutoDecoder discards them), only the media type and the error. -/

/-- The function strings.ToLower on ASCII letters. -/
def strings.ToLower (s : GoString) : GoString :=
  s.map (fun c => if 65 ≤ c ∧ c ≤ 90 then c + 32 else c)

/-- The ASCII white space of unicode.IsSpace: tab, line feed, vertical tab,
form feed, carriage return, space. -/
def unicode.IsSpace (c : Nat) : Bool :=
  c == 9 || c == 10 || c == 11 || c == 12 || c == 13 || c == 32

/-- The call strings.TrimLeftFunc(s, unicode.IsSpace). -/
def strings.TrimLeft (s : GoString) : GoString :=
  s.dropWhile unicode.IsSpace

/-- The function strings.TrimSpace. -/
def strings.TrimSpace (s : GoString) : GoString :=
  ((s.dropWhile unicode.IsSpace).reverse.dropWhile unicode.IsSpace).reverse

/-- The function strings.HasPrefix. -/
def strings.HasPrefix (s pre : GoString) : Bool :=
  pre.isPrefixOf s

/-- The function strings.HasSuffix. -/
def strings.HasSuffix (s suf : GoString) : Bool :=
  suf.isSuffixOf s

/-- The function isTSpecial of mime: one of the bytes ()<>@,;:\"/[]?= -/
def mime.isTSpecial (c : Nat) : Bool :=
  (str "()<>@,;:\\\"/[]?=").contains c

/-- The function isTokenChar of mime. -/
def mime.isTokenChar (c : Nat) : Bool :=
  32 < c && c < 127 && !mime.isTSpecial c

/-- The function consumeToken of mime: the longest leading token and the rest. -/
def mime.consumeToken (v : GoString) : GoString × GoString :=
  (v.takeWhile mime.isTokenChar, v.dropWhile mime.isTokenChar)

/-- The loop of consumeValue over a quoted string, after the opening quote:
unread is what is left to scan, buffer what was collected, v the whole value
(returned as rest when no closing quote is found). -/
def mime.consumeQuoted (v : GoString) : GoString → GoString → GoString × GoString
  | [], _ => ([], v)
  | [r], buffer =>
    if r = 34 then (buffer, [])
    else if r = 13 ∨ r = 10 then ([], v)
    else mime.consumeQuoted v [] (buffer ++ [r])
  | r :: n :: unread, buffer =>
    if r = 34 then (buffer, n :: unread)
    else if r = 92 ∧ mime.isTSpecial n then mime.consumeQuoted v unread (buffer ++ [n])
    else if r = 13 ∨ r = 10 then ([], v)
    else mime.consumeQuoted v (n :: unread) (buffer ++ [r])

/-- The function consumeValue of mime: a token or a quoted string. -/
def mime.consumeValue (v : GoString) : GoString × GoString :=
  match v with
  | [] => ([], [])
  | c :: unread => if c ≠ 34 then mime.consumeToken v else mime.consumeQuoted v unread []

/-- The function consumeMediaParam of mime: the parameter name, its value and
the rest; an empty name when no parameter could be read. -/
def mime.consumeMediaParam (v : GoString) : GoString × GoString × GoString :=
  let rest := strings.TrimLeft v
  if !strings.HasPrefix rest (str ";") then ([], [], v)
  else
    let rest := rest.drop 1 -- consume semicolon
    let rest := strings.TrimLeft rest
    let (param, rest) := mime.consumeToken rest
    let param := strings.ToLower param
    if param = [] then ([], [], v)
    else
      let rest := strings.TrimLeft rest
      if !strings.HasPrefix rest (str "=") then ([], [], v)
      else
        let rest := rest.drop 1 -- consume equals sign
        let rest := strings.TrimLeft rest
        let (value, rest2) := mime.consumeValue rest
        if value = [] ∧ rest2 = rest then ([], [], v)
        else (param, value, rest2)

/-- The function checkMediaTypeDisposition of mime. -/
def mime.checkMediaTypeDisposition (s : GoString) : Option GoError :=
  let (typ, rest) := mime.consumeToken s
  if typ = [] then some (.errorString (str "mime: no media type"))
  else if rest = [] then none
  else if !strings.HasPrefix rest (str "/") then
    some (.errorString (str "mime: expected slash after first token"))
  else
    let (subtype, rest) := mime.consumeToken (rest.drop 1)
    if subtype = [] then some (.errorString (str "mime: expected token after slash"))
    else if rest ≠ [] then
      some (.errorString (str "mime: unexpected content after media subtype"))
    else none

/-- The parameter loop of mime.ParseMediaType: v is what is left of the
header, seen the parameters read so far. Every turn consumes a semicolon, so
the length of the header bounds the number of turns. -/
def mime.ParseMediaType.loop (mediatype : GoString) :
    Nat → GoString → List (GoString × GoString) → GoString × Option GoError
  | 0, _, _ => (mediatype, none)
  | turns + 1, v, seen =>
    if v = [] then (mediatype, none)
    else
      let v := strings.TrimLeft v
      if v = [] then (mediatype, none)
      else
        let (key, value, rest) := mime.consumeMediaParam v
        if key = [] then
          if strings.TrimSpace rest = str ";" then
            -- ignore trailing semicolons
            (mediatype, none)
          else
            -- parse error
            (mediatype, some .ErrInvalidMediaParameter)
        else
          match seen.lookup key with
          | some old =>
            if old ≠ value then ([], some (.errorString (str "mime: duplicate parameter name")))
            else mime.ParseMediaType.loop mediatype turns rest ((key, value) :: seen)
          | none => mime.ParseMediaType.loop mediatype turns rest ((key, value) :: seen)

/-- The function mime.ParseMediaType, without the map of parameters: the
media type in lower case without surrounding white space, and the error. -/
def mime.ParseMediaType (v : GoString) : GoString × Option GoError :=
  let base := v.takeWhile (fun c => c != 59)
  let mediatype := strings.TrimSpace (strings.ToLower base)
  match mime.checkMediaTypeDisposition mediatype with
  | some err => ([], some err)
  | none => mime.ParseMediaType.loop mediatype (v.length + 1) (v.drop base.length) []

/-! ## client: decoding a response -/

/-- The decoders of encoding/json and encoding/xml for the target type T, and
the parser of the Content-Type header: library code the pipeline calls. -/
structure Decoders (T : Type) where
  ParseMediaType : GoString → GoString × Option GoError
  jsonDecode : GoString → Except GoError T
  xmlDecode : GoString → Except GoError T

/-- The function validHeaderFieldByte of net/textproto: a letter, a digit or
one of the marks of a token. -/
def textproto.validHeaderFieldByte (c : Nat) : Bool :=
  (97 ≤ c && c ≤ 122) || (65 ≤ c && c ≤ 90) || (48 ≤ c && c ≤ 57) ||
    [33, 35, 36, 37, 38, 39, 42, 43, 45, 46, 94, 95, 96, 124, 126].contains c

/-- The canonical spelling of a header key made of valid bytes: the first
letter and every letter after a hyphen in upper case, the other letters in
lower case; upper tells whether the next letter is to be in upper case. -/
def textproto.canonical : Bool → GoString → GoString
  | _, [] => []
  | upper, c :: cs =>
    let c2 :=
      if upper ∧ 97 ≤ c ∧ c ≤ 122 then c - 32
      else if ¬ upper ∧ 65 ≤ c ∧ c ≤ 90 then c + 32
      else c
    c2 :: textproto.canonical (c2 == 45) cs

/-- The function textproto.CanonicalMIMEHeaderKey: a key with a byte that is
not valid in a header field name is returned as it is. -/
def textproto.CanonicalMIMEHeaderKey (s : GoString) : GoString :=
  if s.all textproto.validHeaderFieldByte then textproto.canonical true s else s

/-- The method http.Header.Get: the first value of the key in canonical
form, the empty string when there is none. -/
def http.Header.Get (h : MIMEHeader) (key : GoString) : GoString :=
  (h.Get (textproto.CanonicalMIMEHeaderKey key)).head?.getD []

/-- The two decoders AutoDecoder delegates to. -/
inductive DecoderReaderFunc where
  | JsonDecoder
  | XMLDecoder
  deriving DecidableEq, Repr

/-- The switch of AutoDecoder on the media type mt, with its two fallthrough
cases: the decoder it delegates to, or the error of the default case. -/
def AutoDecoder.switch (mt : GoString) : Except GoError DecoderReaderFunc :=
  -- JSON
  if (strings.HasPrefix mt (str "application/") && strings.HasSuffix mt (str "+json"))
      || mt == str "application/json" then
    .ok .JsonDecoder
  -- XML
  else if (strings.HasPrefix mt (str "application/") && strings.HasSuffix mt (str "+xml"))
      || (mt == str "application/xml" || mt == str "text/xml") then
    .ok .XMLDecoder
  else
    .error (.errorString (str "AutoDecoder: unsupported media type " ++ mt))

/-- The choice of AutoDecoder for a response: the decoder it delegates to, or
the error it returns without decoding. -/
def AutoDecoder.choice (ParseMediaType : GoString → GoString × Option GoError)
    (resp : Response) : Except GoError DecoderReaderFunc :=
  let ct := http.Header.Get resp.Header (str "Content-Type")
  match ParseMediaType ct with
  | (_, some err) => .error err
  | (mt, none) => AutoDecoder.switch mt

/-- The function JsonDecoder. -/
def JsonDecoder {T : Type} (lib : Decoders T) (resp : Response) : Except GoError T :=
  lib.jsonDecode resp.Body

/-- The function XMLDecoder. -/
def XMLDecoder {T : Type} (lib : Decoders T) (resp : Response) : Except GoError T :=
  lib.xmlDecode resp.Body

/-- The function AutoDecoder: the decoded value or the error. -/
def AutoDecoder {T : Type} (lib : Decoders T) (resp : Response) : Except GoError T :=
  match AutoDecoder.choice lib.ParseMediaType resp with
  | .error err => .error err
  | .ok .JsonDecoder => JsonDecoder lib resp
  | .ok .XMLDecoder => XMLDecoder lib resp

/-- The method Response.Decode with AutoDecoder as the decoder function. -/
def Response.Decode {T : Type} (lib : Decoders T) (resp : Response) : Except GoError T :=
  AutoDecoder lib resp

/-- The function GenericAutoDecodedDo: the returned triple (data, response,
error); the data is the zero value of T unless the decoding succeeded. -/
def GenericAutoDecodedDo {σ T : Type} [Inhabited T] (lib : Decoders T) (doer : Doer σ)
    (reqFunc : Except GoError Request) (s : σ) : (T × Option Response × Option GoError) × σ :=
  match GenericDo doer reqFunc s with
  | ((resp, some err), s) => ((default, resp, some err), s)
  -- not reached: GenericDo returns a response whenever its error is nil
  | ((none, none), s) => ((default, none, none), s)
  | ((some resp, none), s) =>
    match resp.Decode lib with
    | .error err => ((default, some resp, some err), s)
    | .ok data => ((data, some resp, none), s)

/-- A response with status 200 and the given Content-Type header. -/
def typedResponse (contentType : GoString) (body : GoString) : Response :=
  { StatusCode := 200, Header := [(str "Content-Type", [contentType])], Body := body }

/-! ## client: the pagination driver -/

/-- The closure returned by CollectAllPages(list), on the slice list points
to: an empty page stops, any other page is appended. -/
def CollectAllPages {T : Type} (page : List T) (_resp : Option Response) (list : List T) :
    Bool × List T :=
  if page.length = 0 then (false, list)
  else (true, list ++ page)

/-- The loop of Paginate from the index i on, run for at most the given
number of turns (none: the loop has not ended by then). The state of the page
function is passed along like that of the Doer. -/
def Paginate.loop {σ ρ T : Type} (lib : Decoders (List T)) (doer : Doer σ)
    (paginateReqFunc : Nat → Except GoError Request)
    (pageFunc : List T → Option Response → ρ → Bool × ρ) :
    Nat → Nat → σ → ρ → Option (Option GoError × σ × ρ)
  | 0, _, _, _ => none
  | turns + 1, i, s, r =>
    match GenericAutoDecodedDo lib doer (paginateReqFunc i) s with
    | ((_, _, some err), s) => some (some err, s, r)
    | ((page, resp, none), s) =>
      match pageFunc page resp r with
      | (true, r) => Paginate.loop lib doer paginateReqFunc pageFunc turns (i + 1) s r
      | (false, r) => some (none, s, r)

/-- The function Paginate: the returned error, and the states of the Doer
and of the page function afterwards. -/
def Paginate {σ ρ T : Type} (lib : Decoders (List T)) (doer : Doer σ)
    (paginateReqFunc : Nat → Except GoError Request)
    (pageFunc : List T → Option Response → ρ → Bool × ρ) (turns : Nat) (s : σ) (r : ρ) :
    Option (Option GoError × σ × ρ) :=
  Paginate.loop lib doer paginateReqFunc pageFunc turns 0 s r

/-- A Doer that answers the successive requests with the successive responses
of a script and records the requests it was given. -/
def scriptedDoer : Doer (List Response × List Request) :=
  fun req state =>
    match state.1 with
    | [] => (.error GoError.EOF, ([], state.2 ++ [req]))
    | resp :: rest => (.ok resp, (rest, state.2 ++ [req]))

/-- The request for page i of the sample listing: the page index is the
value of the query parameter offset, written with i strokes. -/
def pageRequest (i : Nat) : Request :=
  { sampleRequest with Query := some [(str "offset", [List.replicate i 49])] }

/-- Sample decoders: the parser of the library, and as the decoded page the
bytes of the body themselves. -/
def byteDecoders : Decoders (List Nat) where
  ParseMediaType := mime.ParseMediaType
  jsonDecode := fun body => .ok body
  xmlDecode := fun body => .ok body

/-- The script of the sample listing: three non-empty pages, then an empty
one, each a 200 response of type application/json. -/
def threePages : List Response :=
  [typedResponse (str "application/json") [1, 2],
   typedResponse (str "application/json") [3],
   typedResponse (str "application/json") [4, 5, 6],
   typedResponse (str "application/json") []]

/-! ## client: service resolution and the outbound call -/

/-- The interface ServiceMapper: its method GetHost. -/
abbrev ServiceMapper := GoString → Except GoError GoString

/-- The struct StaticServiceMapper; a nil table is an empty table. -/
structure StaticServiceMapper where
  Default : GoString
  ServiceHost : List (GoString × GoString)
  deriving DecidableEq, Repr

/-- The method StaticServiceMapper.GetHost. -/
def StaticServiceMapper.GetHost (m : StaticServiceMapper) : ServiceMapper :=
  fun svc =>
    match m.ServiceHost.lookup svc with
    | some host => .ok host
    | none => .ok m.Default

/-- A url.URL as Request.URL uses it: what url.Parse made of the host (kept
as given), the path and the encoded query. -/
structure url.URL where
  Host : GoString
  Path : GoString
  RawQuery : GoString
  deriving DecidableEq, Repr

/-- The functions of net/url, path and net/http that Request.URL and
Request.HTTPRequest call: url.Parse, path.Join of two elements, URL.String,
and the checks of http.NewRequestWithContext on the context, the method and
the URL text (the error it returns, if any). -/
structure NetLib where
  Parse : GoString → Except GoError url.URL
  Join : GoString → GoString → GoString
  String : url.URL → GoString
  NewRequestWithContext : Option Unit → GoString → GoString → Option GoError

/-- The method Request.URL. -/
def Request.URL (net : NetLib) (req : Request) (sm : ServiceMapper) : Except GoError url.URL :=
  match sm req.Service with
  | .error err => .error err
  | .ok hostURL =>
    match net.Parse hostURL with
    | .error err => .error err
    | .ok u =>
      .ok { u with
        Path := net.Join u.Path req.Path,
        RawQuery := url.Values.Encode (req.Query.getD []) }

/-- The struct http.Request as Request.HTTPRequest fills it: the method, the
URL text, the body stream, the body whose method Reader is stored in GetBody,
the content length and the header map (shared with the Request). -/
structure http.Request where
  Method : GoString
  URL : GoString
  Body : ReadCloser
  GetBody : Opencast.Body
  ContentLength : Int
  Header : Option MIMEHeader
  deriving DecidableEq, Repr

/-- The method http.Header.Set: the key in canonical form is bound to the
single value; an assignment to an entry of a nil map panics. -/
def http.Header.Set (h : Option MIMEHeader) (key value : GoString) :
    Outcome (Option MIMEHeader) :=
  match h with
  | none => .panic (str "assignment to entry in nil map")
  | some h => .ok (some (MIMEHeader.Set h (textproto.CanonicalMIMEHeaderKey key) value))

/-- The method Request.HTTPRequest: the outbound call, the error or the
panic, and the Request afterwards (a nil body replaced by NoBody, the states
of the body advanced, the header map shared with the call). -/
def Request.HTTPRequest (net : NetLib) (fs : FileSystem) (req : Request) (sm : ServiceMapper) :
    Outcome http.Request × Request :=
  match req.URL net sm with
  | .error err => (.error err, req)
  | .ok u =>
    let body0 : Opencast.Body := req.Body.getD NoBody
    match body0.Reader fs with
    | (.error err, body1) => (.error err, { req with Body := some body1 })
    | (.ok body, body1) =>
      match net.NewRequestWithContext req.Ctx req.Method (net.String u) with
      | some err => (.error err, { req with Body := some body1 })
      | none =>
        let (len, body2) := body1.Len fs
        let httpReq : http.Request :=
          { Method := if req.Method = [] then str "GET" else req.Method,
            URL := net.String u,
            Body := body,
            GetBody := body2,
            ContentLength := len,
            Header := req.Header }
        if body2.ContentType ≠ [] then
          match http.Header.Set httpReq.Header (str "Content-Type") body2.ContentType with
          | .ok h => (.ok { httpReq with Header := h }, { req with Body := some body2, Header := h })
          | .error err => (.error err, { req with Body := some body2 })
          | .panic msg => (.panic msg, { req with Body := some body2 })
          | .blocked => (.blocked, { req with Body := some body2 })
        else (.ok httpReq, { req with Body := some body2 })

/-- A stand-in for the library on which every call succeeds: the host is kept
as its text, two path elements are joined by concatenation, and only a nil
context is refused. -/
def plainNet : NetLib where
  Parse := fun host => .ok { Host := host, Path := [], RawQuery := [] }
  Join := fun a b => a ++ b
  String := fun u =>
    u.Host ++ u.Path ++ (if u.RawQuery = [] then [] else str "?" ++ u.RawQuery)
  NewRequestWithContext := fun ctx _ _ =>
    match ctx with
    | none => some (.errorString (str "net/http: nil Context"))
    | some _ => none

/-- The service mapper of the example of the repository: only a default. -/
def stableOpencast : StaticServiceMapper :=
  { Default := str "https://stable.opencast.org", ServiceHost := [] }

/-- A POST request whose body is a lazily encoded value for which the encode
function fails (as json.Marshal does on a value it does not support). -/
def unencodableRequest : Request :=
  { sampleRequest with
    Method := str "POST",
    Body := some (NewEncoderBody
      (EncoderFunc.const ([], some (.errorString (str "json: unsupported type: chan int"))))
      (str "application/json")) }

/-- A POST request with a byte body of type application/json and a header. -/
def jsonRequest : Request :=
  { sampleRequest with
    Method := str "POST",
    Header := some [(str "Accept", [str "application/json"])],
    Body := some (NewBody (str "[1,2]") (str "application/json")) }

/-- A request like jsonRequest but with a nil context. -/
def nilContextRequest : Request :=
  { jsonRequest with Ctx := none }

/-- A request like jsonRequest but built as a struct literal without a header
map. -/
def nilHeaderRequest : Request :=
  { jsonRequest with Header := none }

/-! ## apis: the response of the service registry -/

/-- The type strobj.Type (Type is a reserved word here). -/
inductive strobj.Type_ where
  | String
  | Object
  deriving DecidableEq, Repr

/-- The struct strobj.StringOrObject. -/
structure strobj.StringOrObject (T : Type) where
  Type_ : strobj.Type_
  StringVal : GoString
  ObjectVal : T
  deriving DecidableEq, Repr

/-- The type objlist.Type. -/
inductive objlist.Type_ where
  | Object
  | List
  deriving DecidableEq, Repr

/-- The struct objlist.ObjectOrList. -/
structure objlist.ObjectOrList (T : Type) where
  Type_ : objlist.Type_
  ObjectVal : T
  ListVal : List T
  deriving DecidableEq, Repr

/-- The struct serviceregistry.Service, with the fields that name the
service instance and its state. -/
structure serviceregistry.Service where
  Type_ : GoString
  Host : GoString
  Path : GoString
  Active : Bool
  Online : Bool
  Maintenance : Bool
  deriving DecidableEq, Repr

/-- The struct serviceregistry.AvailableServicesList. -/
structure serviceregistry.AvailableServicesList where
  Service : objlist.ObjectOrList serviceregistry.Service
  deriving DecidableEq, Repr

/-- The struct serviceregistry.AvailableServicesResponse. -/
structure serviceregistry.AvailableServicesResponse where
  Services : strobj.StringOrObject serviceregistry.AvailableServicesList
  deriving DecidableEq, Repr

/-! ## client: the dynamic service mapper -/

/-- A sync.RWMutex in a run of one goroutine: the number of read locks held
and whether the write lock is held. -/
structure RWMutex where
  readers : Nat
  writer : Bool
  deriving DecidableEq, Repr

/-- The method RWMutex.RLock: granted unless the write lock is held (none:
the call blocks). -/
def RWMutex.RLock (m : RWMutex) : Option RWMutex :=
  if m.writer then none else some { m with readers := m.readers + 1 }

/-- The method RWMutex.RUnlock: a fatal error when no read lock is held. -/
def RWMutex.RUnlock (m : RWMutex) : Option RWMutex :=
  if m.readers = 0 then none else some { m with readers := m.readers - 1 }

/-- The method RWMutex.Lock: granted when no lock is held (none: the call
blocks). -/
def RWMutex.Lock (m : RWMutex) : Option RWMutex :=
  if m.writer ∨ m.readers ≠ 0 then none else some { m with writer := true }

/-- The method RWMutex.Unlock: a fatal error when the write lock is not
held. -/
def RWMutex.Unlock (m : RWMutex) : Option RWMutex :=
  if m.writer then some { m with writer := false } else none

/-- The struct dynamicServiceItem. -/
structure dynamicServiceItem where
  hosts : List GoString
  expired : Int
  deriving DecidableEq, Repr

/-- The struct dynamicServiceMapper: the time to live in nanoseconds, the
mutex and the cache. The registry client is part of the World. -/
structure dynamicServiceMapper where
  itemTTL : Int
  mtx : RWMutex
  serviceHost : List (GoString × dynamicServiceItem)
  deriving DecidableEq, Repr

/-- What the mapper reads from outside: the clock (the n-th reading of
time.Now, in nanoseconds since the Unix epoch), the registry (what the n-th
call of GenericAutoDecodedDo for a service type returns: the decoded response
or the error) and the random source (the n-th draw), with the number of
readings, queries and draws made so far. -/
structure World where
  clock : Nat → Int
  registry : Nat → GoString → Except GoError serviceregistry.AvailableServicesResponse
  rand : Nat → Nat
  readings : Nat
  queries : Nat
  draws : Nat

/-- The function NewDynamicServiceMapper. -/
def NewDynamicServiceMapper (ttl : Int) : dynamicServiceMapper :=
  { itemTTL := ttl, mtx := { readers := 0, writer := false }, serviceHost := [] }

/-- The method Time.Unix of a time given in nanoseconds: whole seconds,
rounded down. -/
def Unix (t : Int) : Int :=
  t / 1000000000

/-- The assignment m[k] = v on a map held as an association list. -/
def mapAssign {V : Type} (m : List (GoString × V)) (k : GoString) (v : V) :
    List (GoString × V) :=
  (k, v) :: m.filter (fun kv => kv.1 != k)

/-- The hosts resolveService reads from a decoded response of a known
service type: the single object, or the elements of the list. -/
def resolveService.hosts (svcObjectList : serviceregistry.AvailableServicesList) :
    List GoString :=
  match svcObjectList.Service.Type_ with
  | .Object => [svcObjectList.Service.ObjectVal.Host]
  | .List => svcObjectList.Service.ListVal.map (fun s => s.Host)

/-- The method dynamicServiceMapper.resolveService, entered with the read
lock held: the item or the error, the mapper and the world afterwards. -/
def dynamicServiceMapper.resolveService (m : dynamicServiceMapper) (w : World) (svc : GoString) :
    Outcome dynamicServiceItem × dynamicServiceMapper × World :=
  let w1 := { w with queries := w.queries + 1 }
  match w.registry w.queries svc with
  | .error err => (.error err, m, w1)
  | .ok availableSvc =>
    if availableSvc.Services.Type_ = strobj.Type_.String then (.error .ServiceNotFoundErr, m, w1)
    else
      let hosts := resolveService.hosts availableSvc.Services.ObjectVal
      -- the read lock is given up and the write lock is taken
      match m.mtx.RUnlock with
      | none => (.panic (str "sync: RUnlock of unlocked RWMutex"), m, w1)
      | some mtx1 =>
        match mtx1.Lock with
        | none => (.blocked, { m with mtx := mtx1 }, w1)
        | some mtx2 =>
          let item : dynamicServiceItem :=
            { hosts := hosts, expired := Unix (w1.clock w1.readings + m.itemTTL) }
          let w2 := { w1 with readings := w1.readings + 1 }
          let cache := mapAssign m.serviceHost svc item
          -- deferred: Unlock, then RLock
          match mtx2.Unlock with
          | none => (.panic (str "sync: Unlock of unlocked RWMutex"),
              { m with mtx := mtx2, serviceHost := cache }, w2)
          | some mtx3 =>
            match mtx3.RLock with
            | none => (.blocked, { m with mtx := mtx3, serviceHost := cache }, w2)
            | some mtx4 => (.ok item, { m with mtx := mtx4, serviceHost := cache }, w2)

/-- The function rand.IntN with the draw taken from the world: it panics for
n <= 0 and returns a value below n otherwise. -/
def rand.IntN (w : World) (n : Nat) : Outcome Nat × World :=
  if n = 0 then (.panic (str "invalid argument to IntN"), w)
  else (.ok (w.rand w.draws % n), { w with draws := w.draws + 1 })

/-- The deferred call m.mtx.RUnlock() at the end of GetHost, run on a return
and on a panic alike. -/
def dynamicServiceMapper.GetHost.deferred {α : Type}
    (r : Outcome α × dynamicServiceMapper × World) :
    Outcome α × dynamicServiceMapper × World :=
  match r.2.1.mtx.RUnlock with
  | some mtx => (r.1, { r.2.1 with mtx := mtx }, r.2.2)
  | none =>
    match r.1 with
    | .blocked => r
    | _ => (.panic (str "sync: RUnlock of unlocked RWMutex"), r.2.1, r.2.2)

/-- The last two statements of GetHost: a random index into the hosts of the
item, and the host at that index. -/
def dynamicServiceMapper.GetHost.pick (m : dynamicServiceMapper) (w : World)
    (svcItem : dynamicServiceItem) : Outcome GoString × dynamicServiceMapper × World :=
  match rand.IntN w svcItem.hosts.length with
  | (.ok i, w) =>
    match svcItem.hosts[i]? with
    | some host => (.ok host, m, w)
    | none => (.panic (str "index out of range"), m, w)
  | (.error err, w) => (.error err, m, w)
  | (.panic msg, w) => (.panic msg, m, w)
  | (.blocked, w) => (.blocked, m, w)

/-- The expiry check of GetHost and what follows it. -/
def dynamicServiceMapper.GetHost.check (m : dynamicServiceMapper) (w : World) (svc : GoString)
    (svcItem : dynamicServiceItem) : Outcome GoString × dynamicServiceMapper × World :=
  let now := w.clock w.readings
  let w := { w with readings := w.readings + 1 }
  if Unix now > svcItem.expired then
    match m.resolveService w svc with
    | (.ok svcItem, m, w) => dynamicServiceMapper.GetHost.pick m w svcItem
    | (.error err, m, w) => (.error err, m, w)
    | (.panic msg, m, w) => (.panic msg, m, w)
    | (.blocked, m, w) => (.blocked, m, w)
  else dynamicServiceMapper.GetHost.pick m w svcItem

/-- The method dynamicServiceMapper.GetHost: the host, the error or the
panic, the mapper and the world afterwards. -/
def dynamicServiceMapper.GetHost (m : dynamicServiceMapper) (w : World) (svc : GoString) :
    Outcome GoString × dynamicServiceMapper × World :=
  match m.mtx.RLock with
  | none => (.blocked, m, w)
  | some mtx =>
    let m := { m with mtx := mtx }
    dynamicServiceMapper.GetHost.deferred
      (match m.serviceHost.lookup svc with
      | some svcItem => dynamicServiceMapper.GetHost.check m w svc svcItem
      | none =>
        match m.resolveService w svc with
        | (.ok svcItem, m, w) => dynamicServiceMapper.GetHost.check m w svc svcItem
        | (.error err, m, w) => (.error err, m, w)
        | (.panic msg, m, w) => (.panic msg, m, w)
        | (.blocked, m, w) => (.blocked, m, w))

/-- The zero value of serviceregistry.Service. -/
def serviceregistry.Service.zero : serviceregistry.Service :=
  { Type_ := [], Host := [], Path := [], Active := false, Online := false, Maintenance := false }

/-- The response decoded from the registry answer whose services value is an
object with an empty service list: a known service type with zero hosts. -/
def knownWithoutHosts : serviceregistry.AvailableServicesResponse :=
  { Services :=
      { Type_ := .Object, StringVal := [],
        ObjectVal := { Service :=
          { Type_ := .List, ObjectVal := serviceregistry.Service.zero, ListVal := [] } } } }

/-- A world in which the clock stands at 1700000000 seconds, every registry
query is answered with the given response, and every draw is 0. -/
def steadyWorld (answer : Except GoError serviceregistry.AvailableServicesResponse) : World :=
  { clock := fun _ => 1700000000 * 1000000000, registry := fun _ _ => answer,
    rand := fun _ => 0, readings := 0, queries := 0, draws := 0 }

/-! ## Further sample inputs for the encoder -/

/-- A reader over the bytes of a download, whose Close releases resource 7. -/
def downloadReader : ReadCloser :=
  { data := str "video-bytes", err := none, closer := some 7 }

/-- A message with a string field and a stream part. -/
def streamMessage : Multipart :=
  { parts := [FormFieldString (str "a") (str "1"),
      Stream (str "presenter") (str "video.mp4") (some downloadReader)],
    boundary := str "X" }

/-- A message with a file part whose file does not exist, followed by a
stream part over the download. -/
def fileThenStream : Multipart :=
  { parts := [File (str "attachment") (str "/tmp/missing.pdf"),
      Stream (str "presenter") (str "video.mp4") (some downloadReader)],
    boundary := str "X" }

/-! ## client: sequences of method calls on a body -/

/-- The three methods of a body that run its encoding. -/
inductive BodyCall where
  | Len
  | Reader
  | Encode
  deriving DecidableEq, Repr

/-- What a call of one of the three methods returns. -/
inductive BodyReturn where
  | len (n : Int)
  | reader (r : Except GoError ReadCloser)
  | encode (err : Option GoError)
  deriving DecidableEq, Repr

/-- One method call on a body: what it returns and the body afterwards. -/
def Body.call (fs : FileSystem) (b : Body) : BodyCall → BodyReturn × Body
  | .Len => (.len (b.Len fs).1, (b.Len fs).2)
  | .Reader => (.reader (b.Reader fs).1, (b.Reader fs).2)
  | .Encode => (.encode b.Encode.1, b.Encode.2)

/-- The number of invocations of the encode function of a body so far, as
the function itself counts them. -/
def Body.invoked : Body → Nat
  | .encoderBody f _ _ _ _ => f.invoked
  | _ => 0

/-- A sequence of method calls on a body: what the calls return, in order,
and the body afterwards. -/
def Body.calls (fs : FileSystem) : List BodyCall → Body → List BodyReturn × Body
  | [], b => ([], b)
  | c :: cs, b =>
    let first := b.call fs c
    let others := Body.calls fs cs first.2
    (first.1 :: others.1, others.2)

/-- What each method of a lazily encoded body is to return when its encode
function returns result: the length of the bytes, the bytes or the error, the
error. -/
def encoderBody.expected (result : GoString × Option GoError) : BodyCall → BodyReturn
  | .Len => .len (result.1.length : Int)
  | .Reader =>
    match result.2 with
    | some e => .reader (.error e)
    | none => .reader (.ok { data := result.1, err := none, closer := none })
  | .Encode => .encode result.2

/-- The bodies that can be sent again: every body but an encoder body whose
encode function fails (or has failed) and a multipart body with a part that
is not held in memory. -/
def Body.replayable : Body → Prop
  | .encoderBody f b err once _ => (encoderBody.Encode f b err once).2.2 = none
  | .multipartBody mp => ∀ part ∈ mp.parts, part.inMemory = true
  | _ => True

/-- A strings.Reader over the string hello of which two bytes have been read. -/
def halfReadReader : strings.Reader :=
  { s := str "hello", i := 2 }

/-! ## client: the fields of a form body -/

/-- The method url.Values.Get: the first value of the key, the empty string
when there is none. -/
def url.Values.Get (v : MIMEHeader) (key : GoString) : GoString :=
  (v.Get key).head?.getD []

/-- The method url.Values.Set: the key is bound to the single value. -/
def url.Values.Set (v : MIMEHeader) (key value : GoString) : MIMEHeader :=
  (key, [value]) :: v.filter (fun kv => kv.1 != key)

/-- The method url.Values.Add: the value is appended to the values of the key. -/
def url.Values.Add (v : MIMEHeader) (key value : GoString) : MIMEHeader :=
  (key, v.Get key ++ [value]) :: v.filter (fun kv => kv.1 != key)

/-- The method url.Values.Del: the key is deleted. -/
def url.Values.Del (v : MIMEHeader) (key : GoString) : MIMEHeader :=
  v.filter (fun kv => kv.1 != key)

/-- The method url.Values.Has: whether the key is bound. -/
def url.Values.Has (v : MIMEHeader) (key : GoString) : Bool :=
  (v.lookup key).isSome

/-- The method formBody.GetField on the fields of the body. -/
def formBody.GetField (f : MIMEHeader) (key : GoString) : GoString :=
  url.Values.Get f key

/-- The method formBody.SetField on the fields of the body: a panic when the
form is already encoded, the new field set otherwise. -/
def formBody.SetField (f : MIMEHeader) (enc : Option GoString) (key value : GoString) :
    Outcome MIMEHeader :=
  if enc ≠ none then .panic (str "formBody: setting field to already encoded form")
  else .ok (url.Values.Set f key value)

/-- The method formBody.AddField on the fields of the body. -/
def formBody.AddField (f : MIMEHeader) (enc : Option GoString) (key value : GoString) :
    Outcome MIMEHeader :=
  if enc ≠ none then .panic (str "formBody: adding field to already encoded form")
  else .ok (url.Values.Add f key value)

/-- The method formBody.DeleteField on the fields of the body. -/
def formBody.DeleteField (f : MIMEHeader) (enc : Option GoString) (key : GoString) :
    Outcome MIMEHeader :=
  if enc ≠ none then .panic (str "formBody: deleting field form already encoded form")
  else .ok (url.Values.Del f key)

/-- The method formBody.HasField on the fields of the body. -/
def formBody.HasField (f : MIMEHeader) (key : GoString) : Bool :=
  url.Values.Has f key

/-- The method calls on a form body. -/
inductive FormCall where
  | GetField (key : GoString)
  | SetField (key value : GoString)
  | AddField (key value : GoString)
  | DeleteField (key : GoString)
  | HasField (key : GoString)
  | Encode
  | Len
  | Reader
  deriving DecidableEq, Repr

/-- What a method call on a form body returns. -/
inductive FormReturn where
  | done
  | text (s : GoString)
  | flag (b : Bool)
  | called (r : BodyReturn)
  deriving DecidableEq, Repr

/-- The outcome of one of the three methods that change the fields, and the
body afterwards: a panic is raised before any assignment, so it leaves the
body as it is. -/
def Body.changeFields (b : Body) (f : MIMEHeader) (enc : Option GoString) (once : Bool)
    (r : Outcome MIMEHeader) : Outcome FormReturn × Body :=
  match r with
  | .ok f2 => (.ok .done, .formBody f2 enc once)
  | .error err => (.error err, .formBody f enc once)
  | .panic msg => (.panic msg, b)
  | .blocked => (.blocked, b)

/-- One method call on a form body: how it ends and the body afterwards.
(Bodies of another kind do not have the field methods and are left as they
are.) -/
def Body.formCall (fs : FileSystem) (b : Body) : FormCall → Outcome FormReturn × Body
  | .Encode => (.ok (.called (b.call fs .Encode).1), (b.call fs .Encode).2)
  | .Len => (.ok (.called (b.call fs .Len).1), (b.call fs .Len).2)
  | .Reader => (.ok (.called (b.call fs .Reader).1), (b.call fs .Reader).2)
  | .GetField key =>
    match b with
    | .formBody f _ _ => (.ok (.text (formBody.GetField f key)), b)
    | _ => (.ok .done, b)
  | .HasField key =>
    match b with
    | .formBody f _ _ => (.ok (.flag (formBody.HasField f key)), b)
    | _ => (.ok .done, b)
  | .SetField key value =>
    match b with
    | .formBody f enc once => b.changeFields f enc once (formBody.SetField f enc key value)
    | _ => (.ok .done, b)
  | .AddField key value =>
    match b with
    | .formBody f enc once => b.changeFields f enc once (formBody.AddField f enc key value)
    | _ => (.ok .done, b)
  | .DeleteField key =>
    match b with
    | .formBody f enc once => b.changeFields f enc once (formBody.DeleteField f enc key)
    | _ => (.ok .done, b)

/-- A sequence of method calls on a form body, a panic being recovered from
by the caller: the body afterwards. -/
def Body.formCalls (fs : FileSystem) : List FormCall → Body → Body
  | [], b => b
  | c :: cs, b => Body.formCalls fs cs (b.formCall fs c).2

/-- The calls that finalize a form body: Encode, Len and Reader. -/
def FormCall.finalizes : FormCall → Bool
  | .Encode => true
  | .Len => true
  | .Reader => true
  | _ => false

/-- The calls that change the fields: SetField, AddField and DeleteField. -/
def FormCall.changes : FormCall → Bool
  | .SetField _ _ => true
  | .AddField _ _ => true
  | .DeleteField _ => true
  | _ => false

/-- Whether a call ended in a panic. -/
def Outcome.panics {α : Type} : Outcome α → Bool
  | .panic _ => true
  | _ => false

/-! ## client: request options -/

/-- The interface RequestOpts: its method Apply. An option that returns an
error or panics leaves no request to go on with. -/
abbrev RequestOpts := Request → Outcome Request

/-- The method http.Header.Del: the key in canonical form is deleted (a
deletion from a nil map does nothing). -/
def http.Header.Del (h : Option MIMEHeader) (key : GoString) : Option MIMEHeader :=
  h.map (fun m => m.filter (fun kv => kv.1 != textproto.CanonicalMIMEHeaderKey key))

/-- The option WithQuery: Query.Set(key, value); an assignment to an entry of
a nil map panics. -/
def WithQuery (key value : GoString) : RequestOpts :=
  fun req =>
    match req.Query with
    | none => .panic (str "assignment to entry in nil map")
    | some q => .ok { req with Query := some (url.Values.Set q key value) }

/-- The option WithoutQuery: Query.Del(key). -/
def WithoutQuery (key : GoString) : RequestOpts :=
  fun req => .ok { req with Query := req.Query.map (fun q => url.Values.Del q key) }

/-- The option WithHeader: Header.Set(key, value). -/
def WithHeader (key value : GoString) : RequestOpts :=
  fun req =>
    match http.Header.Set req.Header key value with
    | .ok h => .ok { req with Header := h }
    | .error err => .error err
    | .panic msg => .panic msg
    | .blocked => .blocked

/-- The option WithoutHeader: Header.Del(key). -/
def WithoutHeader (key : GoString) : RequestOpts :=
  fun req => .ok { req with Header := http.Header.Del req.Header key }

/-- The method Request.ApplyOptions: the options are applied in the order of
the list, up to the first one that fails. -/
def Request.ApplyOptions (req : Request) : List RequestOpts → Outcome Request
  | [] => .ok req
  | opt :: opts =>
    match opt req with
    | .ok req => Request.ApplyOptions req opts
    | .error err => .error err
    | .panic msg => .panic msg
    | .blocked => .blocked

/-- The function NewRequest. -/
def NewRequest (ctx : Option Unit) (method service path : GoString) (body : Option Body)
    (opts : List RequestOpts) : Outcome Request :=
  Request.ApplyOptions
    { Ctx := ctx, Method := method, Service := service, Path := path,
      Query := some [], Header := some [], Body := body }
    opts

/-- The two values a call of GetHost returns when it returns: the host and
the error (every return of an error in GetHost returns the empty host). -/
def Outcome.returned : Outcome GoString → Option (GoString × Option GoError)
  | .ok host => some (host, none)
  | .error err => some ([], some err)
  | .panic _ => none
  | .blocked => none

/-- The response decoded from the registry answer whose services value is a
string: the service type is unknown. -/
def unknownService : serviceregistry.AvailableServicesResponse :=
  { Services :=
      { Type_ := .String, StringVal := [],
        ObjectVal := { Service :=
          { Type_ := .Object, ObjectVal := serviceregistry.Service.zero, ListVal := [] } } } }

/-- The response decoded from the registry answer that lists the one host
https://admin.opencast.org for the service type. -/
def oneHost : serviceregistry.AvailableServicesResponse :=
  { Services :=
      { Type_ := .Object, StringVal := [],
        ObjectVal := { Service :=
          { Type_ := .Object,
            ObjectVal := { serviceregistry.Service.zero with
              Host := str "https://admin.opencast.org" },
            ListVal := [] } } } }

/-- A number of successive calls of GetHost for the same service: how each
call ends, and the mapper and the world afterwards. -/
def dynamicServiceMapper.GetHost.calls (svc : GoString) :
    Nat → dynamicServiceMapper → World → List (Outcome GoString) × dynamicServiceMapper × World
  | 0, m, w => ([], m, w)
  | n + 1, m, w =>
    let first := m.GetHost w svc
    let others := dynamicServiceMapper.GetHost.calls svc n first.2.1 first.2.2
    (first.1 :: others.1, others.2)

/-- The mapper left by the first call of GetHost on a fresh mapper with a
time to live of 60 seconds, answered with the single host. -/
def cachedMapper : dynamicServiceMapper :=
  ((NewDynamicServiceMapper (60 * 1000000000)).GetHost (steadyWorld (.ok oneHost))
    (str "org.opencastproject.ingest")).2.1

/-! ## Further sample inputs for the dynamic service mapper -/

/-- A world in which the clock stands at the time t (in nanoseconds), every
registry query is answered with the given response, and every draw is the
given number. -/
def worldAt (t : Int) (answer : Except GoError serviceregistry.AvailableServicesResponse)
    (draw : Nat) : World :=
  { clock := fun _ => t, registry := fun _ _ => answer, rand := fun _ => draw,
    readings := 0, queries := 0, draws := 0 }

/-- The response decoded from the registry answer that lists the three hosts
https://h1.opencast.org, https://h2.opencast.org and https://h3.opencast.org
for the service type. -/
def threeHosts : serviceregistry.AvailableServicesResponse :=
  { Services :=
      { Type_ := .Object, StringVal := [],
        ObjectVal := { Service :=
          { Type_ := .List, ObjectVal := serviceregistry.Service.zero,
            ListVal :=
              [{ serviceregistry.Service.zero with Host := str "https://h1.opencast.org" },
               { serviceregistry.Service.zero with Host := str "https://h2.opencast.org" },
               { serviceregistry.Service.zero with Host := str "https://h3.opencast.org" }] } } } }

/-- The mapper left by the first call of GetHost on a fresh mapper with a
time to live of 60.2 seconds, answered with the single host at 1700000000
seconds: the entry was cached for the time T = 1700000060.2 seconds. -/
def tenthsMapper : dynamicServiceMapper :=
  ((NewDynamicServiceMapper 60200000000).GetHost (steadyWorld (.ok oneHost))
    (str "org.opencastproject.ingest")).2.1

/-! ## client: GetHost statement by statement, for callers that run at the same time -/

/-- Where a caller of GetHost stands: the statement of GetHost or of
resolveService it executes next, with the local variables that statement
needs. The flag again tells the call of resolveService for an expired entry
(true) from the call for a missing entry (false). -/
inductive Caller where
  | start
  | lookup
  | query (again : Bool)
  | upgrade (again : Bool) (hosts : List GoString)
  | lock (again : Bool) (hosts : List GoString)
  | stamp (again : Bool) (hosts : List GoString)
  | store (again : Bool) (item : dynamicServiceItem)
  | unlock (again : Bool) (item : dynamicServiceItem)
  | relock (again : Bool) (item : dynamicServiceItem)
  | check (svcItem : dynamicServiceItem)
  | pick (svcItem : dynamicServiceItem)
  | leave (o : Outcome GoString)
  | done (o : Outcome GoString)
  deriving DecidableEq, Repr

/-- What one statement of a caller does: the caller moves on, with the
mapper and the world afterwards; or it waits, for a lock it is not granted or
because it has returned; or the program ends by the fatal error of releasing
a lock that is not held. -/
inductive Stepped where
  | moved (c : Caller) (m : dynamicServiceMapper) (w : World)
  | waits
  | fatal (msg : GoString)

/-- The next statement of a caller of GetHost for the service svc, on the
mapper and the world it shares with the other callers:
start is m.mtx.RLock(); lookup is svcItem, ok := m.serviceHost[svc]; query is
the registry query of resolveService with its two early returns; upgrade is
m.mtx.RUnlock(); lock is m.mtx.Lock(); stamp is
item.expired = time.Now().Add(m.itemTTL).Unix(); store is
m.serviceHost[svc] = item; unlock and relock are the deferred m.mtx.Unlock()
and m.mtx.RLock(); check is time.Now().Unix() > svcItem.expired; pick is the
choice of the host; leave is the deferred m.mtx.RUnlock() of GetHost. -/
def Caller.step (svc : GoString) (c : Caller) (m : dynamicServiceMapper) (w : World) : Stepped :=
  match c with
  | .start =>
    match m.mtx.RLock with
    | none => .waits
    | some mtx => .moved .lookup { m with mtx := mtx } w
  | .lookup =>
    match m.serviceHost.lookup svc with
    | some svcItem => .moved (.check svcItem) m w
    | none => .moved (.query false) m w
  | .query again =>
    let w1 := { w with queries := w.queries + 1 }
    match w.registry w.queries svc with
    | .error err => .moved (.leave (.error err)) m w1
    | .ok availableSvc =>
      if availableSvc.Services.Type_ = strobj.Type_.String then
        .moved (.leave (.error .ServiceNotFoundErr)) m w1
      else .moved (.upgrade again (resolveService.hosts availableSvc.Services.ObjectVal)) m w1
  | .upgrade again hosts =>
    match m.mtx.RUnlock with
    | none => .fatal (str "sync: RUnlock of unlocked RWMutex")
    | some mtx => .moved (.lock again hosts) { m with mtx := mtx } w
  | .lock again hosts =>
    match m.mtx.Lock with
    | none => .waits
    | some mtx => .moved (.stamp again hosts) { m with mtx := mtx } w
  | .stamp again hosts =>
    .moved (.store again { hosts := hosts, expired := Unix (w.clock w.readings + m.itemTTL) })
      m { w with readings := w.readings + 1 }
  | .store again item =>
    .moved (.unlock again item) { m with serviceHost := mapAssign m.serviceHost svc item } w
  | .unlock again item =>
    match m.mtx.Unlock with
    | none => .fatal (str "sync: Unlock of unlocked RWMutex")
    | some mtx => .moved (.relock again item) { m with mtx := mtx } w
  | .relock again item =>
    match m.mtx.RLock with
    | none => .waits
    | some mtx => .moved (if again then .pick item else .check item) { m with mtx := mtx } w
  | .check svcItem =>
    let now := w.clock w.readings
    let w := { w with readings := w.readings + 1 }
    if Unix now > svcItem.expired then .moved (.query true) m w
    else .moved (.pick svcItem) m w
  | .pick svcItem =>
    let r := dynamicServiceMapper.GetHost.pick m w svcItem
    .moved (.leave r.1) r.2.1 r.2.2
  | .leave o =>
    match m.mtx.RUnlock with
    | none => .fatal (str "sync: RUnlock of unlocked RWMutex")
    | some mtx => .moved (.done o) { m with mtx := mtx } w
  | .done _ => .waits

/-- A number of callers of GetHost for the same service on one mapper, in
one world. -/
structure System where
  callers : List Caller
  m : dynamicServiceMapper
  w : World

/-- The caller i executes its next statement (none: the fatal error; a
caller that waits, and a number that names no caller, leave the system as it
is). -/
def System.step (svc : GoString) (i : Nat) (s : System) : Option System :=
  match s.callers[i]? with
  | none => some s
  | some c =>
    match c.step svc s.m s.w with
    | .moved c m w => some { callers := s.callers.set i c, m := m, w := w }
    | .waits => some s
    | .fatal _ => none

/-- A schedule: the callers that execute a statement, one after the other. -/
def System.run (svc : GoString) : List Nat → System → Option System
  | [], s => some s
  | i :: rest, s => (s.step svc i).bind (System.run svc rest)

/-- The number of read locks a caller holds where it stands. -/
def Caller.holdsRead : Caller → Nat
  | .lookup => 1
  | .query _ => 1
  | .upgrade _ _ => 1
  | .check _ => 1
  | .pick _ => 1
  | .leave _ => 1
  | _ => 0

/-- The number of write locks a caller holds where it stands. -/
def Caller.holdsWrite : Caller → Nat
  | .stamp _ _ => 1
  | .store _ _ => 1
  | .unlock _ _ => 1
  | _ => 0

/-- The number of registry queries a caller may still make when the cache
has an entry for the service. -/
def Caller.queriesAhead : Caller → Nat
  | .start => 1
  | .lookup => 1
  | .query again => if again then 1 else 2
  | .upgrade again _ => if again then 0 else 1
  | .lock again _ => if again then 0 else 1
  | .stamp again _ => if again then 0 else 1
  | .store again _ => if again then 0 else 1
  | .unlock again _ => if again then 0 else 1
  | .relock again _ => if again then 0 else 1
  | .check _ => 1
  | _ => 0

/-- The callers of a system hold the locks the mutex counts: the read locks
held are those of the callers, and the write lock is held exactly when one
caller holds it, and then no read lock is held. -/
def System.consistent (s : System) : Prop :=
  s.m.mtx.readers = (s.callers.map Caller.holdsRead).sum ∧
    (s.callers.map Caller.holdsWrite).sum = (if s.m.mtx.writer then 1 else 0) ∧
    (s.m.mtx.writer = true → s.m.mtx.readers = 0)

/-- Two callers that take turns: each takes the read lock, reads the cache,
checks the expiry and queries the registry; each gives up its read lock; each
in turn takes the write lock, stores its entry, and gives the write lock up;
each in turn takes the read lock again, chooses a host and returns. -/
def takingTurns : List Nat :=
  [0, 0, 0, 0, 1, 1, 1, 1, 0, 1, 0, 0, 0, 0, 1, 1, 1, 1, 0, 0, 0, 1, 1, 1]

/-- A caller that runs alone: it executes the given number of statements,
one after the other (none: the fatal error). -/
def Caller.runAlone (svc : GoString) :
    Nat → Caller → dynamicServiceMapper → World → Option (Caller × dynamicServiceMapper × World)
  | 0, c, m, w => some (c, m, w)
  | k + 1, c, m, w =>
    match c.step svc m w with
    | .moved c m w => Caller.runAlone svc k c m w
    | .waits => Caller.runAlone svc k c m w
    | .fatal _ => none

/-- The schedule of n callers that run one after the other, from the caller
i on: each executes the given number of statements before the next starts. -/
def oneByOne (fuel : Nat) : Nat → Nat → List Nat
  | _, 0 => []
  | i, n + 1 => List.replicate fuel i ++ oneByOne fuel (i + 1) n

/-! ## client: the client -/

/-- The constant Version. -/
def Version : GoString := str "1.0"

/-- The constant UserAgent. -/
def UserAgent : GoString := str "OpencastGoClient/" ++ Version

/-- An http.Client as client.Do uses it: what its method Do returns for an
outbound call, the response or the error. -/
abbrev http.Client := http.Request → Except GoError Response

/-- The struct client: the service mapper, the HTTP client and the
client-wide request options. -/
structure client where
  sm : ServiceMapper
  http : http.Client
  reqOpts : List RequestOpts

/-- The interface ClientOpts: the method Apply, which changes the client or
fails. -/
abbrev ClientOpts := client → Except GoError client

/-- The method client.ApplyOptions: the options are applied in the order of
the list, up to the first one that fails. -/
def client.ApplyOptions (c : client) : List ClientOpts → Except GoError client
  | [] => .ok c
  | opt :: opts =>
    match opt c with
    | .error err => .error err
    | .ok c => client.ApplyOptions c opts

/-- The function New; the zero value of http.Client, which is what reaches
the network, is given as zeroHTTP. -/
def New (zeroHTTP : http.Client) (sm : ServiceMapper) (opts : List ClientOpts) :
    Except GoError client :=
  client.ApplyOptions
    { sm := sm, http := zeroHTTP, reqOpts := [WithHeader (str "User-Agent") UserAgent] }
    opts

/-- The function newResponse. -/
def newResponse (httpResp : Response) : Response :=
  httpResp

/-- The method client.Do: how the call ends, and the outbound call that was
handed to the HTTP client, if one was (the duration recorded in the response
is not part of the model). -/
def client.Do (net : NetLib) (fs : FileSystem) (c : client) (req : Request) :
    Outcome Response × Option http.Request :=
  match req.ApplyOptions c.reqOpts with
  | .error err => (.error err, none)
  | .panic msg => (.panic msg, none)
  | .blocked => (.blocked, none)
  | .ok req =>
    match (req.HTTPRequest net fs c.sm).1 with
    | .error err => (.error err, none)
    | .panic msg => (.panic msg, none)
    | .blocked => (.blocked, none)
    | .ok httpReq =>
      match c.http httpReq with
      | .error err => (.error err, some httpReq)
      | .ok httpResp => (.ok (newResponse httpResp), some httpReq)

/-- The option WithHTTPClient. -/
def WithHTTPClient (h : http.Client) : ClientOpts :=
  fun c => .ok { c with http := h }

/-- The option WithRequestOptions: the client-wide request options are
replaced by the given ones. -/
def WithRequestOptions (opts : List RequestOpts) : ClientOpts :=
  fun c => .ok { c with reqOpts := opts }

/-- The 64 characters of base64.StdEncoding. -/
def base64.encodeStd : GoString :=
  str "ABCDEFGHIJKLMNOPQRSTUVWXYZabcdefghijklmnopqrstuvwxyz0123456789+/"

/-- The character of base64.StdEncoding for a value below 64. -/
def base64.char (n : Nat) : Nat :=
  base64.encodeStd.getD n 0

/-- The method base64.StdEncoding.EncodeToString: three bytes give four
characters, and the last group is padded with the character =. -/
def base64.StdEncoding.EncodeToString : GoString → GoString
  | a :: b :: c :: rest =>
    [base64.char (a / 4), base64.char (a % 4 * 16 + b / 16), base64.char (b % 16 * 4 + c / 64),
      base64.char (c % 64)] ++ base64.StdEncoding.EncodeToString rest
  | [a, b] => [base64.char (a / 4), base64.char (a % 4 * 16 + b / 16), base64.char (b % 16 * 4), 61]
  | [a] => [base64.char (a / 4), base64.char (a % 4 * 16), 61, 61]
  | [] => []

/-- The option WithBasicAuth. -/
def WithBasicAuth (username password : GoString) : RequestOpts :=
  let auth := username ++ str ":" ++ password
  let basicAuth := base64.StdEncoding.EncodeToString auth
  WithHeader (str "Authorization") (str "Basic " ++ basicAuth)

/-- An HTTP client that answers every call with the status 200 and an empty
body. -/
def okHTTP : http.Client :=
  fun _ => .ok { StatusCode := 200, Header := [], Body := [] }

/-- The client of the example of the repository: built by New with the
static mapper of https://stable.opencast.org and the single client option
WithRequestOptions(WithBasicAuth("admin", "opencast")). -/
def exampleClient : Except GoError client :=
  New okHTTP stableOpencast.GetHost
    [WithRequestOptions [WithBasicAuth (str "admin") (str "opencast")]]

/-- A GET request for the events of the external API, built without
options of its own. -/
def eventsRequest : Outcome Request :=
  NewRequest (some ()) (str "GET") (str "org.opencastproject.external") (str "/api/events")
    (some NoBody) []

/-- A client whose client-wide request options set the header Content-Type
to text/csv. -/
def csvClient : Except GoError client :=
  New okHTTP stableOpencast.GetHost
    [WithRequestOptions [WithHeader (str "Content-Type") (str "text/csv")]]

/-- A POST request with a JSON body, built with the option that sets the
header Content-Type to text/plain. -/
def plainTextRequest : Outcome Request :=
  NewRequest (some ()) (str "POST") (str "org.opencastproject.external") (str "/api/events")
    (some (NewBody (str "[1,2]") (str "application/json")))
    [WithHeader (str "Content-Type") (str "text/plain")]

/-- The client New returns for the client option WithRequestOptions with
the options that set the header X-Tenant to b and the query parameter limit
to 20. -/
def tenantClient : client :=
  { sm := stableOpencast.GetHost, http := okHTTP,
    reqOpts := [WithHeader (str "X-Tenant") (str "b"), WithQuery (str "limit") (str "20")] }

/-- The GET request NewRequest builds for the options that set the header
X-Tenant to a and the query parameter limit to 10. -/
def tenantRequest : Request :=
  { Ctx := some (), Method := str "GET", Service := str "org.opencastproject.external",
    Path := str "/api/events", Query := some [(str "limit", [str "10"])],
    Header := some [(str "X-Tenant", [str "a"])], Body := some NoBody }

/-! ## apis/external-api/v1.11/client: the search options of the series -/

/-- A time.Time as the options read it: whether IsZero reports the zero
time, and the text Format(time.RFC3339) gives. -/
structure time.Time where
  IsZero : Bool
  RFC3339 : GoString
  deriving DecidableEq, Repr

/-- The zero value of time.Time. -/
def time.Time.zero : time.Time :=
  { IsZero := true, RFC3339 := str "0001-01-01T00:00:00Z" }

/-- The function strconv.FormatBool. -/
def strconv.FormatBool (b : Bool) : GoString :=
  if b then str "true" else str "false"

/-- The function strconv.Itoa: the decimal digits, after a minus sign for a
negative number. -/
def strconv.Itoa (i : Int) : GoString :=
  if i < 0 then 45 :: (Nat.toDigits 10 i.natAbs).map Char.toNat
  else (Nat.toDigits 10 i.toNat).map Char.toNat

/-- The struct WithSeriesSearchOptions (the field Sort is written Sort_, the
key type of the sort order is a string). -/
structure WithSeriesSearchOptions where
  Query : GoString
  Edit : Bool
  FuzzyMatch : Bool
  SeriesID : GoString
  SeriesTitle : GoString
  Creator : GoString
  Contributor : GoString
  Publisher : GoString
  RightsHolder : GoString
  CreatedFrom : time.Time
  CreatedTo : time.Time
  Language : GoString
  License : GoString
  Subject : GoString
  Description : GoString
  Sort_ : GoString
  Offset : Int
  Count : Int
  deriving DecidableEq, Repr

/-- The zero value of WithSeriesSearchOptions. -/
def WithSeriesSearchOptions.zero : WithSeriesSearchOptions :=
  { Query := [], Edit := false, FuzzyMatch := false, SeriesID := [], SeriesTitle := [],
    Creator := [], Contributor := [], Publisher := [], RightsHolder := [],
    CreatedFrom := time.Time.zero, CreatedTo := time.Time.zero, Language := [], License := [],
    Subject := [], Description := [], Sort_ := [], Offset := 0, Count := 0 }

/-- The options WithSeriesSearchOptions.Apply collects, in the order of its
statements. -/
def WithSeriesSearchOptions.opts (opt : WithSeriesSearchOptions) : List RequestOpts :=
  let opts : List RequestOpts := []
  let opts := if opt.Query ≠ [] then opts ++ [WithQuery (str "q") opt.Query] else opts
  let opts := if opt.Edit then
    opts ++ [WithQuery (str "seriesId") (strconv.FormatBool opt.Edit)] else opts
  let opts := if opt.FuzzyMatch then
    opts ++ [WithQuery (str "edit") (strconv.FormatBool opt.FuzzyMatch)] else opts
  let opts := if opt.SeriesID ≠ [] then
    opts ++ [WithQuery (str "fuzzyMatch") opt.SeriesID] else opts
  let opts := if opt.SeriesTitle ≠ [] then
    opts ++ [WithQuery (str "seriesTitle") opt.SeriesTitle] else opts
  let opts := if opt.Creator ≠ [] then opts ++ [WithQuery (str "creator") opt.Creator] else opts
  let opts := if opt.Contributor ≠ [] then
    opts ++ [WithQuery (str "contributor") opt.Contributor] else opts
  let opts := if opt.Publisher ≠ [] then
    opts ++ [WithQuery (str "publisher") opt.Publisher] else opts
  let opts := if opt.RightsHolder ≠ [] then
    opts ++ [WithQuery (str "rightsholder") opt.RightsHolder] else opts
  let opts := if ¬ opt.CreatedFrom.IsZero then
    opts ++ [WithQuery (str "createdfrom") opt.CreatedFrom.RFC3339] else opts
  let opts := if ¬ opt.CreatedTo.IsZero then
    opts ++ [WithQuery (str "createdto") opt.CreatedFrom.RFC3339] else opts
  let opts := if opt.Language ≠ [] then
    opts ++ [WithQuery (str "language") opt.Language] else opts
  let opts := if opt.License ≠ [] then opts ++ [WithQuery (str "license") opt.License] else opts
  let opts := if opt.Subject ≠ [] then opts ++ [WithQuery (str "subject") opt.Subject] else opts
  let opts := if opt.Description ≠ [] then
    opts ++ [WithQuery (str "description") opt.Description] else opts
  let opts := if opt.Sort_ ≠ [] then opts ++ [WithQuery (str "sort") opt.Sort_] else opts
  let opts := if opt.Offset ≠ 0 then
    opts ++ [WithQuery (str "offset") (strconv.Itoa opt.Offset)] else opts
  let opts := if opt.Count ≠ 0 then
    opts ++ [WithQuery (str "count") (strconv.Itoa opt.Count)] else opts
  opts

/-- The method WithSeriesSearchOptions.Apply. -/
def WithSeriesSearchOptions.Apply (opt : WithSeriesSearchOptions) : RequestOpts :=
  fun r => r.ApplyOptions opt.opts

/-- A GET request for the series of the external API with an empty query. -/
def seriesRequest : Request :=
  { Ctx := some (), Method := str "GET", Service := str "org.opencastproject.external",
    Path := str "/api/series", Query := some [], Header := some [], Body := some NoBody }

/-- The 2nd of January 2024, 03:04:05 UTC. -/
def jan2 : time.Time :=
  { IsZero := false, RFC3339 := str "2024-01-02T03:04:05Z" }

/-! ## pkg/multipart: the header block of a part on the wire -/

/-- The bytes reader.write writes for the header of a part on an open pipe,
between the boundary line and the blank line. -/
def headerBlock (part : Part) : GoString :=
  (reader.writeHeader part.GetHeader (slices.Sorted part.GetHeader.Keys) io.Pipe).1.delivered

/-- The number of header values of a part. -/
def headerValues (part : Part) : Nat :=
  (part.GetHeader.Keys.map (fun k => (part.GetHeader.Get k).length)).sum

/-- The number of CRLF sequences in a byte string: the positions that hold a
CR directly followed by an LF. -/
def countCRLF : GoString → Nat
  | [] => 0
  | c :: rest => (if c = 13 ∧ rest.head? = some 10 then 1 else 0) + countCRLF rest

end Opencast

/-! # Theorems -/

namespace Opencast

/-! ## Lemmas on the encoder -/

/-- A loop that adds f x for every element computes the sum. -/
theorem foldl_add_eq_sum {α : Type} (f : α → Int) (l : List α) (a : Int) :
    l.foldl (fun n x => n + f x) a = a + (l.map f).sum := by
  induction l generalizing a with
  | nil => simp
  | cons x xs ih => simp [List.foldl_cons, ih, add_assoc]

/-- The length of a concatenation of blocks is the sum of their lengths. -/
theorem length_flatMap_eq_sum {α β : Type} (f : α → List β) (l : List α) :
    ((l.flatMap f).length : Int) = (l.map (fun x => ((f x).length : Int))).sum := by
  induction l with
  | nil => simp
  | cons x xs ih =>
    rw [List.flatMap_cons, List.length_append, List.map_cons, List.sum_cons, ← ih]
    push_cast
    rfl

/-- The length of the lines written for one key. -/
theorem valueLines_length (k : GoString) (vs : List GoString) :
    ((vs.flatMap (fun v => k ++ str ": " ++ v ++ str "\r\n")).length : Int)
      = (vs.map (fun v => (k.length : Int) + 2 + (v.length : Int) + 2)).sum := by
  rw [length_flatMap_eq_sum]
  congr 1
  apply List.map_congr_left
  intro v _
  have h1 : (str ": ").length = 2 := by decide
  have h2 : (str "\r\n").length = 2 := by decide
  simp only [List.length_append, h1, h2]
  push_cast
  ring

/-- HeaderLen is the sum, over the distinct keys and their values, of the
length of the line written for them. -/
theorem HeaderLen_eq_sum (h : MIMEHeader) :
    HeaderLen h = (h.Keys.map (fun k =>
      ((h.Get k).map (fun v => (k.length : Int) + 2 + (v.length : Int) + 2)).sum)).sum := by
  unfold HeaderLen
  have inner : ∀ (k : GoString) (n : Int),
      (h.Get k).foldl (fun n val => n + (k.length : Int) + 2 + (val.length : Int) + 2) n
        = n + ((h.Get k).map (fun v => (k.length : Int) + 2 + (v.length : Int) + 2)).sum := by
    intro k n
    have := foldl_add_eq_sum (fun v : GoString => (k.length : Int) + 2 + (v.length : Int) + 2) (h.Get k) n
    simpa [add_assoc] using this
  simp only [inner]
  have := foldl_add_eq_sum (fun k : GoString =>
      ((h.Get k).map (fun v => (k.length : Int) + 2 + (v.length : Int) + 2)).sum) h.Keys 0
  simpa using this

/-- HeaderLen is the number of bytes of the header block the encoder writes. -/
theorem HeaderLen_eq_length (h : MIMEHeader) :
    HeaderLen h = ((specHeaderBlock h).length : Int) := by
  rw [HeaderLen_eq_sum]
  unfold specHeaderBlock
  rw [length_flatMap_eq_sum]
  simp only [valueLines_length]
  have hp : (slices.Sorted h.Keys).Perm h.Keys := List.perm_insertionSort _ _
  exact ((hp.map _).sum_eq).symm

/-- A write on an open pipe appends the bytes and succeeds. -/
theorem Fprintf_open (d b : GoString) (r w : Option GoError) :
    fmt.Fprintf ⟨d, false, r, w⟩ b = (⟨d ++ b, false, r, w⟩, none) := by
  simp [fmt.Fprintf, pipe.write]

/-- On an open pipe the inner header loop writes one line per value. -/
theorem writeValues_open (k : GoString) (vs : List GoString) (d : GoString)
    (r w : Option GoError) :
    reader.writeValues k vs ⟨d, false, r, w⟩
      = (⟨d ++ vs.flatMap (fun v => k ++ str ": " ++ v ++ str "\r\n"), false, r, w⟩, none) := by
  induction vs generalizing d with
  | nil => simp [reader.writeValues]
  | cons v vs ih =>
    simp only [reader.writeValues, Fprintf_open, ih, List.flatMap_cons, List.append_assoc]

/-- On an open pipe the outer header loop writes the lines of every key in
the order of the key list. -/
theorem writeHeader_open (h : MIMEHeader) (ks : List GoString) (d : GoString)
    (r w : Option GoError) :
    reader.writeHeader h ks ⟨d, false, r, w⟩
      = (⟨d ++ ks.flatMap (fun k =>
            (h.Get k).flatMap (fun v => k ++ str ": " ++ v ++ str "\r\n")), false, r, w⟩,
          none) := by
  induction ks generalizing d with
  | nil => simp [reader.writeHeader]
  | cons k ks ih =>
    simp only [reader.writeHeader, writeValues_open, ih, List.flatMap_cons, List.append_assoc]

/-- Copying the body of an in-memory part into an open pipe appends it. -/
theorem Copy_open (d body : GoString) (r w : Option GoError) (c : Option Nat) :
    io.Copy ⟨d, false, r, w⟩ { data := body, err := none, closer := c }
      = (⟨d ++ body, false, r, w⟩, none) := by
  unfold io.Copy
  by_cases hb : body = []
  · simp [hb]
  · simp [hb, pipe.write]

/-- The body an in-memory part hands out. -/
theorem GetBody_inMemory (fs : FileSystem) (part : Part) (hm : part.inMemory = true) :
    (part.GetBody fs).1 = .ok { data := part.Body, err := none, closer := none } := by
  cases part <;> simp_all [Part.inMemory, Part.GetBody, Part.Body]

/-- The producer on in-memory parts: started on an open pipe that has
delivered d, it delivers the frames of the parts and the closing boundary
after d, closes the write half, and returns no error. -/
theorem write_loop_inMemory (fs : FileSystem) (boundary : GoString) (parts : List Part)
    (hm : ∀ part ∈ parts, part.inMemory = true) (d : GoString) (deferred : List ReadCloser) :
    (reader.write.loop fs boundary parts ⟨d, false, none, none⟩ deferred).pipe
        = ⟨d ++ specStream boundary parts, true, none, some .EOF⟩ ∧
      (reader.write.loop fs boundary parts ⟨d, false, none, none⟩ deferred).err = none := by
  induction parts generalizing d deferred with
  | nil =>
    simp [reader.write.loop, Fprintf_open, specStream, pipe.closeWrite, onceError.Store]
  | cons part rest ih =>
    have hpart : part.inMemory = true := hm part (List.mem_cons_self _ _)
    have hrest : ∀ q ∈ rest, q.inMemory = true := fun q hq => hm q (List.mem_cons_of_mem _ hq)
    simp only [reader.write.loop, Fprintf_open, writeHeader_open, GetBody_inMemory fs part hpart,
      Copy_open]
    have := ih hrest
      (d ++ (str "--" ++ boundary ++ str "\r\n") ++
        (slices.Sorted part.GetHeader.Keys).flatMap (fun k =>
          (part.GetHeader.Get k).flatMap (fun v => k ++ str ": " ++ v ++ str "\r\n")) ++
        str "\r\n" ++ part.Body ++ str "\r\n")
      ({ data := part.Body, err := none, closer := none } :: deferred)
    simp only [this, true_and, and_true]
    simp [specStream, specPart, specHeaderBlock, List.flatMap_cons, List.append_assoc]

/-- An in-memory part declares a non-negative length: the bytes of its header
block, a blank line, its body and the trailing CRLF. -/
theorem Part_Len_inMemory (fs : FileSystem) (part : Part) (hm : part.inMemory = true) :
    part.Len fs = ((specHeaderBlock part.GetHeader).length : Int) + 2 + (part.Body.length : Int) + 2 := by
  cases part <;> simp_all [Part.inMemory, Part.Len, Part.Body, Part.GetHeader, HeaderLen_eq_length]

/-- On in-memory parts the loop of Multipart.Len never takes its early
return: it adds up the declared lengths. -/
theorem Len_loop_inMemory (fs : FileSystem) (parts : List Part)
    (hm : ∀ part ∈ parts, part.inMemory = true) (n : Int) :
    Multipart.Len.loop fs parts n = n + (parts.map (fun part => part.Len fs)).sum := by
  induction parts generalizing n with
  | nil => simp [Multipart.Len.loop]
  | cons part rest ih =>
    have hpart : part.inMemory = true := hm part (List.mem_cons_self _ _)
    have hrest : ∀ q ∈ rest, q.inMemory = true := fun q hq => hm q (List.mem_cons_of_mem _ hq)
    have hnn : ¬ part.Len fs < 0 := by
      rw [Part_Len_inMemory fs part hpart]
      omega
    simp only [Multipart.Len.loop, hnn, if_false, ih hrest, List.map_cons, List.sum_cons]
    ring

/-- The number of bytes of the worded stream. -/
theorem specStream_length (fs : FileSystem) (boundary : GoString) (parts : List Part)
    (hm : ∀ part ∈ parts, part.inMemory = true) :
    ((specStream boundary parts).length : Int)
      = (parts.length : Int) * (2 + (boundary.length : Int) + 2)
        + (2 + (boundary.length : Int) + 4) + (parts.map (fun part => part.Len fs)).sum := by
  have h1 : (str "--").length = 2 := by decide
  have h2 : (str "\r\n").length = 2 := by decide
  have h3 : (str "--\r\n").length = 4 := by decide
  induction parts with
  | nil =>
    simp only [specStream, List.flatMap_nil, List.nil_append, List.length_append, h1, h3,
      List.length_nil, List.map_nil, List.sum_nil]
    push_cast
    ring
  | cons part rest ih =>
    have hpart : part.inMemory = true := hm part (List.mem_cons_self _ _)
    have hrest : ∀ q ∈ rest, q.inMemory = true := fun q hq => hm q (List.mem_cons_of_mem _ hq)
    have ih := ih hrest
    simp only [specStream, List.flatMap_cons, List.length_append, List.length_cons,
      List.map_cons, List.sum_cons, specPart, h1, h2, h3,
      Part_Len_inMemory fs part hpart] at ih ⊢
    push_cast at ih ⊢
    linarith

/-! ## The producer on arbitrary parts -/

/-- Copying any body into an open pipe leaves the pipe open with its close
errors unset, and returns the error that ended the reading of the body. -/
theorem Copy_open_any (d : GoString) (body : ReadCloser) :
    ∃ d2, io.Copy ⟨d, false, none, none⟩ body = (⟨d2, false, none, none⟩, body.err) := by
  unfold io.Copy
  by_cases hb : body.data = []
  · exact ⟨d, by simp [hb]⟩
  · exact ⟨d ++ body.data, by simp [hb, pipe.write]⟩

/-- Whenever the producer returns an error, whatever the parts and the file
system, the consumer reading the stream to its end gets io.ErrClosedPipe:
the error itself was stored on the read half of the pipe. -/
theorem write_error_reaches_consumer_as_ErrClosedPipe (fs : FileSystem) (boundary : GoString)
    (parts : List Part) (d : GoString) (deferred : List ReadCloser) (e : GoError)
    (he : (reader.write.loop fs boundary parts ⟨d, false, none, none⟩ deferred).err = some e) :
    (reader.write.loop fs boundary parts ⟨d, false, none, none⟩ deferred).pipe.rerr = some e ∧
      (reader.drain (reader.write.loop fs boundary parts ⟨d, false, none, none⟩ deferred).pipe).2
        = some GoError.ErrClosedPipe := by
  induction parts generalizing d deferred with
  | nil =>
    simp [reader.write.loop, Fprintf_open] at he
  | cons part rest ih =>
    simp only [reader.write.loop, Fprintf_open, writeHeader_open] at he ⊢
    cases hg : (part.GetBody fs).1 with
    | error err =>
      simp only [hg, reader.handleErr] at he ⊢
      have : err = e := by simpa using he
      subst this
      simp [pipe.closeRead, onceError.Store, reader.drain, pipe.readCloseError]
    | ok body =>
      simp only [hg] at he ⊢
      obtain ⟨d2, hc⟩ := Copy_open_any
        (d ++ (str "--" ++ boundary ++ str "\r\n") ++
          (slices.Sorted part.GetHeader.Keys).flatMap (fun k =>
            (part.GetHeader.Get k).flatMap (fun v => k ++ str ": " ++ v ++ str "\r\n")) ++
          str "\r\n") body
      rw [hc] at he ⊢
      cases hb : body.err with
      | some err =>
        simp only [hb, reader.handleErr] at he ⊢
        have : err = e := by simpa using he
        subst this
        simp [pipe.closeRead, onceError.Store, reader.drain, pipe.readCloseError]
      | none =>
        simp only [hb, Fprintf_open] at he ⊢
        exact ih _ _ he

/-! ## C1 to C3: the multipart encoder -/

/-- C1: for every boundary and every ordered list of in-memory parts with
arbitrary headers, Multipart.Len is exactly the number of bytes the encoder
reader.write emits, that is, the bytes a consumer reading the stream of
Reader to its end receives. -/
theorem C1_Len_eq_emitted (fs : FileSystem) (mp : Multipart)
    (hm : ∀ part ∈ mp.parts, part.inMemory = true) :
    mp.Len fs = (((reader.drain (Reader fs mp).pipe).1.length : Nat) : Int) := by
  have hw := (write_loop_inMemory fs mp.boundary mp.parts hm [] []).1
  have hl := specStream_length fs mp.boundary mp.parts hm
  have hn := Len_loop_inMemory fs mp.parts hm
    ((mp.parts.length : Int) * (2 + (mp.boundary.length : Int) + 2) +
      (2 + (mp.boundary.length : Int) + 4))
  simp only [Reader, reader.write, io.Pipe, reader.drain, hw, List.nil_append,
    Multipart.Len, hl, hn]

/-- C1 at the message of two string fields: 111 bytes declared and emitted. -/
theorem C1_Len_eq_emitted_witness :
    (∀ part ∈ twoFields.parts, part.inMemory = true) ∧
      twoFields.Len noFiles = (((reader.drain (Reader noFiles twoFields).pipe).1.length : Nat) : Int) ∧
      twoFields.Len noFiles = 111 :=
  ⟨by decide, C1_Len_eq_emitted noFiles twoFields (by decide), by decide⟩

/-- C2: for every boundary and every ordered list of in-memory parts, the
consumer of the encoder receives exactly the worded stream (per part in
insertion order: the boundary line, the header lines, a blank line, the body
verbatim, CRLF; then once the closing boundary line) followed by end of
stream, the producer returns no error, and the header keys of every part are
written in strictly ascending byte order, each key of the map once. -/
theorem C2_stream_exact (fs : FileSystem) (mp : Multipart)
    (hm : ∀ part ∈ mp.parts, part.inMemory = true) :
    reader.drain (Reader fs mp).pipe = (specStream mp.boundary mp.parts, some GoError.EOF) ∧
      (Reader fs mp).err = none ∧
      ∀ part ∈ mp.parts,
        (slices.Sorted part.GetHeader.Keys).Sorted (· < ·) ∧
        ∀ k, k ∈ slices.Sorted part.GetHeader.Keys ↔ k ∈ part.GetHeader.map Prod.fst := by
  have hw := write_loop_inMemory fs mp.boundary mp.parts hm [] []
  refine ⟨?_, ?_, ?_⟩
  · simp [Reader, reader.write, io.Pipe, reader.drain, hw.1, pipe.readCloseError]
  · simpa [Reader, reader.write, io.Pipe] using hw.2
  · intro part _
    have hp : (slices.Sorted part.GetHeader.Keys).Perm part.GetHeader.Keys :=
      List.perm_insertionSort _ _
    have hs : (slices.Sorted part.GetHeader.Keys).Sorted (· ≤ ·) :=
      List.sorted_insertionSort _ _
    have hn : (slices.Sorted part.GetHeader.Keys).Nodup :=
      hp.nodup_iff.mpr (List.nodup_dedup _)
    refine ⟨hs.lt_of_le hn, ?_⟩
    intro k
    rw [hp.mem_iff]
    simp [MIMEHeader.Keys]

/-- C2 at the two string fields a = 1 and b = 2 with boundary X: the stream
is exactly the text of the specification. -/
theorem C2_stream_exact_witness :
    (∀ part ∈ twoFields.parts, part.inMemory = true) ∧
      reader.drain (Reader noFiles twoFields).pipe =
        (str ("--X\r\nContent-Disposition: form-data; name=\"a\"\r\n\r\n1\r\n" ++
              "--X\r\nContent-Disposition: form-data; name=\"b\"\r\n\r\n2\r\n--X--\r\n"),
          some GoError.EOF) :=
  ⟨by decide, (C2_stream_exact noFiles twoFields (by decide)).1.trans (by decide)⟩

/-- C3 on the code: for the message whose only part is a file that cannot be
opened, the producer returns the error of os.Open, but the consumer reading
the stream gets io.ErrClosedPipe, which is a different error: handleErr
closes the read half of the pipe with the error, and a read on a pipe whose
read half was closed reports ErrClosedPipe. -/
theorem C3_open_error_reaches_consumer_as_ErrClosedPipe :
    (Reader noFiles missingFile).err =
        some (GoError.PathError (str "open") (str "/tmp/missing.mp4")
          (str "no such file or directory")) ∧
      (reader.drain (Reader noFiles missingFile).pipe).2 = some GoError.ErrClosedPipe ∧
      GoError.ErrClosedPipe ≠
        GoError.PathError (str "open") (str "/tmp/missing.mp4") (str "no such file or directory") := by
  decide

/-! ## C5 to C7: the classification of responses -/

/-- No reason text of net/http is the message of UnexpectedStatusCodeErr. -/
theorem StatusText_ne_unexpected (code : Int) :
    http.StatusText code ≠ str "UnexpectedStatusCode" := by
  have key : ∀ (l : List (Int × GoString)) (x : GoString),
      (∀ p ∈ l, p.2 ≠ x) → [] ≠ x → (l.lookup code).getD [] ≠ x := by
    intro l x hl hx
    induction l with
    | nil => simpa using hx
    | cons p l ih =>
      obtain ⟨c, t⟩ := p
      have hl2 : ∀ q ∈ l, q.2 ≠ x := fun q hq => hl q (List.mem_cons_of_mem _ hq)
      by_cases hc : code = c
      · subst hc
        simpa [List.lookup] using hl (code, t) (List.mem_cons_self _ _)
      · have hb : (code == c) = false := by simpa using hc
        simpa [List.lookup, hb] using ih hl2
  exact key http.statusText _ (by decide) (by decide)

/-- GenericDo on a request that is built and executed: the response is
returned, with the error responseErr outside of the range 200 to 299 and with
the nil error inside. -/
theorem GenericDo_executed {σ : Type} (doer : Doer σ) (req : Request) (resp : Response)
    (s s' : σ) (hdo : doer req s = (.ok resp, s')) :
    GenericDo doer (.ok req) s =
      ((some resp,
        if resp.StatusCode < 200 ∨ 300 ≤ resp.StatusCode then some (responseErr resp) else none),
        s') := by
  unfold GenericDo
  simp only [hdo]
  split <;> rfl

/-- C5: for every request whose execution returns a response, GenericDo
returns that response; its error is nil exactly when the status code s
satisfies 200 <= s < 300, and for every other status code the response comes
together with a non-nil error. -/
theorem C5_GenericDo_success_iff_2xx {σ : Type} (doer : Doer σ) (req : Request)
    (resp : Response) (s s' : σ) (hdo : doer req s = (.ok resp, s')) :
    (GenericDo doer (.ok req) s).1.1 = some resp ∧
      ((GenericDo doer (.ok req) s).1.2 = none ↔
        (200 ≤ resp.StatusCode ∧ resp.StatusCode < 300)) ∧
      (¬ (200 ≤ resp.StatusCode ∧ resp.StatusCode < 300) →
        (GenericDo doer (.ok req) s).1.1 = some resp ∧
          (GenericDo doer (.ok req) s).1.2 ≠ none) := by
  rw [GenericDo_executed doer req resp s s' hdo]
  by_cases h : resp.StatusCode < 200 ∨ 300 ≤ resp.StatusCode
  · have hn : ¬ (200 ≤ resp.StatusCode ∧ resp.StatusCode < 300) := by omega
    simp [h, hn]
  · have hy : 200 ≤ resp.StatusCode ∧ resp.StatusCode < 300 := by omega
    simp [h, hy]

/-- C5 at a 204 response: the response and the nil error. -/
theorem C5_GenericDo_success_iff_2xx_witness :
    respondWith (statusResponse 204) sampleRequest 0 = (.ok (statusResponse 204), 1) ∧
      (GenericDo (respondWith (statusResponse 204)) (.ok sampleRequest) 0).1
        = (some (statusResponse 204), none) := by
  have h := C5_GenericDo_success_iff_2xx (respondWith (statusResponse 204)) sampleRequest
    (statusResponse 204) 0 1 rfl
  refine ⟨rfl, Prod.ext h.1 (h.2.1.mpr ?_)⟩
  decide

/-- C6: for every response with status code s >= 400 the error returned by
GenericDo has as its message the reason text http.StatusText(s); for a 404
response the message is Not Found. -/
theorem C6_error_message_is_status_text {σ : Type} (doer : Doer σ) (req : Request)
    (resp : Response) (s s' : σ) (hdo : doer req s = (.ok resp, s'))
    (h400 : 400 ≤ resp.StatusCode) :
    ∃ err, (GenericDo doer (.ok req) s).1 = (some resp, some err) ∧
      err.Error = http.StatusText resp.StatusCode ∧
      (resp.StatusCode = 404 → err.Error = str "Not Found") := by
  refine ⟨GoError.errorString (http.StatusText resp.StatusCode), ?_, rfl, ?_⟩
  · rw [GenericDo_executed doer req resp s s' hdo]
    have h : resp.StatusCode < 200 ∨ 300 ≤ resp.StatusCode := by omega
    simp [h, responseErr, h400]
  · intro h
    simp only [GoError.Error, h]
    decide

/-- C6 at a 404 response: the error of GenericDo has the message Not Found. -/
theorem C6_error_message_is_status_text_witness :
    ∃ err, (GenericDo (respondWith (statusResponse 404)) (.ok sampleRequest) 0).1
        = (some (statusResponse 404), some err) ∧
      err.Error = str "Not Found" := by
  obtain ⟨err, h1, _, h3⟩ := C6_error_message_is_status_text
    (respondWith (statusResponse 404)) sampleRequest (statusResponse 404) 0 1 rfl (by decide)
  exact ⟨err, h1, h3 rfl⟩

/-- C7: for every response with status code s < 200 or 300 <= s < 400 the
error returned by GenericDo is the sentinel UnexpectedStatusCodeErr, and for
every status code s >= 400 the returned error is neither the sentinel nor an
error with the message of the sentinel. -/
theorem C7_unexpected_status_sentinel {σ : Type} (doer : Doer σ) (req : Request)
    (resp : Response) (s s' : σ) (hdo : doer req s = (.ok resp, s')) :
    ((resp.StatusCode < 200 ∨ (300 ≤ resp.StatusCode ∧ resp.StatusCode < 400)) →
        (GenericDo doer (.ok req) s).1.2 = some UnexpectedStatusCodeErr) ∧
      (400 ≤ resp.StatusCode →
        ∃ err, (GenericDo doer (.ok req) s).1.2 = some err ∧
          err ≠ UnexpectedStatusCodeErr ∧
          err.Error ≠ UnexpectedStatusCodeErr.Error) := by
  rw [GenericDo_executed doer req resp s s' hdo]
  constructor
  · intro h
    have h1 : resp.StatusCode < 200 ∨ 300 ≤ resp.StatusCode := by omega
    have h2 : ¬ 400 ≤ resp.StatusCode := by omega
    simp [h1, responseErr, h2]
  · intro h
    have h1 : resp.StatusCode < 200 ∨ 300 ≤ resp.StatusCode := by omega
    refine ⟨GoError.errorString (http.StatusText resp.StatusCode), ?_, ?_, ?_⟩
    · simp [h1, responseErr, h]
    · simp [UnexpectedStatusCodeErr]
    · simpa [GoError.Error, UnexpectedStatusCodeErr] using
        StatusText_ne_unexpected resp.StatusCode

/-- C7 at a 302 response: the error of GenericDo is the sentinel
UnexpectedStatusCodeErr. -/
theorem C7_unexpected_status_sentinel_witness :
    respondWith (statusResponse 302) sampleRequest 0 = (.ok (statusResponse 302), 1) ∧
      (GenericDo (respondWith (statusResponse 302)) (.ok sampleRequest) 0).1.2
        = some UnexpectedStatusCodeErr :=
  ⟨rfl, (C7_unexpected_status_sentinel (respondWith (statusResponse 302)) sampleRequest
    (statusResponse 302) 0 1 rfl).1 (by decide)⟩

/-! ## C8: the choice of the decoder -/

/-- The switch of AutoDecoder in terms of the media type alone: JSON for
application/json and application/...+json; otherwise XML for application/xml,
text/xml and application/...+xml; otherwise the error naming the type. -/
theorem AutoDecoder_switch_spec (mt : GoString) :
    (AutoDecoder.switch mt = .ok .JsonDecoder ↔
        (mt = str "application/json" ∨ (str "application/" <+: mt ∧ str "+json" <:+ mt))) ∧
      (¬ (mt = str "application/json" ∨ (str "application/" <+: mt ∧ str "+json" <:+ mt)) →
        (AutoDecoder.switch mt = .ok .XMLDecoder ↔
          (mt = str "application/xml" ∨ mt = str "text/xml" ∨
            (str "application/" <+: mt ∧ str "+xml" <:+ mt)))) ∧
      (¬ (mt = str "application/json" ∨ (str "application/" <+: mt ∧ str "+json" <:+ mt)) →
        ¬ (mt = str "application/xml" ∨ mt = str "text/xml" ∨
            (str "application/" <+: mt ∧ str "+xml" <:+ mt)) →
        AutoDecoder.switch mt =
          .error (.errorString (str "AutoDecoder: unsupported media type " ++ mt))) := by
  have hj : ((strings.HasPrefix mt (str "application/") && strings.HasSuffix mt (str "+json"))
      || mt == str "application/json") = true ↔
      (mt = str "application/json" ∨ (str "application/" <+: mt ∧ str "+json" <:+ mt)) := by
    simp only [strings.HasPrefix, strings.HasSuffix, Bool.or_eq_true, Bool.and_eq_true,
      List.isPrefixOf_iff_prefix, List.isSuffixOf_iff_suffix, beq_iff_eq]
    tauto
  have hx : ((strings.HasPrefix mt (str "application/") && strings.HasSuffix mt (str "+xml"))
      || (mt == str "application/xml" || mt == str "text/xml")) = true ↔
      (mt = str "application/xml" ∨ mt = str "text/xml" ∨
        (str "application/" <+: mt ∧ str "+xml" <:+ mt)) := by
    simp only [strings.HasPrefix, strings.HasSuffix, Bool.or_eq_true, Bool.and_eq_true,
      List.isPrefixOf_iff_prefix, List.isSuffixOf_iff_suffix, beq_iff_eq]
    tauto
  unfold AutoDecoder.switch
  rw [← hj, ← hx]
  generalize ((strings.HasPrefix mt (str "application/") && strings.HasSuffix mt (str "+json"))
      || mt == str "application/json") = bj
  generalize ((strings.HasPrefix mt (str "application/") && strings.HasSuffix mt (str "+xml"))
      || (mt == str "application/xml" || mt == str "text/xml")) = bx
  cases bj <;> cases bx <;> simp

/-- C8, amended: for every parser result (mt, err) of the Content-Type
header, when err is not nil AutoDecoder returns err and selects no decoder;
when err is nil its choice depends only on mt: the JSON decoder iff mt is
application/json or starts with application/ and ends with +json; otherwise
the XML decoder iff mt is application/xml, text/xml, or starts with
application/ and ends with +xml; for every other mt the error with the
message AutoDecoder: unsupported media type followed by mt. -/
theorem C8_AutoDecoder_choice (parse : GoString → GoString × Option GoError)
    (resp : Response) (mt : GoString) (perr : Option GoError)
    (hp : parse (http.Header.Get resp.Header (str "Content-Type")) = (mt, perr)) :
    (∀ e, perr = some e → AutoDecoder.choice parse resp = .error e) ∧
    (perr = none →
      (AutoDecoder.choice parse resp = .ok .JsonDecoder ↔
        (mt = str "application/json" ∨ (str "application/" <+: mt ∧ str "+json" <:+ mt))) ∧
      (¬ (mt = str "application/json" ∨ (str "application/" <+: mt ∧ str "+json" <:+ mt)) →
        (AutoDecoder.choice parse resp = .ok .XMLDecoder ↔
          (mt = str "application/xml" ∨ mt = str "text/xml" ∨
            (str "application/" <+: mt ∧ str "+xml" <:+ mt)))) ∧
      (¬ (mt = str "application/json" ∨ (str "application/" <+: mt ∧ str "+json" <:+ mt)) →
        ¬ (mt = str "application/xml" ∨ mt = str "text/xml" ∨
            (str "application/" <+: mt ∧ str "+xml" <:+ mt)) →
        ∃ err, AutoDecoder.choice parse resp = .error err ∧
          err.Error = str "AutoDecoder: unsupported media type " ++ mt)) := by
  constructor
  · intro e he
    subst he
    simp [AutoDecoder.choice, hp]
  · intro hn
    subst hn
    have hc : AutoDecoder.choice parse resp = AutoDecoder.switch mt := by
      simp [AutoDecoder.choice, hp]
    rw [hc]
    obtain ⟨h1, h2, h3⟩ := AutoDecoder_switch_spec mt
    exact ⟨h1, h2, fun a b => ⟨_, h3 a b, rfl⟩⟩

/-- C8 at the two sample headers, with the parser of the library: the type
application/vnd.example.v1+json selects the JSON decoder and text/plain is
rejected with the message naming it. -/
theorem C8_AutoDecoder_choice_witness :
    AutoDecoder.choice mime.ParseMediaType
        (typedResponse (str "application/vnd.example.v1+json") []) = .ok .JsonDecoder ∧
      ∃ err, AutoDecoder.choice mime.ParseMediaType (typedResponse (str "text/plain") [])
          = .error err ∧
        err.Error = str "AutoDecoder: unsupported media type text/plain" := by
  have hj := (C8_AutoDecoder_choice mime.ParseMediaType
    (typedResponse (str "application/vnd.example.v1+json") [])
    (str "application/vnd.example.v1+json") none (by decide)).2 rfl
  have ht := (C8_AutoDecoder_choice mime.ParseMediaType
    (typedResponse (str "text/plain") []) (str "text/plain") none (by decide)).2 rfl
  refine ⟨hj.1.mpr (Or.inr ⟨?_, ?_⟩), ?_⟩
  · exact List.isPrefixOf_iff_prefix.mp (by decide)
  · exact List.isSuffixOf_iff_suffix.mp (by decide)
  · have hnj : ¬ (str "text/plain" = str "application/json" ∨
        (str "application/" <+: str "text/plain" ∧ str "+json" <:+ str "text/plain")) := by
      rw [← List.isPrefixOf_iff_prefix, ← List.isSuffixOf_iff_suffix]
      decide
    have hnx : ¬ (str "text/plain" = str "application/xml" ∨ str "text/plain" = str "text/xml" ∨
        (str "application/" <+: str "text/plain" ∧ str "+xml" <:+ str "text/plain")) := by
      rw [← List.isPrefixOf_iff_prefix, ← List.isSuffixOf_iff_suffix]
      decide
    obtain ⟨err, h1, h2⟩ := ht.2.2 hnj hnx
    exact ⟨err, h1, by rw [h2]; decide⟩

/-- C8 as stated fails: for the header application/json; charset the base
media type returned by the parser is application/json, yet AutoDecoder does
not select the JSON decoder: it returns the error of the parser; and for the
header text/plain; charset the error is that of the parser, not the message
naming the unsupported type. -/
theorem C8_choice_depends_on_parse_error :
    mime.ParseMediaType (str "application/json; charset")
        = (str "application/json", some GoError.ErrInvalidMediaParameter) ∧
      AutoDecoder.choice mime.ParseMediaType
          (typedResponse (str "application/json; charset") [])
        = .error GoError.ErrInvalidMediaParameter ∧
      AutoDecoder.choice mime.ParseMediaType
          (typedResponse (str "application/json; charset") [])
        ≠ .ok .JsonDecoder ∧
      AutoDecoder.choice mime.ParseMediaType
          (typedResponse (str "application/json; charset=utf-8") [])
        = .ok .JsonDecoder ∧
      AutoDecoder.choice mime.ParseMediaType (typedResponse (str "text/plain; charset") [])
        = .error GoError.ErrInvalidMediaParameter ∧
      GoError.ErrInvalidMediaParameter.Error
        ≠ str "AutoDecoder: unsupported media type text/plain" := by
  decide

/-! ## C9: the pagination driver -/

/-- One fetch of a page against the script: the response is taken from the
script, the request is recorded, and the decoded page is returned. -/
theorem GenericAutoDecodedDo_scripted {T : Type} (lib : Decoders (List T)) (req : Request)
    (resp : Response) (rest : List Response) (log : List Request) (page : List T)
    (hs : 200 ≤ resp.StatusCode ∧ resp.StatusCode < 300) (hd : resp.Decode lib = .ok page) :
    GenericAutoDecodedDo lib scriptedDoer (.ok req) (resp :: rest, log)
      = ((page, some resp, none), (rest, log ++ [req])) := by
  have h : ¬ (resp.StatusCode < 200 ∨ 300 ≤ resp.StatusCode) := by omega
  simp [GenericAutoDecodedDo, GenericDo, scriptedDoer, h, hd]

/-- The loop of Paginate against a script of non-empty pages followed by an
empty page, from any index, log and list on. -/
theorem Paginate_loop_scripted {T : Type} (lib : Decoders (List T)) (reqOf : Nat → Request)
    (pages : List (List T)) :
    ∀ (resps : List Response) (turns i : Nat) (log : List Request) (list : List T),
      List.Forall₂ (fun resp page => (200 ≤ resp.StatusCode ∧ resp.StatusCode < 300) ∧
        resp.Decode lib = .ok page) resps (pages ++ [[]]) →
      (∀ page ∈ pages, page ≠ []) →
      pages.length + 1 ≤ turns →
      Paginate.loop lib scriptedDoer (fun i => .ok (reqOf i)) CollectAllPages turns i
          (resps, log) list
        = some (none, ([], log ++ (List.range' i (pages.length + 1)).map reqOf),
            list ++ pages.flatten) := by
  induction pages with
  | nil =>
    intro resps turns i log list hf _ ht
    obtain ⟨turns, rfl⟩ : ∃ t, turns = t + 1 := ⟨turns - 1, by simp at ht; omega⟩
    simp only [List.nil_append] at hf
    obtain ⟨resp, rest, ⟨hs, hd⟩, hrest, rfl⟩ := List.forall₂_cons_right_iff.mp hf
    have hnil : rest = [] := by simpa using hrest
    subst hnil
    simp [Paginate.loop, GenericAutoDecodedDo_scripted lib (reqOf i) resp [] log [] hs hd,
      CollectAllPages]
  | cons page pages ih =>
    intro resps turns i log list hf hne ht
    obtain ⟨turns, rfl⟩ : ∃ t, turns = t + 1 := ⟨turns - 1, by simp at ht; omega⟩
    simp only [List.cons_append] at hf
    obtain ⟨resp, rest, ⟨hs, hd⟩, hrest, rfl⟩ := List.forall₂_cons_right_iff.mp hf
    have hpage : page ≠ [] := hne page (List.mem_cons_self _ _)
    have hlen : ¬ page.length = 0 := by simpa using hpage
    have hne2 : ∀ q ∈ pages, q ≠ [] := fun q hq => hne q (List.mem_cons_of_mem _ hq)
    have ht2 : pages.length + 1 ≤ turns := by simp at ht; omega
    have := ih rest turns (i + 1) (log ++ [reqOf i]) (list ++ page) hrest hne2 ht2
    simp only [Paginate.loop, GenericAutoDecodedDo_scripted lib (reqOf i) resp rest log page hs hd,
      CollectAllPages, hlen, if_false, this]
    simp [List.range'_succ, List.append_assoc]

/-- C9: for every n >= 0 and every script of n non-empty pages followed by
an empty page (each delivered with a status in 200..299 and decoded by
AutoDecoder), Paginate driven by CollectAllPages ends within n+1 turns of its
loop, returns no error, has issued exactly n+1 fetches, for the page indices
0, 1, ..., n in that order, has used up the script, and leaves the list equal
to its initial content followed by the items of the n pages in order. -/
theorem C9_Paginate_collects_all {T : Type} (lib : Decoders (List T)) (reqOf : Nat → Request)
    (pages : List (List T)) (resps : List Response) (init : List T) (turns : Nat)
    (hf : List.Forall₂ (fun resp page => (200 ≤ resp.StatusCode ∧ resp.StatusCode < 300) ∧
        resp.Decode lib = .ok page) resps (pages ++ [[]]))
    (hne : ∀ page ∈ pages, page ≠ []) (ht : pages.length + 1 ≤ turns) :
    Paginate lib scriptedDoer (fun i => .ok (reqOf i)) CollectAllPages turns (resps, []) init
      = some (none, ([], (List.range (pages.length + 1)).map reqOf), init ++ pages.flatten) := by
  have := Paginate_loop_scripted lib reqOf pages resps turns 0 [] init hf hne ht
  simpa [Paginate, List.range_eq_range'] using this

/-- C9 at three non-empty pages followed by an empty one: four fetches, for
the pages 0 to 3 in order, no error, and the items of the three pages in
order after the initial content of the list. -/
theorem C9_Paginate_collects_all_witness :
    Paginate byteDecoders scriptedDoer (fun i => .ok (pageRequest i)) CollectAllPages 4
        (threePages, []) [0]
      = some (none, ([], [pageRequest 0, pageRequest 1, pageRequest 2, pageRequest 3]),
          [0, 1, 2, 3, 4, 5, 6]) :=
  C9_Paginate_collects_all byteDecoders pageRequest [[1, 2], [3], [4, 5, 6]] threePages [0] 4
    (.cons ⟨by decide, by decide⟩ (.cons ⟨by decide, by decide⟩
      (.cons ⟨by decide, by decide⟩ (.cons ⟨by decide, by decide⟩ .nil))))
    (by decide) (by decide)

/-! ## C10: the outbound call -/

/-- A call of GetBody does not change the declared length of a part. -/
theorem GetBody_Len (fs : FileSystem) (part : Part) :
    (part.GetBody fs).2.Len fs = part.Len fs := by
  cases part with
  | StreamPart h r once =>
    simp only [Part.GetBody]
    split <;> rfl
  | _ => rfl

/-- The loop of Multipart.Len only reads the declared lengths of the parts. -/
theorem Len_loop_congr (fs : FileSystem) (parts1 parts2 : List Part)
    (h : parts1.map (Part.Len fs) = parts2.map (Part.Len fs)) (n : Int) :
    Multipart.Len.loop fs parts1 n = Multipart.Len.loop fs parts2 n := by
  induction parts1 generalizing parts2 n with
  | nil =>
    cases parts2 with
    | nil => rfl
    | cons _ _ => simp at h
  | cons a as ih =>
    cases parts2 with
    | nil => simp at h
    | cons b bs =>
      simp only [List.map_cons, List.cons.injEq] at h
      simp only [Multipart.Len.loop, h.1]
      split
      · rfl
      · exact ih bs h.2 _

/-- The parts the producer leaves declare the same lengths as the parts it
was started on. -/
theorem write_loop_parts_Len (fs : FileSystem) (boundary : GoString) (parts : List Part) :
    ∀ (p : pipe) (deferred : List ReadCloser),
      (reader.write.loop fs boundary parts p deferred).parts.map (Part.Len fs)
        = parts.map (Part.Len fs) := by
  induction parts with
  | nil =>
    intro p deferred
    simp only [reader.write.loop]
    split <;> rfl
  | cons part rest ih =>
    intro p deferred
    simp only [reader.write.loop]
    split
    · rfl
    · split
      · rfl
      · split
        · rfl
        · split
          · simp [reader.handleErr, GetBody_Len]
          · split
            · simp [reader.handleErr, GetBody_Len]
            · split
              · simp [reader.handleErr, GetBody_Len]
              · simp [GetBody_Len, ih]

/-- The message a multipart body holds after a call of Reader declares the
same length as before. -/
theorem Multipart_Len_after_Reader (fs : FileSystem) (mp : Multipart) :
    Multipart.Len fs { mp with parts := (Reader fs mp).parts } = Multipart.Len fs mp := by
  have h := write_loop_parts_Len fs mp.boundary mp.parts io.Pipe []
  have hl : (Reader fs mp).parts.length = mp.parts.length := by
    have := congrArg List.length h
    simpa [Reader, reader.write] using this
  simp only [Multipart.Len, hl]
  exact Len_loop_congr fs _ _ (by simpa [Reader, reader.write] using h) _

/-- The content type of a body does not depend on its state: Reader leaves
it as it is. -/
theorem ContentType_after_Reader (fs : FileSystem) (b : Body) :
    (b.Reader fs).2.ContentType = b.ContentType := by
  cases b with
  | encoderBody result bb err once ct =>
    simp only [Body.Reader]
    split <;> rfl
  | _ => rfl

/-- The content type of a body does not depend on its state: Len leaves it
as it is. -/
theorem ContentType_after_Len (fs : FileSystem) (b : Body) :
    (b.Len fs).2.ContentType = b.ContentType := by
  cases b <;> rfl

/-- A second call of Encode on an encoder body finds the memoized result and
does not invoke the encode function. -/
theorem encoderBody_Encode_again (f : EncoderFunc) (b : GoString)
    (err : Option GoError) (once : Bool) :
    encoderBody.Encode (encoderBody.Encode f b err once).1 (encoderBody.Encode f b err once).2.1
      (encoderBody.Encode f b err once).2.2 true = encoderBody.Encode f b err once := by
  simp [encoderBody.Encode]

/-- The declared length of a body is the same before and after a call of
Reader. -/
theorem Len_after_Reader (fs : FileSystem) (b : Body) :
    ((b.Reader fs).2.Len fs).1 = (b.Len fs).1 := by
  cases b with
  | encoderBody result bb err once ct =>
    simp only [Body.Reader]
    split <;> simp [Body.Len, encoderBody_Encode_again]
  | formBody f enc once => simp [Body.Reader, Body.Len, formBody.Encode]
  | multipartBody mp => exact Multipart_Len_after_Reader fs mp
  | _ => rfl

/-- After Set the key is bound to the single value. -/
theorem Get_Set (h : MIMEHeader) (k v : GoString) : (MIMEHeader.Set h k v).Get k = [v] := by
  simp [MIMEHeader.Set, MIMEHeader.Get, List.lookup]

/-- C10, amended: for every Request whose URL is built (its service resolves
and the host parses), whose body gives a reader, whose context, method and
URL are accepted by http.NewRequestWithContext, and whose header map is not
nil when the body declares a content type, Request.HTTPRequest builds an
outbound call whose ContentLength equals Body.Len() (NoBody standing for a
nil body, giving 0; a negative length is passed through as it is), and whose
header is the header map of the request with Content-Type set to
Body.ContentType() when that string is not empty, and is the header map of
the request unchanged otherwise. -/
theorem C10_HTTPRequest_length_and_type (net : NetLib) (fs : FileSystem) (req : Request)
    (sm : ServiceMapper) (u : url.URL) (body : ReadCloser)
    (hurl : req.URL net sm = .ok u)
    (hbody : ((req.Body.getD NoBody).Reader fs).1 = .ok body)
    (hnew : net.NewRequestWithContext req.Ctx req.Method (net.String u) = none)
    (hhdr : (req.Body.getD NoBody).ContentType ≠ [] → req.Header ≠ none) :
    ∃ httpReq, (req.HTTPRequest net fs sm).1 = .ok httpReq ∧
      httpReq.ContentLength = ((req.Body.getD NoBody).Len fs).1 ∧
      (req.Body = none → httpReq.ContentLength = 0) ∧
      ((req.Body.getD NoBody).ContentType ≠ [] →
        ∃ h, req.Header = some h ∧
          httpReq.Header =
            some (MIMEHeader.Set h (str "Content-Type") (req.Body.getD NoBody).ContentType) ∧
          ∀ h2, httpReq.Header = some h2 →
            h2.Get (str "Content-Type") = [(req.Body.getD NoBody).ContentType] ∧
            http.Header.Get h2 (str "Content-Type") = (req.Body.getD NoBody).ContentType) ∧
      ((req.Body.getD NoBody).ContentType = [] → httpReq.Header = req.Header) := by
  have hr : (req.Body.getD NoBody).Reader fs = (.ok body, ((req.Body.getD NoBody).Reader fs).2) :=
    Prod.ext hbody rfl
  have hct : ((((req.Body.getD NoBody).Reader fs).2.Len fs).2).ContentType
      = (req.Body.getD NoBody).ContentType := by
    rw [ContentType_after_Len, ContentType_after_Reader]
  have hlen := Len_after_Reader fs (req.Body.getD NoBody)
  have hzero : req.Body = none → ((req.Body.getD NoBody).Len fs).1 = 0 := by
    intro hn
    simp [hn, NoBody, Body.Len]
  unfold Request.HTTPRequest
  simp only [hurl]
  rw [hr]
  simp only [hnew, hct]
  by_cases hc : (req.Body.getD NoBody).ContentType = []
  · simp only [hc, ne_eq, not_true_eq_false, if_false]
    refine ⟨_, rfl, hlen, ?_, ?_, ?_⟩
    · intro hn
      rw [← hzero hn]
      exact hlen
    · intro habs
      exact habs.elim
    · intro _
      rfl
  · obtain ⟨h, hh⟩ := Option.ne_none_iff_exists'.mp (hhdr hc)
    have hcanon : textproto.CanonicalMIMEHeaderKey (str "Content-Type") = str "Content-Type" := by
      decide
    simp only [hc, ne_eq, not_false_eq_true, if_true, hh, http.Header.Set, hcanon]
    refine ⟨_, rfl, hlen, ?_, ?_, ?_⟩
    · intro hn
      rw [← hzero hn]
      exact hlen
    · intro _
      refine ⟨h, rfl, rfl, ?_⟩
      intro h2 he
      have he2 : MIMEHeader.Set h (str "Content-Type") (req.Body.getD NoBody).ContentType = h2 := by
        simpa using he
      subst he2
      simp [http.Header.Get, Get_Set, hcanon]
    · intro habs
      exact habs.elim

/-- C10 at a POST request with a byte body of five bytes and of type
application/json: the call has ContentLength 5 and the Content-Type of the
body, next to the header the request had. -/
theorem C10_HTTPRequest_length_and_type_witness :
    ∃ httpReq, (jsonRequest.HTTPRequest plainNet noFiles stableOpencast.GetHost).1 = .ok httpReq ∧
      httpReq.ContentLength = 5 ∧
      httpReq.Header = some [(str "Content-Type", [str "application/json"]),
        (str "Accept", [str "application/json"])] := by
  obtain ⟨httpReq, h1, h2, _, h4, _⟩ := C10_HTTPRequest_length_and_type plainNet noFiles
    jsonRequest stableOpencast.GetHost
    { Host := str "https://stable.opencast.org", Path := str "/api/events", RawQuery := [] }
    { data := str "[1,2]", err := none, closer := none }
    (by decide) (by decide) (by decide) (by decide)
  obtain ⟨h, hh, hset, _⟩ := h4 (by decide)
  refine ⟨httpReq, h1, h2.trans (by decide), ?_⟩
  have hval : h = [(str "Accept", [str "application/json"])] := by
    have : jsonRequest.Header = some [(str "Accept", [str "application/json"])] := by decide
    rw [this] at hh
    exact (Option.some.inj hh).symm
  rw [hset, hval]
  decide

/-- C10 as stated fails: the service of each of these requests resolves,
yet no outbound call is built: the body whose encode function fails makes
HTTPRequest return the error of the encoding, a nil context makes it return
the error of http.NewRequestWithContext, and a nil header map with a body
that declares a content type makes it panic. -/
theorem C10_resolved_service_without_call :
    stableOpencast.GetHost unencodableRequest.Service = .ok (str "https://stable.opencast.org") ∧
      (unencodableRequest.HTTPRequest plainNet noFiles stableOpencast.GetHost).1
        = .error (.errorString (str "json: unsupported type: chan int")) ∧
      (nilContextRequest.HTTPRequest plainNet noFiles stableOpencast.GetHost).1
        = .error (.errorString (str "net/http: nil Context")) ∧
      (nilHeaderRequest.HTTPRequest plainNet noFiles stableOpencast.GetHost).1
        = .panic (str "assignment to entry in nil map") := by
  decide

/-! ## C4: a known service type without hosts -/

/-- The draw of a random index for an item without hosts panics, the mapper
and the world left as they are. -/
theorem pick_no_hosts (m : dynamicServiceMapper) (w : World) (svcItem : dynamicServiceItem)
    (hh : svcItem.hosts = []) :
    dynamicServiceMapper.GetHost.pick m w svcItem
      = (.panic (str "invalid argument to IntN"), m, w) := by
  simp [dynamicServiceMapper.GetHost.pick, rand.IntN, hh]

/-- For a registry answer of a known service type, resolveService entered
with one read lock held succeeds: it stores the item made of the hosts of the
answer and of the expiry now + TTL in the cache, and returns with one read
lock held, after one query and one reading of the clock. -/
theorem resolveService_known (m : dynamicServiceMapper) (w : World) (svc : GoString)
    (resp : serviceregistry.AvailableServicesResponse)
    (hq : w.registry w.queries svc = .ok resp)
    (ht : resp.Services.Type_ = strobj.Type_.Object)
    (hl : m.mtx = { readers := 1, writer := false }) :
    m.resolveService w svc =
      (.ok { hosts := resolveService.hosts resp.Services.ObjectVal,
             expired := Unix (w.clock w.readings + m.itemTTL) },
        { m with
          mtx := { readers := 1, writer := false },
          serviceHost := mapAssign m.serviceHost svc
            { hosts := resolveService.hosts resp.Services.ObjectVal,
              expired := Unix (w.clock w.readings + m.itemTTL) } },
        { w with queries := w.queries + 1, readings := w.readings + 1 }) := by
  simp [dynamicServiceMapper.resolveService, hq, ht, hl, RWMutex.RUnlock, RWMutex.Lock,
    RWMutex.Unlock, RWMutex.RLock]

/-- For a registry that answers with a known service type without hosts,
resolveService entered with one read lock held succeeds with an item without
hosts and stores it in the cache. -/
theorem resolveService_no_hosts (m : dynamicServiceMapper) (w : World) (svc : GoString)
    (resp : serviceregistry.AvailableServicesResponse)
    (hq : w.registry w.queries svc = .ok resp)
    (ht : resp.Services.Type_ = strobj.Type_.Object)
    (hh : resolveService.hosts resp.Services.ObjectVal = [])
    (hl : m.mtx = { readers := 1, writer := false }) :
    ∃ item m2 w2, m.resolveService w svc = (.ok item, m2, w2) ∧ item.hosts = [] ∧
      m2.serviceHost.lookup svc = some item ∧ m2.mtx = { readers := 1, writer := false } ∧
      w2.registry = w.registry ∧ w2.queries = w.queries + 1 :=
  ⟨_, _, _, resolveService_known m w svc resp hq ht hl, hh,
    by simp [mapAssign, List.lookup], rfl, rfl, rfl⟩

/-- On a fresh mapper, whatever the time to live and the clock, when the
registry answers every query for the service with a known service type
without hosts, GetHost panics in rand.IntN. -/
theorem GetHost_no_hosts_panics (ttl : Int) (w : World) (svc : GoString)
    (resp : serviceregistry.AvailableServicesResponse)
    (hq : ∀ n, w.registry n svc = .ok resp)
    (ht : resp.Services.Type_ = strobj.Type_.Object)
    (hh : resolveService.hosts resp.Services.ObjectVal = []) :
    ((NewDynamicServiceMapper ttl).GetHost w svc).1 = .panic (str "invalid argument to IntN") := by
  obtain ⟨item, m2, w2, h1, hi, _, hl2, hr2, _⟩ := resolveService_no_hosts
    { itemTTL := ttl, mtx := { readers := 1, writer := false }, serviceHost := [] } w svc resp
    (hq _) ht hh rfl
  have hdef : ∀ (r : Outcome GoString × dynamicServiceMapper × World),
      r.1 = .panic (str "invalid argument to IntN") →
      r.2.1.mtx = { readers := 1, writer := false } →
      (dynamicServiceMapper.GetHost.deferred r).1 = .panic (str "invalid argument to IntN") := by
    intro r hr hm
    simp [dynamicServiceMapper.GetHost.deferred, hm, RWMutex.RUnlock, hr]
  have hcheck : (dynamicServiceMapper.GetHost.check m2 w2 svc item).1
        = .panic (str "invalid argument to IntN") ∧
      (dynamicServiceMapper.GetHost.check m2 w2 svc item).2.1.mtx
        = { readers := 1, writer := false } := by
    unfold dynamicServiceMapper.GetHost.check
    simp only
    split
    · obtain ⟨item3, m3, w3, h3, hi3, _, hl3, _⟩ := resolveService_no_hosts m2
        { w2 with readings := w2.readings + 1 } svc resp (by rw [hr2]; exact hq _) ht hh hl2
      rw [h3]
      simp only [pick_no_hosts _ _ _ hi3, hl3, and_self]
    · simp only [pick_no_hosts _ _ _ hi, hl2, and_self]
  unfold dynamicServiceMapper.GetHost
  simp only [NewDynamicServiceMapper, RWMutex.RLock, List.lookup, Bool.false_eq_true, if_false,
    Nat.zero_add]
  rw [h1]
  exact hdef _ hcheck.1 hcheck.2

/-- C4 on the code: on a fresh mapper with a time to live of 60 seconds, for
the registry answer that describes a known service type with an empty service
list, GetHost does not return an error: it panics in rand.IntN (called with
the length 0 of the host list), after having stored the entry without hosts
in the cache. -/
theorem C4_GetHost_panics_on_zero_hosts :
    ((NewDynamicServiceMapper (60 * 1000000000)).GetHost (steadyWorld (.ok knownWithoutHosts))
        (str "org.opencastproject.ingest")).1
      = .panic (str "invalid argument to IntN") ∧
    ((NewDynamicServiceMapper (60 * 1000000000)).GetHost (steadyWorld (.ok knownWithoutHosts))
        (str "org.opencastproject.ingest")).2.1.serviceHost
      = [(str "org.opencastproject.ingest", { hosts := [], expired := 1700000060 })] := by
  decide

/-! ## C11: the declared length of a message -/

/-- The loop of Multipart.Len returns -1 when a part declares a negative
length, whatever it has added up before. -/
theorem Len_loop_negative (fs : FileSystem) (parts : List Part)
    (h : ∃ part ∈ parts, part.Len fs < 0) (n : Int) :
    Multipart.Len.loop fs parts n = -1 := by
  induction parts generalizing n with
  | nil => simp at h
  | cons part rest ih =>
    by_cases hp : part.Len fs < 0
    · simp [Multipart.Len.loop, hp]
    · obtain ⟨q, hq, hlt⟩ := h
      have hq2 : q ∈ rest := by
        rcases List.mem_cons.mp hq with rfl | hmem
        · exact absurd hlt hp
        · exact hmem
      simp only [Multipart.Len.loop, hp, if_false]
      exact ih ⟨q, hq2, hlt⟩ _

/-- The loop of Multipart.Len adds up the declared lengths when none of them
is negative. -/
theorem Len_loop_known (fs : FileSystem) (parts : List Part)
    (h : ∀ part ∈ parts, 0 ≤ part.Len fs) (n : Int) :
    Multipart.Len.loop fs parts n = n + (parts.map (fun part => part.Len fs)).sum := by
  induction parts generalizing n with
  | nil => simp [Multipart.Len.loop]
  | cons part rest ih =>
    have hp : ¬ part.Len fs < 0 := not_lt.mpr (h part (List.mem_cons_self _ _))
    have hrest : ∀ q ∈ rest, 0 ≤ q.Len fs := fun q hq => h q (List.mem_cons_of_mem _ hq)
    simp only [Multipart.Len.loop, hp, if_false, ih hrest, List.map_cons, List.sum_cons]
    ring

/-- C11: Multipart.Len returns -1 whenever at least one part declares a
negative length, in particular whenever the message contains a StreamPart or
a FilePart whose stat fails; and when no part declares a negative length it
returns n * (len(B) + 4) + (len(B) + 6) + the sum of the declared lengths of
the parts, for n parts and the boundary B. -/
theorem C11_Len_unknown_or_sum (fs : FileSystem) (mp : Multipart) :
    ((∃ part ∈ mp.parts, part.Len fs < 0) → mp.Len fs = -1) ∧
      ((∃ part ∈ mp.parts, ∃ h r once, part = Part.StreamPart h r once) → mp.Len fs = -1) ∧
      ((∃ part ∈ mp.parts, ∃ h file e, part = Part.FilePart h file ∧ fs.Stat file = .error e) →
        mp.Len fs = -1) ∧
      ((∀ part ∈ mp.parts, 0 ≤ part.Len fs) →
        mp.Len fs = (mp.parts.length : Int) * ((mp.boundary.length : Int) + 4)
          + ((mp.boundary.length : Int) + 6)
          + (mp.parts.map (fun part => part.Len fs)).sum) := by
  refine ⟨fun h => Len_loop_negative fs mp.parts h _, ?_, ?_, ?_⟩
  · rintro ⟨part, hmem, h, r, once, rfl⟩
    exact Len_loop_negative fs mp.parts ⟨_, hmem, by simp [Part.Len]⟩ _
  · rintro ⟨part, hmem, h, file, e, rfl, hstat⟩
    exact Len_loop_negative fs mp.parts ⟨_, hmem, by simp [Part.Len, hstat]⟩ _
  · intro h
    simp only [Multipart.Len, Len_loop_known fs mp.parts h]
    ring

/-- C11 at the message with a stream part (length unknown) and at the message
of two string fields (2 * 5 + 7 + 47 + 47 = 111). -/
theorem C11_Len_unknown_or_sum_witness :
    streamMessage.Len noFiles = -1 ∧ twoFields.Len noFiles = 2 * (1 + 4) + (1 + 6) + (47 + 47) :=
  ⟨(C11_Len_unknown_or_sum noFiles streamMessage).2.1
      ⟨_, List.mem_cons_of_mem _ (List.mem_cons_self _ _), _, _, _, rfl⟩,
    ((C11_Len_unknown_or_sum noFiles twoFields).2.2.2 (by decide)).trans (by decide)⟩

/-! ## C14: the body of a stream part -/

/-- C14: for every StreamPart created by Stream with a reader r that is not
nil, the first call of GetBody returns r and no error, and every later call
of GetBody (after n + 1 calls, for every n) returns an error and no reader. -/
theorem C14_StreamPart_single_use (fs : FileSystem) (fieldname filename : GoString)
    (r : ReadCloser) (n : Nat) :
    ((Stream fieldname filename (some r)).GetBody fs).1 = .ok r ∧
      (((fun p : Part => (p.GetBody fs).2)^[n + 1]
          (Stream fieldname filename (some r))).GetBody fs).1
        = .error (.errorString
            (str "multipart: body of stream part can only be accessed once")) := by
  constructor
  · simp [Stream, Part.GetBody]
  · have step : ∀ h (once : Bool),
        ((Part.StreamPart h (some r) once).GetBody fs).2 = Part.StreamPart h (some r) true := by
      intro h once
      cases once <;> simp [Part.GetBody]
    have iter : ∀ (k : Nat) h (once : Bool),
        ((fun p : Part => (p.GetBody fs).2)^[k + 1] (Part.StreamPart h (some r) once))
          = Part.StreamPart h (some r) true := by
      intro k
      induction k with
      | zero => intro h once; simpa using step h once
      | succ k ih =>
        intro h once
        rw [Function.iterate_succ_apply, step, ih]
    unfold Stream
    rw [iter]
    simp [Part.GetBody]

/-! ## C13: closing the readers of stream parts -/

/-- C13 on the code: for the message whose first part is a file that cannot
be opened and whose second part is a stream part, the producer returns the
error of os.Open at the first part and never reaches the stream part: when it
returns, the reader of the stream part (resource 7) has not been closed at
all; on the message without the failing file part the same reader is closed
exactly once. -/
theorem C13_stream_reader_not_closed_after_early_failure :
    (Reader noFiles fileThenStream).err =
        some (GoError.PathError (str "open") (str "/tmp/missing.pdf")
          (str "no such file or directory")) ∧
      (Reader noFiles fileThenStream).closed = [] ∧
      (Reader noFiles fileThenStream).closed.count 7 = 0 ∧
      (Reader noFiles streamMessage).err = none ∧
      (Reader noFiles streamMessage).closed.count 7 = 1 := by
  decide

/-! ## C12: the lazily encoded body -/

/-- A sequence of calls on an encoder body that is either unused, or holds
the return of the one invocation of its encode function made so far: every
call returns what is expected from the return of that invocation, and the
function is invoked once more if the Once was unused and a call is made, and
not at all otherwise. -/
theorem encoderBody_calls (fs : FileSystem) (f0 : EncoderFunc) (ct : GoString)
    (cs : List BodyCall) :
    ∀ (f : EncoderFunc) (b : GoString) (err : Option GoError) (once : Bool),
      (once = false → f = f0) →
      (once = true → f = f0.invoke.2 ∧ (b, err) = f0.invoke.1) →
      (Body.calls fs cs (.encoderBody f b err once ct)).1
          = cs.map (encoderBody.expected f0.invoke.1) ∧
        (Body.calls fs cs (.encoderBody f b err once ct)).2.invoked
          = if once = true ∨ cs = [] then f.invoked else f0.invoked + 1 := by
  induction cs with
  | nil => intro f b err once _ _; simp [Body.calls, Body.invoked]
  | cons c cs ih =>
    intro f b err once hnew hused
    have henc : encoderBody.Encode f b err once
        = (f0.invoke.2, f0.invoke.1.1, f0.invoke.1.2) := by
      cases once with
      | false => simp [encoderBody.Encode, hnew rfl]
      | true =>
        obtain ⟨hf, hb⟩ := hused rfl
        have hb1 : b = f0.invoke.1.1 := congrArg Prod.fst hb
        have hb2 : err = f0.invoke.1.2 := congrArg Prod.snd hb
        simp [encoderBody.Encode, hf, hb1, hb2]
    have hnext : ((Body.encoderBody f b err once ct).call fs c).2
        = .encoderBody f0.invoke.2 f0.invoke.1.1 f0.invoke.1.2 true ct := by
      cases c with
      | Len => simp [Body.call, Body.Len, henc]
      | Reader =>
        simp only [Body.call, Body.Reader, henc]
        split <;> rfl
      | Encode => simp [Body.call, Body.Encode, henc]
    have hret : ((Body.encoderBody f b err once ct).call fs c).1
        = encoderBody.expected f0.invoke.1 c := by
      cases c with
      | Len => simp [Body.call, Body.Len, henc, encoderBody.expected]
      | Reader =>
        simp only [Body.call, Body.Reader, henc, encoderBody.expected]
        split <;> simp_all
      | Encode => simp [Body.call, Body.Encode, henc, encoderBody.expected]
    obtain ⟨ih1, ih2⟩ := ih f0.invoke.2 f0.invoke.1.1 f0.invoke.1.2 true
      (fun h => Bool.noConfusion h) (fun _ => ⟨rfl, rfl⟩)
    simp only [Body.calls, hnext, hret, ih1, ih2, List.map_cons, true_and]
    cases once with
    | false => simp [EncoderFunc.invoke]
    | true => simp [(hused rfl).1, EncoderFunc.invoke]

/-- C12: for every lazily encoded body made by NewEncoderBody from an encode
function f, whatever f returns at its successive invocations and however
often it was invoked before, and for every finite sequence of calls of Len,
Reader and Encode on the body, f is invoked at most once more (once if a
call is made, as f itself counts); if that invocation fails with an error e,
every Reader call returns e and no stream and every Encode call returns e;
if it succeeds with the bytes b, every Len call returns len(b), every Reader
call yields b and every Encode call returns nil. -/
theorem C12_encode_at_most_once (fs : FileSystem) (f : EncoderFunc)
    (ct : GoString) (cs : List BodyCall) :
    (Body.calls fs cs (NewEncoderBody f ct)).2.invoked ≤ f.invoked + 1 ∧
      (cs ≠ [] → (Body.calls fs cs (NewEncoderBody f ct)).2.invoked = f.invoked + 1) ∧
      (cs = [] → (Body.calls fs cs (NewEncoderBody f ct)).2.invoked = f.invoked) ∧
      (∀ e, f.invoke.1.2 = some e →
        List.Forall₂ (fun c ret =>
            (c = BodyCall.Reader → ret = BodyReturn.reader (.error e)) ∧
            (c = BodyCall.Encode → ret = BodyReturn.encode (some e)))
          cs (Body.calls fs cs (NewEncoderBody f ct)).1) ∧
      (f.invoke.1.2 = none →
        List.Forall₂ (fun c ret =>
            (c = BodyCall.Len → ret = BodyReturn.len (f.invoke.1.1.length : Int)) ∧
            (c = BodyCall.Reader → ret = BodyReturn.reader
              (.ok { data := f.invoke.1.1, err := none, closer := none })) ∧
            (c = BodyCall.Encode → ret = BodyReturn.encode none))
          cs (Body.calls fs cs (NewEncoderBody f ct)).1) := by
  obtain ⟨h1, h2⟩ := encoderBody_calls fs f ct cs f [] none false (fun _ => rfl)
    (fun h => Bool.noConfusion h)
  unfold NewEncoderBody
  rw [h1, h2]
  refine ⟨by split <;> simp, fun hne => by simp [hne], fun he => by simp [he], ?_, ?_⟩
  · intro e he
    rw [List.forall₂_map_right_iff]
    refine List.forall₂_same.mpr (fun c _ => ⟨?_, ?_⟩)
    · rintro rfl
      simp [encoderBody.expected, he]
    · rintro rfl
      simp [encoderBody.expected, he]
  · intro hn
    rw [List.forall₂_map_right_iff]
    refine List.forall₂_same.mpr (fun c _ => ⟨?_, ?_, ?_⟩)
    · rintro rfl
      simp [encoderBody.expected]
    · rintro rfl
      simp [encoderBody.expected, hn]
    · rintro rfl
      simp [encoderBody.expected, hn]

/-- C12 at a body whose encode function fails at its first invocation and
would succeed at a second one, and at a body whose encode function returns
[1,2] at its first invocation and [3] at a second one, for the calls Len,
Reader, Encode, Reader: one invocation of the function, and the error, or
the bytes, of the first invocation at every call. -/
theorem C12_encode_at_most_once_witness :
    Body.calls noFiles [.Len, .Reader, .Encode, .Reader]
        (NewEncoderBody
          { returns := [([], some (.errorString (str "json: unsupported type: chan int"))),
              (str "[1,2]", none)],
            invoked := 0 }
          (str "application/json"))
      = ([.len 0,
          .reader (.error (.errorString (str "json: unsupported type: chan int"))),
          .encode (some (.errorString (str "json: unsupported type: chan int"))),
          .reader (.error (.errorString (str "json: unsupported type: chan int")))],
        .encoderBody
          { returns := [([], some (.errorString (str "json: unsupported type: chan int"))),
              (str "[1,2]", none)],
            invoked := 1 }
          [] (some (.errorString (str "json: unsupported type: chan int"))) true
          (str "application/json")) ∧
      (Body.calls noFiles [.Len, .Reader, .Encode, .Reader]
        (NewEncoderBody { returns := [(str "[1,2]", none), (str "[3]", none)], invoked := 0 }
          (str "application/json"))).1
      = [.len 5, .reader (.ok { data := str "[1,2]", err := none, closer := none }),
          .encode none, .reader (.ok { data := str "[1,2]", err := none, closer := none })] ∧
      (Body.calls noFiles [.Len, .Reader, .Encode, .Reader]
        (NewEncoderBody { returns := [(str "[1,2]", none), (str "[3]", none)], invoked := 0 }
          (str "application/json"))).2.invoked = 1 := by
  have h := C12_encode_at_most_once noFiles
    { returns := [(str "[1,2]", none), (str "[3]", none)], invoked := 0 }
    (str "application/json") [.Len, .Reader, .Encode, .Reader]
  exact ⟨by decide, by decide, h.2.1 (by decide)⟩

/-! ## C15 and C16: reading a body again -/

/-- A call of GetBody leaves an in-memory part as it is. -/
theorem GetBody_inMemory_part (fs : FileSystem) (part : Part) (hm : part.inMemory = true) :
    (part.GetBody fs).2 = part := by
  cases part <;> simp_all [Part.inMemory, Part.GetBody]

/-- The producer leaves in-memory parts as they are. -/
theorem write_loop_inMemory_parts (fs : FileSystem) (boundary : GoString) (parts : List Part)
    (hm : ∀ part ∈ parts, part.inMemory = true) (d : GoString) (deferred : List ReadCloser) :
    (reader.write.loop fs boundary parts ⟨d, false, none, none⟩ deferred).parts = parts := by
  induction parts generalizing d deferred with
  | nil => simp [reader.write.loop, Fprintf_open]
  | cons part rest ih =>
    have hpart : part.inMemory = true := hm part (List.mem_cons_self _ _)
    have hrest : ∀ q ∈ rest, q.inMemory = true := fun q hq => hm q (List.mem_cons_of_mem _ hq)
    simp only [reader.write.loop, Fprintf_open, writeHeader_open, GetBody_inMemory fs part hpart,
      Copy_open, GetBody_inMemory_part fs part hpart, ih hrest]

/-- The consumer of a message of in-memory parts reads the worded stream,
ended by end of stream. -/
theorem drain_inMemory (fs : FileSystem) (mp : Multipart)
    (hm : ∀ part ∈ mp.parts, part.inMemory = true) :
    reader.drain (Reader fs mp).pipe = (specStream mp.boundary mp.parts, some GoError.EOF) := by
  have hw := write_loop_inMemory fs mp.boundary mp.parts hm [] []
  simp [Reader, reader.write, io.Pipe, reader.drain, hw.1, pipe.readCloseError]

/-- C15: for NoBody, byte bodies, string bodies, lazily encoded bodies whose
encode function succeeds, form bodies, and multipart bodies made only of
in-memory parts, two successive calls of Reader both succeed and yield the
same stream: the same bytes, ended by end of stream. -/
theorem C15_Reader_twice_same_bytes (fs : FileSystem) (b : Body) (hr : b.replayable) :
    ∃ r, (b.Reader fs).1 = .ok r ∧ ((b.Reader fs).2.Reader fs).1 = .ok r ∧ r.err = none := by
  cases b with
  | noBody => exact ⟨_, rfl, rfl, rfl⟩
  | bytesBody bs ct => exact ⟨_, rfl, rfl, rfl⟩
  | stringReaderBody sr ct => exact ⟨_, rfl, rfl, rfl⟩
  | encoderBody f bb err once ct =>
    have he : (encoderBody.Encode f bb err once).2.2 = none := hr
    refine ⟨{ data := (encoderBody.Encode f bb err once).2.1, err := none, closer := none },
      ?_, ?_, rfl⟩
    · simp only [Body.Reader, he]
    · have hu : ∀ g x y, encoderBody.Encode g x y true = (g, x, y) := by
        intro g x y
        simp [encoderBody.Encode]
      simp only [Body.Reader, he, hu]
  | formBody f enc once =>
    refine ⟨_, rfl, ?_, rfl⟩
    simp [Body.Reader, formBody.Encode]
  | multipartBody mp =>
    have hm : ∀ part ∈ mp.parts, part.inMemory = true := hr
    have hparts : (Reader fs mp).parts = mp.parts := by
      simpa [Reader, reader.write, io.Pipe] using
        write_loop_inMemory_parts fs mp.boundary mp.parts hm [] []
    have hd := drain_inMemory fs mp hm
    refine ⟨{ data := specStream mp.boundary mp.parts, err := none, closer := none }, ?_, ?_, rfl⟩
    · simp [Body.Reader, hd]
    · simp [Body.Reader, hparts, hd]

/-- C15 at the multipart body of the two string fields. -/
theorem C15_Reader_twice_same_bytes_witness :
    (NewMultipartBody twoFields).replayable ∧
      ∃ r, ((NewMultipartBody twoFields).Reader noFiles).1 = .ok r ∧
        (((NewMultipartBody twoFields).Reader noFiles).2.Reader noFiles).1 = .ok r ∧
        r.err = none :=
  ⟨show ∀ part ∈ twoFields.parts, part.inMemory = true by decide,
    C15_Reader_twice_same_bytes noFiles (NewMultipartBody twoFields)
      (show ∀ part ∈ twoFields.parts, part.inMemory = true by decide)⟩

/-- The method strings.Reader.Len counts the bytes from the reading index on. -/
theorem Reader_Len_eq_drop (sr : strings.Reader) :
    sr.Len = (((sr.s.drop sr.i).length : Nat) : Int) := by
  unfold strings.Reader.Len
  rw [List.length_drop]
  split <;> omega

/-- C16, amended: for a string body built by NewStringBody(s), Len() is the
number of bytes of s and every Reader() call yields the whole string from
offset 0; for a string body built by NewStringReaderBody(sr), Len() is the
number of unread bytes of sr and every Reader() call yields exactly the
unread portion of sr, which is the whole string when sr has not been read;
in both cases Len and Reader leave the body as it is, so that what a call
yields does not depend on the readers returned before. -/
theorem C16_string_body_unread_portion (fs : FileSystem) (ct : GoString) :
    (∀ s : GoString,
        ((NewStringBody s ct).Len fs).1 = (s.length : Int) ∧
        ((NewStringBody s ct).Reader fs).1 = .ok { data := s, err := none, closer := none }) ∧
      (∀ sr : strings.Reader,
        ((NewStringReaderBody sr ct).Len fs).1 = (((sr.s.drop sr.i).length : Nat) : Int) ∧
        ((NewStringReaderBody sr ct).Reader fs).1
          = .ok { data := sr.s.drop sr.i, err := none, closer := none } ∧
        (sr.i = 0 →
          ((NewStringReaderBody sr ct).Len fs).1 = (sr.s.length : Int) ∧
          ((NewStringReaderBody sr ct).Reader fs).1
            = .ok { data := sr.s, err := none, closer := none })) ∧
      (∀ sr : strings.Reader,
        ((Body.stringReaderBody sr ct).Reader fs).2 = Body.stringReaderBody sr ct ∧
        ((Body.stringReaderBody sr ct).Len fs).2 = Body.stringReaderBody sr ct) := by
  refine ⟨?_, ?_, fun sr => ⟨rfl, rfl⟩⟩
  · intro s
    constructor
    · simp [NewStringBody, strings.NewReader, Body.Len, Reader_Len_eq_drop]
    · simp [NewStringBody, strings.NewReader, Body.Reader]
  · intro sr
    refine ⟨?_, rfl, ?_⟩
    · simp [NewStringReaderBody, Body.Len, Reader_Len_eq_drop]
    · intro h0
      constructor
      · simp [NewStringReaderBody, Body.Len, Reader_Len_eq_drop, h0]
      · simp [NewStringReaderBody, Body.Reader, h0]

/-- C16 at the string hello: the body of NewStringBody declares 5 bytes and
yields hello; the body over a reader that has not been read does the same. -/
theorem C16_string_body_unread_portion_witness :
    ((NewStringBody (str "hello") (str "text/plain")).Len noFiles).1 = 5 ∧
      ((NewStringReaderBody (strings.NewReader (str "hello")) (str "text/plain")).Reader
          noFiles).1
        = .ok { data := str "hello", err := none, closer := none } :=
  ⟨((C16_string_body_unread_portion noFiles (str "text/plain")).1 (str "hello")).1.trans
      (by decide),
    (((C16_string_body_unread_portion noFiles (str "text/plain")).2.1
      (strings.NewReader (str "hello"))).2.2 rfl).2⟩

/-- C16 as stated fails: the body built by NewStringReaderBody over a reader
of hello of which two bytes have been read declares the length 3, not 5, and
its Reader yields llo, not the whole string from offset 0. -/
theorem C16_half_read_reader_body :
    ((NewStringReaderBody halfReadReader (str "text/plain")).Len noFiles).1 = 3 ∧
      (halfReadReader.s.length : Int) = 5 ∧
      ((NewStringReaderBody halfReadReader (str "text/plain")).Reader noFiles).1
        = .ok { data := str "llo", err := none, closer := none } ∧
      ((NewStringReaderBody halfReadReader (str "text/plain")).Reader noFiles).1
        ≠ .ok { data := str "hello", err := none, closer := none } := by
  decide

/-! ## C17: the fields of a form body -/

/-- One call on a form body whose sync.Once is used only with the encoded
form set: the body stays such a form body, and its encoded form is set
afterwards if and only if it was set before or the call is Encode, Len or
Reader. -/
theorem formCall_encoded (fs : FileSystem) (c : FormCall) (f : MIMEHeader)
    (enc : Option GoString) (once : Bool) (hinv : once = true → enc ≠ none) :
    ∃ f1 enc1 once1,
      ((Body.formBody f enc once).formCall fs c).2 = .formBody f1 enc1 once1 ∧
      (once1 = true → enc1 ≠ none) ∧
      (enc1 ≠ none ↔ (enc ≠ none ∨ c.finalizes = true)) := by
  have hfin : ∃ f1 enc1 once1,
      Body.formBody f (formBody.Encode f enc once) true = .formBody f1 enc1 once1 ∧
      (once1 = true → enc1 ≠ none) ∧ (enc1 ≠ none ↔ (enc ≠ none ∨ True)) := by
    refine ⟨f, formBody.Encode f enc once, true, rfl, ?_, ?_⟩
    · intro _
      cases once with
      | false => simp [formBody.Encode]
      | true => simpa [formBody.Encode] using hinv rfl
    · cases once with
      | false => simp [formBody.Encode]
      | true => simpa [formBody.Encode] using hinv rfl
  cases c with
  | GetField key => exact ⟨f, enc, once, rfl, hinv, by simp [FormCall.finalizes]⟩
  | HasField key => exact ⟨f, enc, once, rfl, hinv, by simp [FormCall.finalizes]⟩
  | SetField key value =>
    by_cases he : enc = none
    · exact ⟨url.Values.Set f key value, enc, once,
        by simp [Body.formCall, formBody.SetField, he, Body.changeFields], hinv,
        by simp [FormCall.finalizes]⟩
    · exact ⟨f, enc, once, by simp [Body.formCall, formBody.SetField, he, Body.changeFields],
        hinv, by simp [FormCall.finalizes]⟩
  | AddField key value =>
    by_cases he : enc = none
    · exact ⟨url.Values.Add f key value, enc, once,
        by simp [Body.formCall, formBody.AddField, he, Body.changeFields], hinv,
        by simp [FormCall.finalizes]⟩
    · exact ⟨f, enc, once, by simp [Body.formCall, formBody.AddField, he, Body.changeFields],
        hinv, by simp [FormCall.finalizes]⟩
  | DeleteField key =>
    by_cases he : enc = none
    · exact ⟨url.Values.Del f key, enc, once,
        by simp [Body.formCall, formBody.DeleteField, he, Body.changeFields], hinv,
        by simp [FormCall.finalizes]⟩
    · exact ⟨f, enc, once,
        by simp [Body.formCall, formBody.DeleteField, he, Body.changeFields], hinv,
        by simp [FormCall.finalizes]⟩
  | Encode => simpa [Body.formCall, Body.call, Body.Encode, FormCall.finalizes] using hfin
  | Len => simpa [Body.formCall, Body.call, Body.Len, FormCall.finalizes] using hfin
  | Reader => simpa [Body.formCall, Body.call, Body.Reader, FormCall.finalizes] using hfin

/-- After any sequence of calls on a form body whose sync.Once is used only
with the encoded form set, the body is a form body whose encoded form is set
if and only if it was set before or one of the calls was Encode, Len or
Reader. -/
theorem formCalls_encoded (fs : FileSystem) (cs : List FormCall) :
    ∀ (f : MIMEHeader) (enc : Option GoString) (once : Bool), (once = true → enc ≠ none) →
      ∃ f2 enc2 once2, Body.formCalls fs cs (.formBody f enc once) = .formBody f2 enc2 once2 ∧
        (enc2 ≠ none ↔ (enc ≠ none ∨ ∃ c ∈ cs, c.finalizes = true)) := by
  induction cs with
  | nil => intro f enc once _; exact ⟨f, enc, once, rfl, by simp⟩
  | cons c cs ih =>
    intro f enc once hinv
    obtain ⟨f1, enc1, once1, h1, hinv1, hiff1⟩ := formCall_encoded fs c f enc once hinv
    obtain ⟨f2, enc2, once2, h2, hiff2⟩ := ih f1 enc1 once1 hinv1
    refine ⟨f2, enc2, once2, by simp [Body.formCalls, h1, h2], ?_⟩
    rw [hiff2, hiff1]
    simp only [List.mem_cons, exists_eq_or_imp]
    tauto

/-- C17: for every form body made by NewFormBody and every sequence of
method calls made on it before, a call of SetField, AddField or DeleteField
panics if and only if one of the earlier calls was Encode, Len or Reader;
when it panics the body (its field set and its encoded form) is left as it
is; and GetField and HasField never panic and leave the body as it is. -/
theorem C17_form_fields_after_encoding (fs : FileSystem) (cs : List FormCall) :
    (∀ c : FormCall, c.changes = true →
        (((Body.formCalls fs cs NewFormBody).formCall fs c).1.panics = true ↔
          ∃ d ∈ cs, d.finalizes = true) ∧
        (((Body.formCalls fs cs NewFormBody).formCall fs c).1.panics = true →
          ((Body.formCalls fs cs NewFormBody).formCall fs c).2
            = Body.formCalls fs cs NewFormBody)) ∧
      (∀ key,
        ((Body.formCalls fs cs NewFormBody).formCall fs (.GetField key)).1.panics = false ∧
        ((Body.formCalls fs cs NewFormBody).formCall fs (.GetField key)).2
          = Body.formCalls fs cs NewFormBody ∧
        ((Body.formCalls fs cs NewFormBody).formCall fs (.HasField key)).1.panics = false ∧
        ((Body.formCalls fs cs NewFormBody).formCall fs (.HasField key)).2
          = Body.formCalls fs cs NewFormBody) := by
  obtain ⟨f, enc, once, hb, hiff⟩ := formCalls_encoded fs cs [] none false (by simp)
  unfold NewFormBody
  rw [hb]
  have hiff2 : enc ≠ none ↔ ∃ d ∈ cs, d.finalizes = true := by simpa using hiff
  constructor
  · intro c hc
    rw [← hiff2]
    cases c with
    | SetField key value =>
      by_cases he : enc = none <;>
        simp [Body.formCall, formBody.SetField, he, Body.changeFields, Outcome.panics]
    | AddField key value =>
      by_cases he : enc = none <;>
        simp [Body.formCall, formBody.AddField, he, Body.changeFields, Outcome.panics]
    | DeleteField key =>
      by_cases he : enc = none <;>
        simp [Body.formCall, formBody.DeleteField, he, Body.changeFields, Outcome.panics]
    | _ => simp [FormCall.changes] at hc
  · intro key
    simp [Body.formCall, Outcome.panics]

/-- C17 on a form body with one field: SetField succeeds before Len is
called and panics after it, leaving the field and the encoded form a=1. -/
theorem C17_form_fields_after_encoding_witness :
    ((Body.formCalls noFiles [.SetField (str "a") (str "1")] NewFormBody).formCall noFiles
        (.SetField (str "b") (str "2"))).1 = .ok .done ∧
      ((Body.formCalls noFiles [.SetField (str "a") (str "1"), .Len] NewFormBody).formCall
        noFiles (.SetField (str "b") (str "2")))
        = (.panic (str "formBody: setting field to already encoded form"),
            .formBody [(str "a", [str "1"])] (some (str "a=1")) true) ∧
      ((Body.formCalls noFiles [.SetField (str "a") (str "1"), .Len] NewFormBody).formCall
        noFiles (.SetField (str "b") (str "2"))).1.panics = true := by
  refine ⟨by decide, by decide, ?_⟩
  exact ((C17_form_fields_after_encoding noFiles [.SetField (str "a") (str "1"), .Len]).1
    (.SetField (str "b") (str "2")) rfl).1.mpr ⟨.Len, by simp, rfl⟩

/-! ## C18: request options -/

/-- Reading a key of a map from which another key was filtered out. -/
theorem lookup_filter_ne {V : Type} (m : List (GoString × V)) (k k2 : GoString) (h : k2 ≠ k) :
    (m.filter (fun kv => kv.1 != k)).lookup k2 = m.lookup k2 := by
  induction m with
  | nil => rfl
  | cons kv m ih =>
    obtain ⟨a, v⟩ := kv
    by_cases ha : a = k
    · subst ha
      have hne : (k2 == a) = false := by simpa using h
      simp [List.filter, List.lookup, hne, ih]
    · have hb : (a != k) = true := by simpa using ha
      simp only [List.filter, hb, List.lookup]
      split
      · rfl
      · exact ih

/-- Reading the key that was filtered out of a map finds nothing. -/
theorem lookup_filter_self {V : Type} (m : List (GoString × V)) (k : GoString) :
    (m.filter (fun kv => kv.1 != k)).lookup k = none := by
  induction m with
  | nil => rfl
  | cons kv m ih =>
    obtain ⟨a, v⟩ := kv
    by_cases ha : a = k
    · subst ha
      simp [List.filter, ih]
    · have hb : (a != k) = true := by simpa using ha
      have hne : (k == a) = false := by simpa using fun h : k = a => ha h.symm
      simp [List.filter, hb, List.lookup, hne, ih]

/-- The values of a key after url.Values.Set and url.Values.Del. -/
theorem Values_Set_Del (q : MIMEHeader) (k v : GoString) :
    (url.Values.Set q k v).Get k = [v] ∧
      (url.Values.Del q k).Get k = [] ∧
      url.Values.Has (url.Values.Del q k) k = false ∧
      ∀ k2, k2 ≠ k →
        (url.Values.Set q k v).Get k2 = q.Get k2 ∧ (url.Values.Del q k).Get k2 = q.Get k2 := by
  refine ⟨by simp [url.Values.Set, MIMEHeader.Get, List.lookup], ?_, ?_, ?_⟩
  · simp [url.Values.Del, MIMEHeader.Get, lookup_filter_self]
  · simp [url.Values.Del, url.Values.Has, lookup_filter_self]
  · intro k2 h
    have hne : (k2 == k) = false := by simpa using h
    constructor
    · simp [url.Values.Set, MIMEHeader.Get, List.lookup, hne, lookup_filter_ne q k k2 h]
    · simp [url.Values.Del, MIMEHeader.Get, lookup_filter_ne q k k2 h]

/-- The options of a list are applied one after the other: applying two
lists in a row is applying the first and then, on its result, the second. -/
theorem ApplyOptions_append (req : Request) (opts1 opts2 : List RequestOpts) :
    req.ApplyOptions (opts1 ++ opts2) =
      match req.ApplyOptions opts1 with
      | .ok r => r.ApplyOptions opts2
      | .error err => .error err
      | .panic msg => .panic msg
      | .blocked => .blocked := by
  induction opts1 generalizing req with
  | nil => rfl
  | cons opt opts ih =>
    simp only [List.cons_append, Request.ApplyOptions]
    cases opt req with
    | ok r => exact ih r
    | error err => rfl
    | panic msg => rfl
    | blocked => rfl

/-- C18: request options are applied in the order of the argument list and a
later option wins on the same key. For every key k and values v1, v2: a
request built with [WithQuery(k,v1), WithQuery(k,v2)] has exactly the one
value v2 for k; built with [WithQuery(k,v1), WithoutQuery(k)] it has no value
for k (and built in the other order it has the value v1); on every request
with a query map, WithQuery(k,..) and WithoutQuery(k) leave the values of
every other key, and the header, as they are. The same holds for WithHeader
and WithoutHeader on the header map, whose keys are read and written in
canonical form: every map key other than the canonical form of k, and so the
header of every name whose canonical form is another, is left as it is. -/
theorem C18_options_in_order (ctx : Option Unit) (method service path : GoString)
    (body : Option Body) (k v1 v2 : GoString) :
    (∃ req q, NewRequest ctx method service path body [WithQuery k v1, WithQuery k v2] = .ok req ∧
        req.Query = some q ∧ q.Get k = [v2]) ∧
      (∃ req q, NewRequest ctx method service path body [WithQuery k v1, WithoutQuery k]
          = .ok req ∧
        req.Query = some q ∧ q.Get k = [] ∧ url.Values.Has q k = false) ∧
      (∃ req q, NewRequest ctx method service path body [WithoutQuery k, WithQuery k v1]
          = .ok req ∧
        req.Query = some q ∧ q.Get k = [v1]) ∧
      (∀ (req : Request) (q : MIMEHeader), req.Query = some q →
        (∃ r q2, WithQuery k v1 req = .ok r ∧ r.Query = some q2 ∧ r.Header = req.Header ∧
          ∀ k2, k2 ≠ k → q2.Get k2 = q.Get k2) ∧
        (∃ r q2, WithoutQuery k req = .ok r ∧ r.Query = some q2 ∧ r.Header = req.Header ∧
          ∀ k2, k2 ≠ k → q2.Get k2 = q.Get k2)) ∧
      (∃ req h, NewRequest ctx method service path body [WithHeader k v1, WithHeader k v2]
          = .ok req ∧
        req.Header = some h ∧ h.Get (textproto.CanonicalMIMEHeaderKey k) = [v2] ∧
        http.Header.Get h k = v2) ∧
      (∃ req h, NewRequest ctx method service path body [WithHeader k v1, WithoutHeader k]
          = .ok req ∧
        req.Header = some h ∧ h.Get (textproto.CanonicalMIMEHeaderKey k) = [] ∧
        http.Header.Get h k = []) ∧
      (∀ (req : Request) (h : MIMEHeader), req.Header = some h →
        (∃ r h2, WithHeader k v1 req = .ok r ∧ r.Header = some h2 ∧ r.Query = req.Query ∧
          (∀ k2, k2 ≠ textproto.CanonicalMIMEHeaderKey k → h2.Get k2 = h.Get k2) ∧
          ∀ k3, textproto.CanonicalMIMEHeaderKey k3 ≠ textproto.CanonicalMIMEHeaderKey k →
            http.Header.Get h2 k3 = http.Header.Get h k3) ∧
        (∃ r h2, WithoutHeader k req = .ok r ∧ r.Header = some h2 ∧ r.Query = req.Query ∧
          (∀ k2, k2 ≠ textproto.CanonicalMIMEHeaderKey k → h2.Get k2 = h.Get k2) ∧
          ∀ k3, textproto.CanonicalMIMEHeaderKey k3 ≠ textproto.CanonicalMIMEHeaderKey k →
            http.Header.Get h2 k3 = http.Header.Get h k3)) ∧
      (∀ (req : Request) (opts1 opts2 : List RequestOpts) (r : Request),
        req.ApplyOptions opts1 = .ok r →
        req.ApplyOptions (opts1 ++ opts2) = r.ApplyOptions opts2) := by
  refine ⟨?_, ?_, ?_, ?_, ?_, ?_, ?_, ?_⟩
  · refine ⟨_, _, rfl, rfl, ?_⟩
    exact (Values_Set_Del _ k v2).1
  · refine ⟨_, _, rfl, rfl, ?_, ?_⟩
    · exact (Values_Set_Del _ k v1).2.1
    · exact (Values_Set_Del _ k v1).2.2.1
  · refine ⟨_, _, rfl, rfl, ?_⟩
    exact (Values_Set_Del _ k v1).1
  · intro req q hq
    constructor
    · refine ⟨{ req with Query := some (url.Values.Set q k v1) }, url.Values.Set q k v1,
        by simp [WithQuery, hq], rfl, rfl, ?_⟩
      intro k2 h2
      exact ((Values_Set_Del q k v1).2.2.2 k2 h2).1
    · refine ⟨{ req with Query := some (url.Values.Del q k) }, url.Values.Del q k,
        by simp [WithoutQuery, hq], rfl, rfl, ?_⟩
      intro k2 h2
      exact ((Values_Set_Del q k v1).2.2.2 k2 h2).2
  · obtain ⟨hget, _, _, _⟩ := Values_Set_Del
      (url.Values.Set [] (textproto.CanonicalMIMEHeaderKey k) v1)
      (textproto.CanonicalMIMEHeaderKey k) v2
    refine ⟨_, _, rfl, rfl, hget, ?_⟩
    have hg : (MIMEHeader.Set (MIMEHeader.Set [] (textproto.CanonicalMIMEHeaderKey k) v1)
        (textproto.CanonicalMIMEHeaderKey k) v2).Get (textproto.CanonicalMIMEHeaderKey k)
        = [v2] := hget
    simp [http.Header.Get, hg]
  · obtain ⟨_, hget, _, _⟩ := Values_Set_Del
      (url.Values.Set [] (textproto.CanonicalMIMEHeaderKey k) v1)
      (textproto.CanonicalMIMEHeaderKey k) v2
    refine ⟨_, _, rfl, rfl, hget, ?_⟩
    have hg : MIMEHeader.Get ((MIMEHeader.Set [] (textproto.CanonicalMIMEHeaderKey k) v1).filter
        (fun kv => kv.1 != textproto.CanonicalMIMEHeaderKey k))
          (textproto.CanonicalMIMEHeaderKey k) = [] := hget
    simp [http.Header.Get, hg]
  · intro req h hh
    obtain ⟨_, _, _, ho⟩ := Values_Set_Del h (textproto.CanonicalMIMEHeaderKey k) v1
    constructor
    · refine ⟨{ req with Header := some (url.Values.Set h (textproto.CanonicalMIMEHeaderKey k) v1) },
        url.Values.Set h (textproto.CanonicalMIMEHeaderKey k) v1, ?_, rfl, rfl,
        fun k2 h2 => (ho k2 h2).1, ?_⟩
      · simp [WithHeader, hh, http.Header.Set, MIMEHeader.Set, url.Values.Set]
      · intro k3 h3
        simp [http.Header.Get, (ho _ h3).1]
    · refine ⟨{ req with Header := some (url.Values.Del h (textproto.CanonicalMIMEHeaderKey k)) },
        url.Values.Del h (textproto.CanonicalMIMEHeaderKey k), ?_, rfl, rfl,
        fun k2 h2 => (ho k2 h2).2, ?_⟩
      · simp [WithoutHeader, hh, http.Header.Del, url.Values.Del]
      · intro k3 h3
        simp [http.Header.Get, (ho _ h3).2]
  · intro req opts1 opts2 r hr
    rw [ApplyOptions_append, hr]

/-- C18 at the key limit: set to 10 and then to 20 the request has the one
value 20; set to 10 and then deleted it has none. -/
theorem C18_options_in_order_witness :
    (∃ req q, NewRequest (some ()) (str "GET") (str "org.opencastproject.external")
          (str "/api/events") none
          [WithQuery (str "limit") (str "10"), WithQuery (str "limit") (str "20")] = .ok req ∧
        req.Query = some q ∧ q.Get (str "limit") = [str "20"]) ∧
      (∃ req q, NewRequest (some ()) (str "GET") (str "org.opencastproject.external")
          (str "/api/events") none
          [WithQuery (str "limit") (str "10"), WithoutQuery (str "limit")] = .ok req ∧
        req.Query = some q ∧ q.Get (str "limit") = [] ∧
        url.Values.Has q (str "limit") = false) :=
  ⟨(C18_options_in_order (some ()) (str "GET") (str "org.opencastproject.external")
      (str "/api/events") none (str "limit") (str "10") (str "20")).1,
    (C18_options_in_order (some ()) (str "GET") (str "org.opencastproject.external")
      (str "/api/events") none (str "limit") (str "10") (str "20")).2.1⟩

/-! ## C19 and C20: the dynamic service mapper -/

/-- For a registry answer of an unknown service type, resolveService returns
ServiceNotFoundErr after one query, the mapper left as it is. -/
theorem resolveService_unknown (m : dynamicServiceMapper) (w : World) (svc : GoString)
    (resp : serviceregistry.AvailableServicesResponse)
    (hq : w.registry w.queries svc = .ok resp)
    (ht : resp.Services.Type_ = strobj.Type_.String) :
    m.resolveService w svc
      = (.error .ServiceNotFoundErr, m, { w with queries := w.queries + 1 }) := by
  simp [dynamicServiceMapper.resolveService, hq, ht]

/-- C19: when a call of GetHost on an idle mapper queries the registry (the
service is not in the cache, or its entry has expired) and the answer reports
the service type as unknown (its services value is a string), GetHost returns
the sentinel ServiceNotFoundErr with the empty host, after that one query,
and the mapper, its cache included, is the same afterwards as before. -/
theorem C19_unknown_service_not_found (m : dynamicServiceMapper) (w : World) (svc : GoString)
    (resp : serviceregistry.AvailableServicesResponse)
    (hidle : m.mtx = { readers := 0, writer := false })
    (hquery : m.serviceHost.lookup svc = none ∨
      ∃ item, m.serviceHost.lookup svc = some item ∧ Unix (w.clock w.readings) > item.expired)
    (hq : w.registry w.queries svc = .ok resp)
    (ht : resp.Services.Type_ = strobj.Type_.String) :
    (m.GetHost w svc).1 = .error .ServiceNotFoundErr ∧
      (m.GetHost w svc).1.returned = some ([], some .ServiceNotFoundErr) ∧
      (m.GetHost w svc).2.1 = m ∧
      (m.GetHost w svc).2.1.serviceHost = m.serviceHost ∧
      (m.GetHost w svc).2.2.queries = w.queries + 1 := by
  obtain ⟨ttl, mtx, cache⟩ := m
  simp only at hidle hquery
  subst hidle
  have key : (dynamicServiceMapper.GetHost
      { itemTTL := ttl, mtx := { readers := 0, writer := false }, serviceHost := cache } w svc)
      = (.error .ServiceNotFoundErr,
          { itemTTL := ttl, mtx := { readers := 0, writer := false }, serviceHost := cache },
          (dynamicServiceMapper.GetHost
            { itemTTL := ttl, mtx := { readers := 0, writer := false }, serviceHost := cache }
            w svc).2.2) ∧
      (dynamicServiceMapper.GetHost
        { itemTTL := ttl, mtx := { readers := 0, writer := false }, serviceHost := cache }
        w svc).2.2.queries = w.queries + 1 := by
    rcases hquery with hmiss | ⟨item, hhit, hexp⟩
    · simp [dynamicServiceMapper.GetHost, RWMutex.RLock, hmiss,
        resolveService_unknown _ w svc resp hq ht, dynamicServiceMapper.GetHost.deferred,
        RWMutex.RUnlock]
    · simp [dynamicServiceMapper.GetHost, RWMutex.RLock, hhit,
        dynamicServiceMapper.GetHost.check, hexp,
        resolveService_unknown _ { w with readings := w.readings + 1 } svc resp hq ht,
        dynamicServiceMapper.GetHost.deferred, RWMutex.RUnlock]
  obtain ⟨k1, k2⟩ := key
  refine ⟨?_, ?_, ?_, ?_, k2⟩
  · rw [k1]
  · rw [k1]; rfl
  · rw [k1]
  · rw [k1]

/-- C19 on a fresh mapper, for the registry answer of an unknown service
type: ServiceNotFoundErr with the empty host, and an empty cache afterwards. -/
theorem C19_unknown_service_not_found_witness :
    ((NewDynamicServiceMapper (60 * 1000000000)).GetHost (steadyWorld (.ok unknownService))
        (str "org.opencastproject.ingest")).1.returned = some ([], some .ServiceNotFoundErr) ∧
      ((NewDynamicServiceMapper (60 * 1000000000)).GetHost (steadyWorld (.ok unknownService))
        (str "org.opencastproject.ingest")).2.1.serviceHost = [] :=
  ⟨(C19_unknown_service_not_found (NewDynamicServiceMapper (60 * 1000000000))
      (steadyWorld (.ok unknownService)) (str "org.opencastproject.ingest") unknownService
      rfl (Or.inl rfl) rfl rfl).2.1,
    (C19_unknown_service_not_found (NewDynamicServiceMapper (60 * 1000000000))
      (steadyWorld (.ok unknownService)) (str "org.opencastproject.ingest") unknownService
      rfl (Or.inl rfl) rfl rfl).2.2.2.1⟩

/-- The whole seconds of a time do not decrease with the time. -/
theorem Unix_mono (a b : Int) (h : a ≤ b) : Unix a ≤ Unix b := by
  unfold Unix
  exact Int.ediv_le_ediv (by norm_num) h

/-- A call of GetHost on an idle mapper whose cache holds for the service an
entry with the single host h that has not expired at the time read: the call
returns h without a query of the registry, after one reading of the clock
and one draw, and leaves the mapper as it is. -/
theorem GetHost_fresh_single_host (m : dynamicServiceMapper) (w : World) (svc h : GoString)
    (expired : Int)
    (hidle : m.mtx = { readers := 0, writer := false })
    (hentry : m.serviceHost.lookup svc = some { hosts := [h], expired := expired })
    (hfresh : Unix (w.clock w.readings) ≤ expired) :
    m.GetHost w svc
      = (.ok h, m, { w with readings := w.readings + 1, draws := w.draws + 1 }) := by
  obtain ⟨ttl, mtx, cache⟩ := m
  simp only at hidle hentry
  subst hidle
  have hnot : ¬ Unix (w.clock w.readings) > expired := not_lt.mpr hfresh
  simp [dynamicServiceMapper.GetHost, RWMutex.RLock, hentry, dynamicServiceMapper.GetHost.check,
    hnot, dynamicServiceMapper.GetHost.pick, rand.IntN, Nat.mod_one,
    dynamicServiceMapper.GetHost.deferred, RWMutex.RUnlock]

/-- C20: let a resolution of the service by resolveService, at the time t0
it reads from the clock, have cached the entry of the single host h of the
registry answer, and let m be the mapper it leaves, idle again. Then a later
call of GetHost for the service at a time t <= t0 + TTL returns h, performs
no query of the registry and leaves the mapper as it is; and so does every
one of n successive later calls made at times t <= t0 + TTL. -/
theorem C20_cached_host_within_ttl (m0 : dynamicServiceMapper) (w0 : World) (svc h : GoString)
    (resp : serviceregistry.AvailableServicesResponse)
    (hl : m0.mtx = { readers := 1, writer := false })
    (hq : w0.registry w0.queries svc = .ok resp)
    (hty : resp.Services.Type_ = strobj.Type_.Object)
    (hh : resolveService.hosts resp.Services.ObjectVal = [h])
    (m : dynamicServiceMapper)
    (hm : m = { (m0.resolveService w0 svc).2.1 with mtx := { readers := 0, writer := false } })
    (w : World) (n : Nat)
    (ht : ∀ i, i < n → w.clock (w.readings + i) ≤ w0.clock w0.readings + m0.itemTTL) :
    m.serviceHost.lookup svc
        = some { hosts := [h], expired := Unix (w0.clock w0.readings + m0.itemTTL) } ∧
      (0 < n →
        m.GetHost w svc
          = (.ok h, m, { w with readings := w.readings + 1, draws := w.draws + 1 }) ∧
        (m.GetHost w svc).2.2.queries = w.queries) ∧
      dynamicServiceMapper.GetHost.calls svc n m w
        = (List.replicate n (.ok h), m,
            { w with readings := w.readings + n, draws := w.draws + n }) ∧
      (dynamicServiceMapper.GetHost.calls svc n m w).2.2.queries = w.queries := by
  have hres := resolveService_known m0 w0 svc resp hq hty hl
  have hentry : m.serviceHost.lookup svc
      = some { hosts := [h], expired := Unix (w0.clock w0.readings + m0.itemTTL) } := by
    rw [hm, hres, hh]
    simp [mapAssign, List.lookup]
  have hidle : m.mtx = { readers := 0, writer := false } := by rw [hm]
  have hcalls : ∀ (n : Nat) (w : World),
      (∀ i, i < n → w.clock (w.readings + i) ≤ w0.clock w0.readings + m0.itemTTL) →
      dynamicServiceMapper.GetHost.calls svc n m w
        = (List.replicate n (.ok h), m,
            { w with readings := w.readings + n, draws := w.draws + n }) := by
    intro n
    induction n with
    | zero => intro w _; rfl
    | succ n ih =>
      intro w hw
      have h0 := GetHost_fresh_single_host m w svc h _ hidle hentry
        (Unix_mono _ _ (by simpa using hw 0 (Nat.succ_pos n)))
      have hnext := ih { w with readings := w.readings + 1, draws := w.draws + 1 }
        (fun i hi => by
          have := hw (i + 1) (Nat.succ_lt_succ hi)
          simpa [Nat.add_assoc, Nat.add_comm 1 i] using this)
      simp only [dynamicServiceMapper.GetHost.calls, h0, hnext, List.replicate_succ]
      simp [Nat.add_assoc, Nat.add_comm 1 n]
  refine ⟨hentry, ?_, hcalls n w ht, ?_⟩
  · intro hn
    have h0 := GetHost_fresh_single_host m w svc h _ hidle hentry
      (Unix_mono _ _ (by simpa using ht 0 hn))
    exact ⟨h0, by rw [h0]⟩
  · rw [hcalls n w ht]

/-- C20 on the mapper left by a first call answered with the single host
https://admin.opencast.org: three later calls within the time to live all
return that host, and none of them queries the registry. -/
theorem C20_cached_host_within_ttl_witness :
    (dynamicServiceMapper.GetHost.calls (str "org.opencastproject.ingest") 3 cachedMapper
        (steadyWorld (.error GoError.EOF))).1
      = [.ok (str "https://admin.opencast.org"), .ok (str "https://admin.opencast.org"),
          .ok (str "https://admin.opencast.org")] ∧
      (dynamicServiceMapper.GetHost.calls (str "org.opencastproject.ingest") 3 cachedMapper
        (steadyWorld (.error GoError.EOF))).2.2.queries = 0 := by
  have h := C20_cached_host_within_ttl
    { itemTTL := 60 * 1000000000, mtx := { readers := 1, writer := false }, serviceHost := [] }
    (steadyWorld (.ok oneHost)) (str "org.opencastproject.ingest")
    (str "https://admin.opencast.org") oneHost rfl rfl rfl rfl cachedMapper (by decide)
    (steadyWorld (.error GoError.EOF)) 3
    (fun i _ => show (1700000000 * 1000000000 : Int) ≤ 1700000000 * 1000000000
      + 60 * 1000000000 by decide)
  exact ⟨by rw [h.2.2.1]; rfl, h.2.2.2⟩

/-! ## C21 to C23: refresh, failure of the refresh and the choice of the host -/

/-- The deferred RUnlock at the end of GetHost, when one read lock is held:
the outcome stays, and the mutex is free afterwards. -/
theorem deferred_read_locked {α : Type} (r : Outcome α × dynamicServiceMapper × World)
    (h : r.2.1.mtx = { readers := 1, writer := false }) :
    dynamicServiceMapper.GetHost.deferred r
      = (r.1, { r.2.1 with mtx := { readers := 0, writer := false } }, r.2.2) := by
  simp [dynamicServiceMapper.GetHost.deferred, h, RWMutex.RUnlock]

/-- The choice of the host among the hosts of a non-empty item: the host at
the index draw mod n, after one draw. -/
theorem pick_some (m : dynamicServiceMapper) (w : World) (svcItem : dynamicServiceItem)
    (hne : svcItem.hosts ≠ []) :
    ∃ h, svcItem.hosts[w.rand w.draws % svcItem.hosts.length]? = some h ∧
      dynamicServiceMapper.GetHost.pick m w svcItem
        = (.ok h, m, { w with draws := w.draws + 1 }) := by
  have hlen : svcItem.hosts.length ≠ 0 := by simpa using hne
  have hlt : w.rand w.draws % svcItem.hosts.length < svcItem.hosts.length :=
    Nat.mod_lt _ (Nat.pos_of_ne_zero hlen)
  refine ⟨svcItem.hosts[w.rand w.draws % svcItem.hosts.length], ?_, ?_⟩
  · exact List.getElem?_eq_getElem hlt
  · simp [dynamicServiceMapper.GetHost.pick, rand.IntN, hlen, List.getElem?_eq_getElem hlt]

/-- Every call of resolveService makes exactly one query of the registry. -/
theorem resolveService_queries (m : dynamicServiceMapper) (w : World) (svc : GoString) :
    (m.resolveService w svc).2.2.queries = w.queries + 1 := by
  unfold dynamicServiceMapper.resolveService
  repeat' split
  all_goals rfl

/-- The choice of the host makes no query of the registry and leaves the
mapper as it is. -/
theorem pick_queries (m : dynamicServiceMapper) (w : World) (svcItem : dynamicServiceItem) :
    (dynamicServiceMapper.GetHost.pick m w svcItem).2.2.queries = w.queries ∧
      (dynamicServiceMapper.GetHost.pick m w svcItem).2.1 = m := by
  by_cases hn : svcItem.hosts.length = 0
  · simp [dynamicServiceMapper.GetHost.pick, rand.IntN, hn]
  · simp only [dynamicServiceMapper.GetHost.pick, rand.IntN, hn, if_false]
    cases svcItem.hosts[w.rand w.draws % svcItem.hosts.length]? <;> exact ⟨rfl, rfl⟩

/-- The deferred RUnlock leaves the world as it is. -/
theorem deferred_world {α : Type} (r : Outcome α × dynamicServiceMapper × World) :
    (dynamicServiceMapper.GetHost.deferred r).2.2 = r.2.2 := by
  unfold dynamicServiceMapper.GetHost.deferred
  repeat' split
  all_goals rfl

/-- A call of GetHost on an idle mapper that has no entry for the service,
with a registry that answers every query for it with the same known service
type with at least one host: the call returns the host at the index
draw mod n of the hosts of the answer. -/
theorem GetHost_miss_known (m : dynamicServiceMapper) (w : World) (svc : GoString)
    (resp : serviceregistry.AvailableServicesResponse)
    (hidle : m.mtx = { readers := 0, writer := false })
    (hmiss : m.serviceHost.lookup svc = none)
    (hq : ∀ n, w.registry n svc = .ok resp)
    (hty : resp.Services.Type_ = strobj.Type_.Object)
    (hne : resolveService.hosts resp.Services.ObjectVal ≠ []) :
    ∃ h, (resolveService.hosts resp.Services.ObjectVal)[w.rand w.draws %
          (resolveService.hosts resp.Services.ObjectVal).length]? = some h ∧
      (m.GetHost w svc).1 = .ok h := by
  obtain ⟨ttl, mtx, cache⟩ := m
  simp only at hidle hmiss
  subst hidle
  have r1 := resolveService_known
    { itemTTL := ttl, mtx := { readers := 1, writer := false }, serviceHost := cache }
    w svc resp (hq _) hty rfl
  simp only at r1
  simp only [dynamicServiceMapper.GetHost, RWMutex.RLock, Bool.false_eq_true, if_false,
    Nat.zero_add, hmiss, r1, dynamicServiceMapper.GetHost.check]
  split
  · have r2 := resolveService_known
      { itemTTL := ttl, mtx := { readers := 1, writer := false },
        serviceHost := mapAssign cache svc
          { hosts := resolveService.hosts resp.Services.ObjectVal,
            expired := Unix (w.clock w.readings + ttl) } }
      { w with queries := w.queries + 1, readings := w.readings + 1 + 1 } svc resp (hq _) hty rfl
    simp only at r2
    simp only [r2]
    obtain ⟨h, hh, hp⟩ := pick_some
      { itemTTL := ttl, mtx := { readers := 1, writer := false },
        serviceHost := mapAssign (mapAssign cache svc
          { hosts := resolveService.hosts resp.Services.ObjectVal,
            expired := Unix (w.clock w.readings + ttl) }) svc
          { hosts := resolveService.hosts resp.Services.ObjectVal,
            expired := Unix (w.clock (w.readings + 1 + 1) + ttl) } }
      { w with queries := w.queries + 1 + 1, readings := w.readings + 1 + 1 + 1 }
      { hosts := resolveService.hosts resp.Services.ObjectVal,
        expired := Unix (w.clock (w.readings + 1 + 1) + ttl) } hne
    refine ⟨h, hh, ?_⟩
    rw [hp, deferred_read_locked _ rfl]
  · obtain ⟨h, hh, hp⟩ := pick_some
      { itemTTL := ttl, mtx := { readers := 1, writer := false },
        serviceHost := mapAssign cache svc
          { hosts := resolveService.hosts resp.Services.ObjectVal,
            expired := Unix (w.clock w.readings + ttl) } }
      { w with queries := w.queries + 1, readings := w.readings + 1 + 1 }
      { hosts := resolveService.hosts resp.Services.ObjectVal,
        expired := Unix (w.clock w.readings + ttl) } hne
    refine ⟨h, hh, ?_⟩
    rw [hp, deferred_read_locked _ rfl]

/-- C23: with the random draw as a parameter of the world. Let the registry
answer every query for a service that is not in the cache of an idle mapper
with a response of a known service type that lists the hosts
[h0, ..., h(n-1)], n >= 1. Then GetHost returns the host at the index
draw mod n, so h_i for a draw i < n; the result is always one of the
registered hosts; every registered host is returned for some draw; and the
hosts of a response that holds a single host record are that record's host
alone, which GetHost then returns whatever the draw, while the hosts of a
response that holds a list of records are the hosts of the records in
order. -/
theorem C23_draw_selects_host (m : dynamicServiceMapper) (svc : GoString)
    (resp : serviceregistry.AvailableServicesResponse)
    (hidle : m.mtx = { readers := 0, writer := false })
    (hmiss : m.serviceHost.lookup svc = none)
    (hty : resp.Services.Type_ = strobj.Type_.Object)
    (hne : resolveService.hosts resp.Services.ObjectVal ≠ []) :
    (∀ (w : World) (i : Nat) (h : GoString), (∀ n, w.registry n svc = .ok resp) →
        w.rand w.draws = i → (resolveService.hosts resp.Services.ObjectVal)[i]? = some h →
        (m.GetHost w svc).1 = .ok h) ∧
      (∀ (w : World), (∀ n, w.registry n svc = .ok resp) →
        ∃ h ∈ resolveService.hosts resp.Services.ObjectVal, (m.GetHost w svc).1 = .ok h) ∧
      (∀ h ∈ resolveService.hosts resp.Services.ObjectVal,
        ∃ i, i < (resolveService.hosts resp.Services.ObjectVal).length ∧
          ∀ (w : World), (∀ n, w.registry n svc = .ok resp) → w.rand w.draws = i →
            (m.GetHost w svc).1 = .ok h) ∧
      (resp.Services.ObjectVal.Service.Type_ = objlist.Type_.Object →
        resolveService.hosts resp.Services.ObjectVal
          = [resp.Services.ObjectVal.Service.ObjectVal.Host] ∧
        ∀ (w : World), (∀ n, w.registry n svc = .ok resp) →
          (m.GetHost w svc).1 = .ok resp.Services.ObjectVal.Service.ObjectVal.Host) ∧
      (resp.Services.ObjectVal.Service.Type_ = objlist.Type_.List →
        resolveService.hosts resp.Services.ObjectVal
          = resp.Services.ObjectVal.Service.ListVal.map (fun s => s.Host)) := by
  have hdraw : ∀ (w : World) (i : Nat) (h : GoString), (∀ n, w.registry n svc = .ok resp) →
      w.rand w.draws = i → (resolveService.hosts resp.Services.ObjectVal)[i]? = some h →
      (m.GetHost w svc).1 = .ok h := by
    intro w i h hq hi hh
    obtain ⟨h2, hh2, hres⟩ := GetHost_miss_known m w svc resp hidle hmiss hq hty hne
    have hlt : i < (resolveService.hosts resp.Services.ObjectVal).length := by
      by_contra hge
      rw [List.getElem?_eq_none (Nat.le_of_not_lt hge)] at hh
      exact Option.noConfusion hh
    rw [hi, Nat.mod_eq_of_lt hlt, hh] at hh2
    rw [hres, ← Option.some.inj hh2]
  have hmem : ∀ (w : World), (∀ n, w.registry n svc = .ok resp) →
      ∃ h ∈ resolveService.hosts resp.Services.ObjectVal, (m.GetHost w svc).1 = .ok h := by
    intro w hq
    obtain ⟨h, hh, hres⟩ := GetHost_miss_known m w svc resp hidle hmiss hq hty hne
    exact ⟨h, (List.mem_iff_getElem?.mpr ⟨_, hh⟩), hres⟩
  refine ⟨hdraw, hmem, ?_, ?_, ?_⟩
  · intro h hh
    obtain ⟨i, hi, hget⟩ := List.mem_iff_getElem.mp hh
    refine ⟨i, hi, fun w hq hr => hdraw w i h hq hr ?_⟩
    rw [List.getElem?_eq_getElem hi, hget]
  · intro hobj
    have hhosts : resolveService.hosts resp.Services.ObjectVal
        = [resp.Services.ObjectVal.Service.ObjectVal.Host] := by
      simp [resolveService.hosts, hobj]
    refine ⟨hhosts, fun w hq => ?_⟩
    obtain ⟨h, hh, hres⟩ := hmem w hq
    rw [hhosts, List.mem_singleton] at hh
    rw [hres, hh]
  · intro hlist
    simp [resolveService.hosts, hlist]

/-- C23 on a fresh mapper and the registry answer that lists h1, h2 and h3:
the draws 0, 1 and 2 return h1, h2 and h3. -/
theorem C23_draw_selects_host_witness :
    ((NewDynamicServiceMapper (60 * 1000000000)).GetHost
        (worldAt (1700000000 * 1000000000) (.ok threeHosts) 0)
        (str "org.opencastproject.ingest")).1 = .ok (str "https://h1.opencast.org") ∧
      ((NewDynamicServiceMapper (60 * 1000000000)).GetHost
        (worldAt (1700000000 * 1000000000) (.ok threeHosts) 1)
        (str "org.opencastproject.ingest")).1 = .ok (str "https://h2.opencast.org") ∧
      ((NewDynamicServiceMapper (60 * 1000000000)).GetHost
        (worldAt (1700000000 * 1000000000) (.ok threeHosts) 2)
        (str "org.opencastproject.ingest")).1 = .ok (str "https://h3.opencast.org") :=
  ⟨(C23_draw_selects_host (NewDynamicServiceMapper (60 * 1000000000))
      (str "org.opencastproject.ingest") threeHosts rfl rfl rfl (by decide)).1
      (worldAt (1700000000 * 1000000000) (.ok threeHosts) 0) 0 _ (fun _ => rfl) rfl rfl,
    (C23_draw_selects_host (NewDynamicServiceMapper (60 * 1000000000))
      (str "org.opencastproject.ingest") threeHosts rfl rfl rfl (by decide)).1
      (worldAt (1700000000 * 1000000000) (.ok threeHosts) 1) 1 _ (fun _ => rfl) rfl rfl,
    (C23_draw_selects_host (NewDynamicServiceMapper (60 * 1000000000))
      (str "org.opencastproject.ingest") threeHosts rfl rfl rfl (by decide)).1
      (worldAt (1700000000 * 1000000000) (.ok threeHosts) 2) 2 _ (fun _ => rfl) rfl rfl⟩

/-- When the registry query fails, resolveService returns the error of the
query and leaves the mapper, its lock included, as it is. -/
theorem resolveService_error (m : dynamicServiceMapper) (w : World) (svc : GoString)
    (err : GoError) (hq : w.registry w.queries svc = .error err) :
    m.resolveService w svc = (.error err, m, { w with queries := w.queries + 1 }) := by
  simp [dynamicServiceMapper.resolveService, hq]

/-- A call of GetHost on an idle mapper whose entry for the service has
expired, answered by the registry with a known service type with at least
one host: the call returns one of the hosts of the answer after one query,
and stores the entry of these hosts. -/
theorem GetHost_refresh (m : dynamicServiceMapper) (w : World) (svc : GoString)
    (svcItem : dynamicServiceItem) (resp : serviceregistry.AvailableServicesResponse)
    (hidle : m.mtx = { readers := 0, writer := false })
    (hentry : m.serviceHost.lookup svc = some svcItem)
    (hexp : Unix (w.clock w.readings) > svcItem.expired)
    (hq : w.registry w.queries svc = .ok resp)
    (hty : resp.Services.Type_ = strobj.Type_.Object)
    (hne : resolveService.hosts resp.Services.ObjectVal ≠ []) :
    ∃ h, h ∈ resolveService.hosts resp.Services.ObjectVal ∧
      m.GetHost w svc
        = (.ok h,
            { m with
              serviceHost := mapAssign m.serviceHost svc
                { hosts := resolveService.hosts resp.Services.ObjectVal,
                  expired := Unix (w.clock (w.readings + 1) + m.itemTTL) } },
            { w with
              readings := w.readings + 1 + 1, queries := w.queries + 1,
              draws := w.draws + 1 }) := by
  obtain ⟨ttl, mtx, cache⟩ := m
  simp only at hidle hentry
  subst hidle
  have r1 := resolveService_known
    { itemTTL := ttl, mtx := { readers := 1, writer := false }, serviceHost := cache }
    { w with readings := w.readings + 1 } svc resp hq hty rfl
  simp only at r1
  obtain ⟨h, hh, hp⟩ := pick_some
    { itemTTL := ttl, mtx := { readers := 1, writer := false },
      serviceHost := mapAssign cache svc
        { hosts := resolveService.hosts resp.Services.ObjectVal,
          expired := Unix (w.clock (w.readings + 1) + ttl) } }
    { w with queries := w.queries + 1, readings := w.readings + 1 + 1 }
    { hosts := resolveService.hosts resp.Services.ObjectVal,
      expired := Unix (w.clock (w.readings + 1) + ttl) } hne
  refine ⟨h, List.mem_iff_getElem?.mpr ⟨_, hh⟩, ?_⟩
  have hg : dynamicServiceMapper.GetHost
      { itemTTL := ttl, mtx := { readers := 0, writer := false }, serviceHost := cache } w svc
      = dynamicServiceMapper.GetHost.deferred
        (dynamicServiceMapper.GetHost.check
          { itemTTL := ttl, mtx := { readers := 1, writer := false }, serviceHost := cache }
          w svc svcItem) := by
    simp [dynamicServiceMapper.GetHost, RWMutex.RLock, hentry]
  rw [hg]
  simp only [dynamicServiceMapper.GetHost.check, hexp, if_true, r1]
  rw [hp, deferred_read_locked _ rfl]

/-- A call of GetHost on an idle mapper whose entry for the service has at
least one host and has not expired: the call returns one of the hosts of the
entry without a query and leaves the mapper as it is. -/
theorem GetHost_fresh (m : dynamicServiceMapper) (w : World) (svc : GoString)
    (svcItem : dynamicServiceItem)
    (hidle : m.mtx = { readers := 0, writer := false })
    (hentry : m.serviceHost.lookup svc = some svcItem)
    (hfresh : Unix (w.clock w.readings) ≤ svcItem.expired)
    (hne : svcItem.hosts ≠ []) :
    ∃ h, h ∈ svcItem.hosts ∧
      svcItem.hosts[w.rand w.draws % svcItem.hosts.length]? = some h ∧
      m.GetHost w svc
        = (.ok h, m, { w with readings := w.readings + 1, draws := w.draws + 1 }) := by
  obtain ⟨ttl, mtx, cache⟩ := m
  simp only at hidle hentry
  subst hidle
  have hnot : ¬ Unix (w.clock w.readings) > svcItem.expired := not_lt.mpr hfresh
  obtain ⟨h, hh, hp⟩ := pick_some
    { itemTTL := ttl, mtx := { readers := 1, writer := false }, serviceHost := cache }
    { w with readings := w.readings + 1 } svcItem hne
  refine ⟨h, List.mem_iff_getElem?.mpr ⟨_, hh⟩, hh, ?_⟩
  have hg : dynamicServiceMapper.GetHost
      { itemTTL := ttl, mtx := { readers := 0, writer := false }, serviceHost := cache } w svc
      = dynamicServiceMapper.GetHost.deferred
        (dynamicServiceMapper.GetHost.check
          { itemTTL := ttl, mtx := { readers := 1, writer := false }, serviceHost := cache }
          w svc svcItem) := by
    simp [dynamicServiceMapper.GetHost, RWMutex.RLock, hentry]
  rw [hg]
  simp only [dynamicServiceMapper.GetHost.check, hnot, if_false]
  rw [hp, deferred_read_locked _ rfl]

/-- C21, the claim as stated fails: an entry cached at 1700000000 s with a
time to live of 60.2 s has T = 1700000060.2 s; a resolution at 1700000060.7 s,
later than T, makes no query of the registry and serves the cached host. -/
theorem C21_no_query_later_in_same_second :
    tenthsMapper.serviceHost.lookup (str "org.opencastproject.ingest")
        = some { hosts := [str "https://admin.opencast.org"],
                 expired := Unix (1700000000 * 1000000000 + 60200000000) } ∧
      (1700000000 * 1000000000 + 60200000000 : Int) < 1700000060700000000 ∧
      (tenthsMapper.GetHost (worldAt 1700000060700000000 (.ok threeHosts) 1)
        (str "org.opencastproject.ingest")).2.2.queries = 0 ∧
      (tenthsMapper.GetHost (worldAt 1700000060700000000 (.ok threeHosts) 1)
        (str "org.opencastproject.ingest")).1 = .ok (str "https://admin.opencast.org") := by
  refine ⟨by decide, by decide, by decide, by decide⟩

/-- C21, amended: the expiry of an entry is kept in whole seconds. For an
entry of an idle mapper cached for the time T = t0 + TTL, a call of GetHost
at a time t whose whole second is later than that of T makes exactly one
query of the registry, whatever the answer, and when the answer is of a known
service type with at least one host the entry is replaced by one with the
hosts of the answer and the expiry (time read when the entry is stored) + TTL
in whole seconds, one of these hosts is returned and the mutex is free; a
call at a time t whose whole second is not later than that of T, later than
T or not, makes no query, leaves the mapper as it is and serves the cached
entry: when the entry has at least one host it returns the host of the entry
at the index draw mod n, and for an entry without hosts it panics in
rand.IntN. -/
theorem C21_refresh_in_whole_seconds (m : dynamicServiceMapper) (w : World) (svc : GoString)
    (H : List GoString) (t0 : Int)
    (hidle : m.mtx = { readers := 0, writer := false })
    (hentry : m.serviceHost.lookup svc
      = some { hosts := H, expired := Unix (t0 + m.itemTTL) }) :
    (Unix (w.clock w.readings) > Unix (t0 + m.itemTTL) →
        (m.GetHost w svc).2.2.queries = w.queries + 1 ∧
        ∀ resp, w.registry w.queries svc = .ok resp →
          resp.Services.Type_ = strobj.Type_.Object →
          resolveService.hosts resp.Services.ObjectVal ≠ [] →
          (m.GetHost w svc).2.1.serviceHost.lookup svc
              = some { hosts := resolveService.hosts resp.Services.ObjectVal,
                       expired := Unix (w.clock (w.readings + 1) + m.itemTTL) } ∧
            (m.GetHost w svc).2.1.mtx = { readers := 0, writer := false } ∧
            ∃ h ∈ resolveService.hosts resp.Services.ObjectVal, (m.GetHost w svc).1 = .ok h) ∧
      (Unix (w.clock w.readings) ≤ Unix (t0 + m.itemTTL) →
        (m.GetHost w svc).2.2.queries = w.queries ∧ (m.GetHost w svc).2.1 = m ∧
        (H ≠ [] → ∃ h, h ∈ H ∧ H[w.rand w.draws % H.length]? = some h ∧
          (m.GetHost w svc).1 = .ok h) ∧
        (H = [] → (m.GetHost w svc).1 = .panic (str "invalid argument to IntN"))) := by
  have hserved : Unix (w.clock w.readings) ≤ Unix (t0 + m.itemTTL) → H ≠ [] →
      ∃ h, h ∈ H ∧ H[w.rand w.draws % H.length]? = some h ∧ (m.GetHost w svc).1 = .ok h := by
    intro hfresh hne
    obtain ⟨h, hmem, hidx, hg⟩ := GetHost_fresh m w svc
      { hosts := H, expired := Unix (t0 + m.itemTTL) } hidle hentry hfresh hne
    exact ⟨h, hmem, hidx, by rw [hg]⟩
  obtain ⟨ttl, mtx, cache⟩ := m
  simp only at hidle hentry hserved
  subst hidle
  have hg : dynamicServiceMapper.GetHost
      { itemTTL := ttl, mtx := { readers := 0, writer := false }, serviceHost := cache } w svc
      = dynamicServiceMapper.GetHost.deferred
        (dynamicServiceMapper.GetHost.check
          { itemTTL := ttl, mtx := { readers := 1, writer := false }, serviceHost := cache }
          w svc { hosts := H, expired := Unix (t0 + ttl) }) := by
    simp [dynamicServiceMapper.GetHost, RWMutex.RLock, hentry]
  constructor
  · intro hexp
    simp only at hexp
    constructor
    · rw [hg, deferred_world]
      simp only [dynamicServiceMapper.GetHost.check, hexp, if_true]
      have hq := resolveService_queries
        { itemTTL := ttl, mtx := { readers := 1, writer := false }, serviceHost := cache }
        { w with readings := w.readings + 1 } svc
      generalize dynamicServiceMapper.resolveService
        { itemTTL := ttl, mtx := { readers := 1, writer := false }, serviceHost := cache }
        { w with readings := w.readings + 1 } svc = r at hq
      obtain ⟨o, m2, w2⟩ := r
      simp only at hq
      cases o with
      | ok item => simpa [(pick_queries m2 w2 item).1] using hq
      | error err => simpa using hq
      | panic msg => simpa using hq
      | blocked => simpa using hq
    · intro resp hq hty hne
      have r1 := resolveService_known
        { itemTTL := ttl, mtx := { readers := 1, writer := false }, serviceHost := cache }
        { w with readings := w.readings + 1 } svc resp hq hty rfl
      simp only at r1
      obtain ⟨h, hh, hp⟩ := pick_some
        { itemTTL := ttl, mtx := { readers := 1, writer := false },
          serviceHost := mapAssign cache svc
            { hosts := resolveService.hosts resp.Services.ObjectVal,
              expired := Unix (w.clock (w.readings + 1) + ttl) } }
        { w with queries := w.queries + 1, readings := w.readings + 1 + 1 }
        { hosts := resolveService.hosts resp.Services.ObjectVal,
          expired := Unix (w.clock (w.readings + 1) + ttl) } hne
      rw [hg]
      simp only [dynamicServiceMapper.GetHost.check, hexp, if_true, r1]
      rw [hp, deferred_read_locked _ rfl]
      refine ⟨by simp [mapAssign, List.lookup], rfl, h, List.mem_iff_getElem?.mpr ⟨_, hh⟩, rfl⟩
  · intro hfresh
    have hnot : ¬ Unix (w.clock w.readings) > Unix (t0 + ttl) := not_lt.mpr hfresh
    have hp := pick_queries
      { itemTTL := ttl, mtx := { readers := 1, writer := false }, serviceHost := cache }
      { w with readings := w.readings + 1 } { hosts := H, expired := Unix (t0 + ttl) }
    refine ⟨?_, ?_, hserved hfresh, ?_⟩
    · rw [hg, deferred_world]
      simp only [dynamicServiceMapper.GetHost.check, hnot, if_false]
      exact hp.1
    · rw [hg]
      simp only [dynamicServiceMapper.GetHost.check, hnot, if_false]
      rw [deferred_read_locked _ (by rw [hp.2]), hp.2]
    · intro hnil
      rw [hg]
      simp only [dynamicServiceMapper.GetHost.check, hnot, if_false]
      rw [pick_no_hosts _ _ _ hnil, deferred_read_locked _ rfl]

/-- C21, amended, on the mapper that cached the single host at 1700000000 s
for 60 s: a call at 1700000061 s, answered with three hosts, makes one query
and replaces the entry by the three hosts with the expiry 1700000121 s; a
call at 1700000060.7 s makes no query and returns the cached host. -/
theorem C21_refresh_in_whole_seconds_witness :
    (cachedMapper.GetHost (worldAt (1700000061 * 1000000000) (.ok threeHosts) 1)
        (str "org.opencastproject.ingest")).2.2.queries = 1 ∧
      (cachedMapper.GetHost (worldAt (1700000061 * 1000000000) (.ok threeHosts) 1)
        (str "org.opencastproject.ingest")).2.1.serviceHost.lookup
          (str "org.opencastproject.ingest")
        = some { hosts := [str "https://h1.opencast.org", str "https://h2.opencast.org",
                   str "https://h3.opencast.org"],
                 expired := 1700000121 } ∧
      (cachedMapper.GetHost (worldAt 1700000060700000000 (.ok threeHosts) 1)
        (str "org.opencastproject.ingest")).2.2.queries = 0 ∧
      ∃ h, h ∈ [str "https://admin.opencast.org"] ∧
        (cachedMapper.GetHost (worldAt 1700000060700000000 (.ok threeHosts) 1)
          (str "org.opencastproject.ingest")).1 = .ok h := by
  have h := (C21_refresh_in_whole_seconds cachedMapper
    (worldAt (1700000061 * 1000000000) (.ok threeHosts) 1) (str "org.opencastproject.ingest")
    [str "https://admin.opencast.org"] (1700000000 * 1000000000) (by decide) (by decide)).1
    (by decide)
  have h2 := (C21_refresh_in_whole_seconds cachedMapper
    (worldAt 1700000060700000000 (.ok threeHosts) 1) (str "org.opencastproject.ingest")
    [str "https://admin.opencast.org"] (1700000000 * 1000000000) (by decide) (by decide)).2
    (by decide)
  obtain ⟨x, hx, _, hres⟩ := h2.2.2.1 (by decide)
  exact ⟨h.1, (h.2 threeHosts rfl rfl (by decide)).1.trans (by decide), h2.1, x, hx, hres⟩

/-- C22, the claim as stated fails: the mapper has cached the single host at
1700000000 s for 60 s; at 1700000100 s the entry has expired and the registry
query fails; GetHost returns the error of the query, not the cached host. -/
theorem C22_expired_entry_failed_query_is_error :
    cachedMapper.serviceHost.lookup (str "org.opencastproject.ingest")
        = some { hosts := [str "https://admin.opencast.org"], expired := 1700000060 } ∧
      (cachedMapper.GetHost
        (worldAt (1700000100 * 1000000000) (.error (.errorString (str "connection refused"))) 0)
        (str "org.opencastproject.ingest")).1
        = .error (.errorString (str "connection refused")) ∧
      (cachedMapper.GetHost
        (worldAt (1700000100 * 1000000000) (.error (.errorString (str "connection refused"))) 0)
        (str "org.opencastproject.ingest")).1 ≠ .ok (str "https://admin.opencast.org") := by
  refine ⟨by decide, by decide, by decide⟩

/-- C22, amended: when the entry of an idle mapper for the service has
expired and the registry query made by a call of GetHost fails, the call
returns the error of the query with the empty host, and no host, after that
one query; the mapper is the same afterwards as before, so the cached entry
for the service is still present and unchanged. -/
theorem C22_failed_refresh_returns_error (m : dynamicServiceMapper) (w : World)
    (svc : GoString) (item : dynamicServiceItem) (err : GoError)
    (hidle : m.mtx = { readers := 0, writer := false })
    (hentry : m.serviceHost.lookup svc = some item)
    (hexp : Unix (w.clock w.readings) > item.expired)
    (hq : w.registry w.queries svc = .error err) :
    m.GetHost w svc
        = (.error err, m, { w with readings := w.readings + 1, queries := w.queries + 1 }) ∧
      (m.GetHost w svc).1.returned = some ([], some err) ∧
      (∀ h, (m.GetHost w svc).1 ≠ .ok h) ∧
      (m.GetHost w svc).2.1.serviceHost.lookup svc = some item := by
  obtain ⟨ttl, mtx, cache⟩ := m
  simp only at hidle hentry
  subst hidle
  have key : dynamicServiceMapper.GetHost
      { itemTTL := ttl, mtx := { readers := 0, writer := false }, serviceHost := cache } w svc
      = (.error err,
          { itemTTL := ttl, mtx := { readers := 0, writer := false }, serviceHost := cache },
          { w with readings := w.readings + 1, queries := w.queries + 1 }) := by
    simp [dynamicServiceMapper.GetHost, RWMutex.RLock, hentry,
      dynamicServiceMapper.GetHost.check, hexp,
      resolveService_error _ { w with readings := w.readings + 1 } svc err hq,
      dynamicServiceMapper.GetHost.deferred, RWMutex.RUnlock]
  refine ⟨key, ?_, ?_, ?_⟩
  · rw [key]; rfl
  · intro h; rw [key]; exact fun hc => Outcome.noConfusion hc
  · rw [key]; exact hentry

/-- C22, amended, on the mapper that cached the single host at 1700000000 s
for 60 s, at 1700000100 s with a registry that refuses the connection: the
call returns that error and the entry is still the cached one. -/
theorem C22_failed_refresh_returns_error_witness :
    (cachedMapper.GetHost
        (worldAt (1700000100 * 1000000000) (.error (.errorString (str "connection refused"))) 0)
        (str "org.opencastproject.ingest")).1.returned
        = some ([], some (.errorString (str "connection refused"))) ∧
      (cachedMapper.GetHost
        (worldAt (1700000100 * 1000000000) (.error (.errorString (str "connection refused"))) 0)
        (str "org.opencastproject.ingest")).2.1.serviceHost.lookup
          (str "org.opencastproject.ingest")
        = some { hosts := [str "https://admin.opencast.org"], expired := 1700000060 } :=
  ⟨(C22_failed_refresh_returns_error cachedMapper
      (worldAt (1700000100 * 1000000000) (.error (.errorString (str "connection refused"))) 0)
      (str "org.opencastproject.ingest")
      { hosts := [str "https://admin.opencast.org"], expired := 1700000060 }
      (.errorString (str "connection refused")) (by decide) (by decide) (by decide) rfl).2.1,
    (C22_failed_refresh_returns_error cachedMapper
      (worldAt (1700000100 * 1000000000) (.error (.errorString (str "connection refused"))) 0)
      (str "org.opencastproject.ingest")
      { hosts := [str "https://admin.opencast.org"], expired := 1700000060 }
      (.errorString (str "connection refused")) (by decide) (by decide) (by decide) rfl).2.2.2⟩

/-- C25: StaticServiceMapper.GetHost returns the host of the table for every
service that has an entry in ServiceHost and the Default host for every other
service, and it returns a host, never an error; with the empty (nil) table of
the example every service resolves to the Default host. -/
theorem C25_static_mapper_total (m : StaticServiceMapper) (svc : GoString) :
    (∀ host, m.ServiceHost.lookup svc = some host → m.GetHost svc = .ok host) ∧
      (m.ServiceHost.lookup svc = none → m.GetHost svc = .ok m.Default) ∧
      (∃ host, m.GetHost svc = .ok host) ∧
      (m.ServiceHost = [] → m.GetHost svc = .ok m.Default) ∧
      stableOpencast.GetHost svc = .ok (str "https://stable.opencast.org") := by
  refine ⟨?_, ?_, ?_, ?_, rfl⟩
  · intro host h
    simp [StaticServiceMapper.GetHost, h]
  · intro h
    simp [StaticServiceMapper.GetHost, h]
  · unfold StaticServiceMapper.GetHost
    cases m.ServiceHost.lookup svc with
    | none => exact ⟨_, rfl⟩
    | some host => exact ⟨_, rfl⟩
  · intro h
    simp [StaticServiceMapper.GetHost, h]

/-- C25 on a table with one entry: the service of the entry resolves to its
host, another service to the Default host. -/
theorem C25_static_mapper_total_witness :
    StaticServiceMapper.GetHost
        { Default := str "https://stable.opencast.org",
          ServiceHost := [(str "org.opencastproject.ingest", str "https://ingest.opencast.org")] }
        (str "org.opencastproject.ingest") = .ok (str "https://ingest.opencast.org") ∧
      StaticServiceMapper.GetHost
        { Default := str "https://stable.opencast.org",
          ServiceHost := [(str "org.opencastproject.ingest", str "https://ingest.opencast.org")] }
        (str "org.opencastproject.search") = .ok (str "https://stable.opencast.org") :=
  ⟨(C25_static_mapper_total
      { Default := str "https://stable.opencast.org",
        ServiceHost := [(str "org.opencastproject.ingest", str "https://ingest.opencast.org")] }
      (str "org.opencastproject.ingest")).1 _ (by decide),
    (C25_static_mapper_total
      { Default := str "https://stable.opencast.org",
        ServiceHost := [(str "org.opencastproject.ingest", str "https://ingest.opencast.org")] }
      (str "org.opencastproject.search")).2.1 (by decide)⟩

/-! ## The locks of resolveService and GetHost in one call -/

/-- A call of resolveService entered with one read lock held returns, with
an item or an error, with one read lock held. -/
theorem resolveService_locked (m : dynamicServiceMapper) (w : World) (svc : GoString)
    (hl : m.mtx = { readers := 1, writer := false }) :
    (m.resolveService w svc).2.1.mtx = { readers := 1, writer := false } ∧
      ((∃ item, (m.resolveService w svc).1 = .ok item) ∨
        ∃ err, (m.resolveService w svc).1 = .error err) := by
  cases hq : w.registry w.queries svc with
  | error err =>
    rw [resolveService_error m w svc err hq]
    exact ⟨hl, Or.inr ⟨err, rfl⟩⟩
  | ok resp =>
    cases hty : resp.Services.Type_ with
    | String =>
      rw [resolveService_unknown m w svc resp hq hty]
      exact ⟨hl, Or.inr ⟨_, rfl⟩⟩
    | Object =>
      rw [resolveService_known m w svc resp hq hty hl]
      exact ⟨rfl, Or.inl ⟨_, rfl⟩⟩

/-- The choice of the host returns a host or panics in rand.IntN. -/
theorem pick_outcome (m : dynamicServiceMapper) (w : World) (svcItem : dynamicServiceItem) :
    (∃ h, (dynamicServiceMapper.GetHost.pick m w svcItem).1 = .ok h) ∨
      (dynamicServiceMapper.GetHost.pick m w svcItem).1
        = .panic (str "invalid argument to IntN") := by
  by_cases hne : svcItem.hosts = []
  · exact Or.inr (by rw [pick_no_hosts m w svcItem hne])
  · obtain ⟨h, _, hp⟩ := pick_some m w svcItem hne
    exact Or.inl ⟨h, by rw [hp]⟩

/-- The expiry check of GetHost and what follows it, entered with one read
lock held: one read lock is held afterwards, and the outcome is a host, an
error or the panic of rand.IntN. -/
theorem check_locked (m : dynamicServiceMapper) (w : World) (svc : GoString)
    (svcItem : dynamicServiceItem) (hl : m.mtx = { readers := 1, writer := false }) :
    (dynamicServiceMapper.GetHost.check m w svc svcItem).2.1.mtx
        = { readers := 1, writer := false } ∧
      ((∃ h, (dynamicServiceMapper.GetHost.check m w svc svcItem).1 = .ok h) ∨
        (∃ err, (dynamicServiceMapper.GetHost.check m w svc svcItem).1 = .error err) ∨
        (dynamicServiceMapper.GetHost.check m w svc svcItem).1
          = .panic (str "invalid argument to IntN")) := by
  unfold dynamicServiceMapper.GetHost.check
  simp only
  split
  · obtain ⟨hm, ho⟩ := resolveService_locked m { w with readings := w.readings + 1 } svc hl
    generalize dynamicServiceMapper.resolveService m { w with readings := w.readings + 1 } svc
      = r at hm ho
    obtain ⟨o, m2, w2⟩ := r
    simp only at hm ho
    rcases ho with ⟨item, rfl⟩ | ⟨err, rfl⟩
    · simp only
      refine ⟨by rw [(pick_queries m2 w2 item).2]; exact hm, ?_⟩
      rcases pick_outcome m2 w2 item with h | h
      · exact Or.inl h
      · exact Or.inr (Or.inr h)
    · exact ⟨hm, Or.inr (Or.inl ⟨err, rfl⟩)⟩
  · refine ⟨by rw [(pick_queries m _ svcItem).2]; exact hl, ?_⟩
    rcases pick_outcome m { w with readings := w.readings + 1 } svcItem with h | h
    · exact Or.inl h
    · exact Or.inr (Or.inr h)

/-- A call of GetHost on an idle mapper ends with a host, an error or the
panic of rand.IntN, and with the mutex free. -/
theorem GetHost_unlocked (m : dynamicServiceMapper) (w : World) (svc : GoString)
    (hidle : m.mtx = { readers := 0, writer := false }) :
    (m.GetHost w svc).2.1.mtx = { readers := 0, writer := false } ∧
      ((∃ h, (m.GetHost w svc).1 = .ok h) ∨ (∃ err, (m.GetHost w svc).1 = .error err) ∨
        (m.GetHost w svc).1 = .panic (str "invalid argument to IntN")) := by
  obtain ⟨ttl, mtx, cache⟩ := m
  simp only at hidle
  subst hidle
  have hinner : ∀ r : Outcome GoString × dynamicServiceMapper × World,
      r.2.1.mtx = { readers := 1, writer := false } →
      ((∃ h, r.1 = .ok h) ∨ (∃ err, r.1 = .error err) ∨
        r.1 = .panic (str "invalid argument to IntN")) →
      (dynamicServiceMapper.GetHost.deferred r).2.1.mtx = { readers := 0, writer := false } ∧
      ((∃ h, (dynamicServiceMapper.GetHost.deferred r).1 = .ok h) ∨
        (∃ err, (dynamicServiceMapper.GetHost.deferred r).1 = .error err) ∨
        (dynamicServiceMapper.GetHost.deferred r).1
          = .panic (str "invalid argument to IntN")) := by
    intro r hm ho
    rw [deferred_read_locked r hm]
    exact ⟨rfl, ho⟩
  simp only [dynamicServiceMapper.GetHost, RWMutex.RLock, Bool.false_eq_true, if_false,
    Nat.zero_add]
  apply hinner
  · split
    · exact (check_locked _ w svc _ rfl).1
    · obtain ⟨hm, ho⟩ := resolveService_locked
        { itemTTL := ttl, mtx := { readers := 1, writer := false }, serviceHost := cache }
        w svc rfl
      generalize dynamicServiceMapper.resolveService
        { itemTTL := ttl, mtx := { readers := 1, writer := false }, serviceHost := cache }
        w svc = r at hm ho
      obtain ⟨o, m2, w2⟩ := r
      simp only at hm ho
      rcases ho with ⟨item, rfl⟩ | ⟨err, rfl⟩
      · exact (check_locked m2 w2 svc item hm).1
      · exact hm
  · split
    · exact (check_locked _ w svc _ rfl).2
    · obtain ⟨hm, ho⟩ := resolveService_locked
        { itemTTL := ttl, mtx := { readers := 1, writer := false }, serviceHost := cache }
        w svc rfl
      generalize dynamicServiceMapper.resolveService
        { itemTTL := ttl, mtx := { readers := 1, writer := false }, serviceHost := cache }
        w svc = r at hm ho
      obtain ⟨o, m2, w2⟩ := r
      simp only at hm ho
      rcases ho with ⟨item, rfl⟩ | ⟨err, rfl⟩
      · exact (check_locked m2 w2 svc item hm).2
      · exact Or.inr (Or.inl ⟨err, rfl⟩)

/-! ## C26 and C27: the callers of GetHost, statement by statement -/

/-- Replacing one element of a list changes the sum of a function over the
list by the difference at that element. -/
theorem sum_map_set (f : Caller → Nat) (l : List Caller) (i : Nat) (c c2 : Caller)
    (h : l[i]? = some c) : ((l.set i c2).map f).sum + f c = (l.map f).sum + f c2 := by
  induction l generalizing i with
  | nil => simp at h
  | cons a l ih =>
    cases i with
    | zero =>
      simp only [List.getElem?_cons_zero, Option.some.injEq] at h
      subst h
      simp only [List.set_cons_zero, List.map_cons, List.sum_cons]
      omega
    | succ i =>
      simp only [List.getElem?_cons_succ] at h
      have := ih i h
      simp only [List.set_cons_succ, List.map_cons, List.sum_cons]
      omega

/-- The locks stay consistent when one caller moves and the mutex changes by
what the caller takes or gives up. -/
theorem consistent_set (callers : List Caller) (i : Nat) (c c2 : Caller)
    (m m2 : dynamicServiceMapper) (w w2 : World)
    (hc : callers[i]? = some c)
    (h : System.consistent { callers := callers, m := m, w := w })
    (hR : m2.mtx.readers + c.holdsRead = m.mtx.readers + c2.holdsRead)
    (hW : (if m2.mtx.writer then 1 else 0) + c.holdsWrite
      = (if m.mtx.writer then 1 else 0) + c2.holdsWrite)
    (hX : m2.mtx.writer = true → m2.mtx.readers = 0) :
    System.consistent { callers := callers.set i c2, m := m2, w := w2 } := by
  obtain ⟨h1, h2, _⟩ := h
  simp only at h1 h2
  have hr := sum_map_set Caller.holdsRead callers i c c2 hc
  have hw := sum_map_set Caller.holdsWrite callers i c c2 hc
  refine ⟨?_, ?_, hX⟩
  · show m2.mtx.readers = ((callers.set i c2).map Caller.holdsRead).sum
    omega
  · show ((callers.set i c2).map Caller.holdsWrite).sum = (if m2.mtx.writer then 1 else 0)
    omega

/-- Every statement of every caller keeps the locks consistent, and none
ends by the fatal error of releasing a lock that is not held. -/
theorem step_consistent (svc : GoString) (i : Nat) (s : System) (h : s.consistent) :
    ∃ s2, s.step svc i = some s2 ∧ s2.consistent := by
  obtain ⟨callers, m, w⟩ := s
  obtain ⟨ttl, ⟨readers, writer⟩, cache⟩ := m
  have h0 := h
  obtain ⟨h1, h2, h3⟩ := h
  simp only at h1 h2 h3
  unfold System.step
  cases hc : callers[i]? with
  | none => exact ⟨_, rfl, h0⟩
  | some c =>
    have hr := sum_map_set Caller.holdsRead callers i c .start hc
    have hw := sum_map_set Caller.holdsWrite callers i c .start hc
    simp only [Caller.holdsRead, Caller.holdsWrite] at hr hw
    cases c with
    | start =>
      cases writer with
      | true => exact ⟨_, rfl, h0⟩
      | false =>
        exact ⟨_, rfl, consistent_set callers i _ _ _ _ w w hc h0 rfl rfl
          (fun hx => Bool.noConfusion hx)⟩
    | lookup =>
      simp only [Caller.step]
      cases cache.lookup svc with
      | none => exact ⟨_, rfl, consistent_set callers i _ _ _ _ w w hc h0 rfl rfl h3⟩
      | some item => exact ⟨_, rfl, consistent_set callers i _ _ _ _ w w hc h0 rfl rfl h3⟩
    | query again =>
      simp only [Caller.step]
      cases w.registry w.queries svc with
      | error err => exact ⟨_, rfl, consistent_set callers i _ _ _ _ w _ hc h0 rfl rfl h3⟩
      | ok resp =>
        by_cases hty : resp.Services.Type_ = strobj.Type_.String
        · simp only [hty, if_true]
          exact ⟨_, rfl, consistent_set callers i _ _ _ _ w _ hc h0 rfl rfl h3⟩
        · simp only [hty, if_false]
          exact ⟨_, rfl, consistent_set callers i _ _ _ _ w _ hc h0 rfl rfl h3⟩
    | upgrade again hosts =>
      have hpos : readers ≠ 0 := by simp only [Caller.holdsRead] at hr; omega
      simp only [Caller.step, RWMutex.RUnlock, hpos, if_false]
      refine ⟨_, rfl, consistent_set callers i _ _ _ _ w w hc h0 ?_ rfl ?_⟩
      · simp only [Caller.holdsRead]; omega
      · intro hx; have := h3 hx; omega
    | lock again hosts =>
      simp only [Caller.step, RWMutex.Lock]
      by_cases hfree : writer = true ∨ readers ≠ 0
      · simp only [hfree, if_true]
        exact ⟨_, rfl, h0⟩
      · simp only [hfree, if_false]
        have hwf : writer = false := by
          cases writer with
          | true => exact (hfree (Or.inl rfl)).elim
          | false => rfl
        have hrz : readers = 0 := by
          by_contra hne
          exact hfree (Or.inr hne)
        subst hwf hrz
        exact ⟨_, rfl, consistent_set callers i _ _ _ _ w w hc h0 rfl rfl (fun _ => rfl)⟩
    | stamp again hosts =>
      exact ⟨_, rfl, consistent_set callers i _ _ _ _ w _ hc h0 rfl rfl h3⟩
    | store again item =>
      exact ⟨_, rfl, consistent_set callers i _ _ _ _ w _ hc h0 rfl rfl h3⟩
    | unlock again item =>
      have hwt : writer = true := by
        cases writer with
        | true => rfl
        | false => simp only [Caller.holdsWrite] at hw h2; simp at h2; omega
      subst hwt
      have hrz := h3 rfl
      subst hrz
      exact ⟨_, rfl, consistent_set callers i _ _ _ _ w w hc h0 rfl rfl
        (fun hx => Bool.noConfusion hx)⟩
    | relock again item =>
      cases writer with
      | true => exact ⟨_, rfl, h0⟩
      | false =>
        refine ⟨_, rfl, consistent_set callers i _ _ _ _ w w hc h0 ?_ ?_
          (fun hx => Bool.noConfusion hx)⟩
        · cases again <;> rfl
        · cases again <;> rfl
    | check item =>
      by_cases hexp : Unix (w.clock w.readings) > item.expired
      · simp only [Caller.step, hexp, if_true]
        exact ⟨_, rfl, consistent_set callers i _ _ _ _ w _ hc h0 rfl rfl h3⟩
      · simp only [Caller.step, hexp, if_false]
        exact ⟨_, rfl, consistent_set callers i _ _ _ _ w _ hc h0 rfl rfl h3⟩
    | pick item =>
      have hp := (pick_queries
        { itemTTL := ttl, mtx := { readers := readers, writer := writer }, serviceHost := cache }
        w item).2
      refine ⟨_, rfl, consistent_set callers i _ _ _ _ w _ hc h0 ?_ ?_ ?_⟩
      · rw [hp]; rfl
      · rw [hp]; rfl
      · rw [hp]; exact h3
    | leave o =>
      have hpos : readers ≠ 0 := by simp only [Caller.holdsRead] at hr; omega
      simp only [Caller.step, RWMutex.RUnlock, hpos, if_false]
      refine ⟨_, rfl, consistent_set callers i _ _ _ _ w w hc h0 ?_ rfl ?_⟩
      · simp only [Caller.holdsRead]; omega
      · intro hx; have := h3 hx; omega
    | done o => exact ⟨_, rfl, h0⟩

/-- Running alone for a + b statements is running for a and then for b. -/
theorem runAlone_add (svc : GoString) (a b : Nat) :
    ∀ (c : Caller) (m : dynamicServiceMapper) (w : World),
      Caller.runAlone svc (a + b) c m w
        = (Caller.runAlone svc a c m w).bind
            (fun r => Caller.runAlone svc b r.1 r.2.1 r.2.2) := by
  induction a with
  | zero => intro c m w; simp [Caller.runAlone]
  | succ a ih =>
    intro c m w
    rw [Nat.succ_add]
    simp only [Caller.runAlone]
    cases c.step svc m w with
    | moved c2 m2 w2 => exact ih c2 m2 w2
    | waits => exact ih c m w
    | fatal msg => rfl

/-- A caller that has returned stays where it is. -/
theorem runAlone_done (svc : GoString) (k : Nat) (o : Outcome GoString)
    (m : dynamicServiceMapper) (w : World) :
    Caller.runAlone svc k (.done o) m w = some (.done o, m, w) := by
  induction k with
  | zero => rfl
  | succ k ih => simpa [Caller.runAlone, Caller.step] using ih

/-- Reaching a position within a statements and from there another within b
statements is reaching the latter within a + b statements. -/
theorem runAlone_trans (svc : GoString) (a b : Nat) (c c2 c3 : Caller)
    (m m2 m3 : dynamicServiceMapper) (w w2 w3 : World)
    (h1 : ∃ k, k ≤ a ∧ Caller.runAlone svc k c m w = some (c2, m2, w2))
    (h2 : ∃ k, k ≤ b ∧ Caller.runAlone svc k c2 m2 w2 = some (c3, m3, w3)) :
    ∃ k, k ≤ a + b ∧ Caller.runAlone svc k c m w = some (c3, m3, w3) := by
  obtain ⟨k1, hk1, r1⟩ := h1
  obtain ⟨k2, hk2, r2⟩ := h2
  refine ⟨k1 + k2, by omega, ?_⟩
  rw [runAlone_add, r1]
  exact r2

/-- A caller that returns within n statements has returned after every
larger number of statements. -/
theorem runAlone_fuel (svc : GoString) (n : Nat) (c : Caller) (o : Outcome GoString)
    (m m2 : dynamicServiceMapper) (w w2 : World)
    (h : ∃ k, k ≤ n ∧ Caller.runAlone svc k c m w = some (.done o, m2, w2))
    (fuel : Nat) (hf : n ≤ fuel) :
    Caller.runAlone svc fuel c m w = some (.done o, m2, w2) := by
  obtain ⟨k, hk, r⟩ := h
  have : fuel = k + (fuel - k) := by omega
  rw [this, runAlone_add, r]
  exact runAlone_done svc _ o m2 w2

/-- The choice of the host and the deferred RUnlock, with one read lock
held: two statements. -/
theorem runAlone_pick (svc : GoString) (m : dynamicServiceMapper) (w : World)
    (svcItem : dynamicServiceItem) (hl : m.mtx = { readers := 1, writer := false }) :
    ∃ k, k ≤ 2 ∧ Caller.runAlone svc k (.pick svcItem) m w
      = some (.done (dynamicServiceMapper.GetHost.pick m w svcItem).1,
          { m with mtx := { readers := 0, writer := false } },
          (dynamicServiceMapper.GetHost.pick m w svcItem).2.2) := by
  refine ⟨2, le_refl _, ?_⟩
  simp [Caller.runAlone, Caller.step, (pick_queries m w svcItem).2, hl, RWMutex.RUnlock]

/-- The return of an outcome through the deferred RUnlock, with one read
lock held: one statement. -/
theorem runAlone_leave (svc : GoString) (m : dynamicServiceMapper) (w : World)
    (o : Outcome GoString) (hl : m.mtx = { readers := 1, writer := false }) :
    ∃ k, k ≤ 1 ∧ Caller.runAlone svc k (.leave o) m w
      = some (.done o, { m with mtx := { readers := 0, writer := false } }, w) := by
  refine ⟨1, le_refl _, ?_⟩
  simp [Caller.runAlone, Caller.step, hl, RWMutex.RUnlock]

/-- The statements of resolveService for a registry answer of a known
service type, entered with one read lock held: seven statements, and the
mapper and the world that resolveService returns. -/
theorem runAlone_resolve_known (svc : GoString) (m : dynamicServiceMapper) (w : World)
    (again : Bool) (resp : serviceregistry.AvailableServicesResponse)
    (hq : w.registry w.queries svc = .ok resp)
    (ht : resp.Services.Type_ = strobj.Type_.Object)
    (hl : m.mtx = { readers := 1, writer := false }) :
    ∃ item m2 w2, m.resolveService w svc = (.ok item, m2, w2) ∧
      m2.mtx = { readers := 1, writer := false } ∧
      ∃ k, k ≤ 7 ∧ Caller.runAlone svc k (.query again) m w
        = some ((if again then .pick item else .check item), m2, w2) := by
  obtain ⟨ttl, mtx, cache⟩ := m
  simp only at hl
  subst hl
  refine ⟨_, _, _, resolveService_known _ w svc resp hq ht rfl, rfl, 7, le_refl _, ?_⟩
  simp [Caller.runAlone, Caller.step, hq, ht, RWMutex.RUnlock, RWMutex.Lock, RWMutex.Unlock,
    RWMutex.RLock]

/-- The statements of a call of resolveService whose registry query fails or
reports an unknown service type, entered with one read lock held: the error
is returned through the deferred RUnlock of GetHost within two statements,
and the mapper and the world are those resolveService returns. -/
theorem runAlone_resolve_fails (svc : GoString) (m : dynamicServiceMapper) (w : World)
    (again : Bool) (hl : m.mtx = { readers := 1, writer := false })
    (hq : (∃ err, w.registry w.queries svc = .error err) ∨
      ∃ resp, w.registry w.queries svc = .ok resp ∧ resp.Services.Type_ = strobj.Type_.String) :
    ∃ err, m.resolveService w svc = (.error err, m, { w with queries := w.queries + 1 }) ∧
      ∃ k, k ≤ 2 ∧ Caller.runAlone svc k (.query again) m w
        = some (.done (.error err), { m with mtx := { readers := 0, writer := false } },
            { w with queries := w.queries + 1 }) := by
  rcases hq with ⟨err, hq⟩ | ⟨resp, hq, ht⟩
  · refine ⟨err, resolveService_error m w svc err hq, 2, le_refl _, ?_⟩
    simp [Caller.runAlone, Caller.step, hq, hl, RWMutex.RUnlock]
  · refine ⟨_, resolveService_unknown m w svc resp hq ht, 2, le_refl _, ?_⟩
    simp [Caller.runAlone, Caller.step, hq, ht, hl, RWMutex.RUnlock]

/-- The registry either fails or reports an unknown service type, or it
answers with a known service type. -/
theorem registry_cases (w : World) (svc : GoString) :
    ((∃ err, w.registry w.queries svc = .error err) ∨
      ∃ resp, w.registry w.queries svc = .ok resp ∧ resp.Services.Type_ = strobj.Type_.String) ∨
    ∃ resp, w.registry w.queries svc = .ok resp ∧ resp.Services.Type_ = strobj.Type_.Object := by
  cases hq : w.registry w.queries svc with
  | error err => exact Or.inl (Or.inl ⟨err, rfl⟩)
  | ok resp =>
    cases ht : resp.Services.Type_ with
    | String => exact Or.inl (Or.inr ⟨resp, rfl, ht⟩)
    | Object => exact Or.inr ⟨resp, rfl, ht⟩

/-- The expiry check of GetHost and what follows it, statement by statement,
entered with one read lock held: the caller returns within ten statements
with what the check of GetHost gives, the mutex free. -/
theorem runAlone_check (svc : GoString) (m : dynamicServiceMapper) (w : World)
    (svcItem : dynamicServiceItem) (hl : m.mtx = { readers := 1, writer := false }) :
    ∃ k, k ≤ 10 ∧ Caller.runAlone svc k (.check svcItem) m w
      = some (.done (dynamicServiceMapper.GetHost.check m w svc svcItem).1,
          { (dynamicServiceMapper.GetHost.check m w svc svcItem).2.1 with
            mtx := { readers := 0, writer := false } },
          (dynamicServiceMapper.GetHost.check m w svc svcItem).2.2) := by
  by_cases hexp : Unix (w.clock w.readings) > svcItem.expired
  · have hfirst : ∃ k, k ≤ 1 ∧ Caller.runAlone svc k (.check svcItem) m w
        = some (.query true, m, { w with readings := w.readings + 1 }) :=
      ⟨1, le_refl _, by simp [Caller.runAlone, Caller.step, hexp]⟩
    rcases registry_cases { w with readings := w.readings + 1 } svc with hq | ⟨resp, hq, ht⟩
    · obtain ⟨err, hres, hrun⟩ := runAlone_resolve_fails svc m
        { w with readings := w.readings + 1 } true hl hq
      have hchk : dynamicServiceMapper.GetHost.check m w svc svcItem
          = (.error err, m, { w with readings := w.readings + 1, queries := w.queries + 1 }) := by
        try simp only at hres
        simp [dynamicServiceMapper.GetHost.check, hexp, hres]
      rw [hchk]
      obtain ⟨k, hk, hr⟩ := runAlone_trans svc 1 2 _ _ _ _ _ _ _ _ _ hfirst hrun
      exact ⟨k, by omega, hr⟩
    · obtain ⟨item, m2, w2, hres, hl2, hrun⟩ := runAlone_resolve_known svc m
        { w with readings := w.readings + 1 } true resp hq ht hl
      have hchk : dynamicServiceMapper.GetHost.check m w svc svcItem
          = dynamicServiceMapper.GetHost.pick m2 w2 item := by
        try simp only at hres
        simp [dynamicServiceMapper.GetHost.check, hexp, hres]
      rw [hchk, (pick_queries m2 w2 item).2]
      simp only [if_true] at hrun
      have h2 := runAlone_trans svc 1 7 _ _ _ _ _ _ _ _ _ hfirst hrun
      obtain ⟨k, hk, hr⟩ := runAlone_trans svc (1 + 7) 2 _ _ _ _ _ _ _ _ _ h2
        (runAlone_pick svc m2 w2 item hl2)
      exact ⟨k, by omega, hr⟩
  · have hfirst : ∃ k, k ≤ 1 ∧ Caller.runAlone svc k (.check svcItem) m w
        = some (.pick svcItem, m, { w with readings := w.readings + 1 }) :=
      ⟨1, le_refl _, by simp [Caller.runAlone, Caller.step, hexp]⟩
    have hchk : dynamicServiceMapper.GetHost.check m w svc svcItem
        = dynamicServiceMapper.GetHost.pick m { w with readings := w.readings + 1 } svcItem := by
      simp [dynamicServiceMapper.GetHost.check, hexp]
    rw [hchk, (pick_queries m _ svcItem).2]
    obtain ⟨k, hk, hr⟩ := runAlone_trans svc 1 2 _ _ _ _ _ _ _ _ _ hfirst
      (runAlone_pick svc m _ svcItem hl)
    exact ⟨k, by omega, hr⟩

/-- A caller that runs alone on an idle mapper returns within nineteen
statements, with what GetHost returns and the mapper and the world GetHost
leaves. -/
theorem runAlone_GetHost (svc : GoString) (m : dynamicServiceMapper) (w : World)
    (hidle : m.mtx = { readers := 0, writer := false }) (fuel : Nat) (hf : 19 ≤ fuel) :
    Caller.runAlone svc fuel .start m w
      = some (.done (m.GetHost w svc).1, (m.GetHost w svc).2.1, (m.GetHost w svc).2.2) := by
  obtain ⟨ttl, mtx, cache⟩ := m
  simp only at hidle
  subst hidle
  apply runAlone_fuel svc 19 _ _ _ _ _ _ _ fuel hf
  have hstart : ∃ k, k ≤ 1 ∧ Caller.runAlone svc k .start
      { itemTTL := ttl, mtx := { readers := 0, writer := false }, serviceHost := cache } w
      = some (.lookup,
          { itemTTL := ttl, mtx := { readers := 1, writer := false }, serviceHost := cache }, w) :=
    ⟨1, le_refl _, by simp [Caller.runAlone, Caller.step, RWMutex.RLock]⟩
  cases hlook : cache.lookup svc with
  | some svcItem =>
    have hlookup : ∃ k, k ≤ 1 ∧ Caller.runAlone svc k .lookup
        { itemTTL := ttl, mtx := { readers := 1, writer := false }, serviceHost := cache } w
        = some (.check svcItem,
            { itemTTL := ttl, mtx := { readers := 1, writer := false }, serviceHost := cache },
            w) :=
      ⟨1, le_refl _, by simp [Caller.runAlone, Caller.step, hlook]⟩
    have hg : dynamicServiceMapper.GetHost
        { itemTTL := ttl, mtx := { readers := 0, writer := false }, serviceHost := cache } w svc
        = dynamicServiceMapper.GetHost.deferred
          (dynamicServiceMapper.GetHost.check
            { itemTTL := ttl, mtx := { readers := 1, writer := false }, serviceHost := cache }
            w svc svcItem) := by
      simp [dynamicServiceMapper.GetHost, RWMutex.RLock, hlook]
    rw [hg, deferred_read_locked _ (check_locked _ w svc svcItem rfl).1]
    have h2 := runAlone_trans svc 1 1 _ _ _ _ _ _ _ _ _ hstart hlookup
    obtain ⟨k, hk, hr⟩ := runAlone_trans svc (1 + 1) 10 _ _ _ _ _ _ _ _ _ h2
      (runAlone_check svc _ w svcItem rfl)
    exact ⟨k, by omega, hr⟩
  | none =>
    have hlookup : ∃ k, k ≤ 1 ∧ Caller.runAlone svc k .lookup
        { itemTTL := ttl, mtx := { readers := 1, writer := false }, serviceHost := cache } w
        = some (.query false,
            { itemTTL := ttl, mtx := { readers := 1, writer := false }, serviceHost := cache },
            w) :=
      ⟨1, le_refl _, by simp [Caller.runAlone, Caller.step, hlook]⟩
    have h2 := runAlone_trans svc 1 1 _ _ _ _ _ _ _ _ _ hstart hlookup
    rcases registry_cases w svc with hq | ⟨resp, hq, ht⟩
    · obtain ⟨err, hres, hrun⟩ := runAlone_resolve_fails svc
        { itemTTL := ttl, mtx := { readers := 1, writer := false }, serviceHost := cache }
        w false rfl hq
      have hg : dynamicServiceMapper.GetHost
          { itemTTL := ttl, mtx := { readers := 0, writer := false }, serviceHost := cache } w svc
          = (.error err,
              { itemTTL := ttl, mtx := { readers := 0, writer := false }, serviceHost := cache },
              { w with queries := w.queries + 1 }) := by
        simp [dynamicServiceMapper.GetHost, RWMutex.RLock, hlook, hres,
          dynamicServiceMapper.GetHost.deferred, RWMutex.RUnlock]
      rw [hg]
      obtain ⟨k, hk, hr⟩ := runAlone_trans svc (1 + 1) 2 _ _ _ _ _ _ _ _ _ h2 hrun
      exact ⟨k, by omega, hr⟩
    · obtain ⟨item, m2, w2, hres, hl2, hrun⟩ := runAlone_resolve_known svc
        { itemTTL := ttl, mtx := { readers := 1, writer := false }, serviceHost := cache }
        w false resp hq ht rfl
      have hg : dynamicServiceMapper.GetHost
          { itemTTL := ttl, mtx := { readers := 0, writer := false }, serviceHost := cache } w svc
          = dynamicServiceMapper.GetHost.deferred
            (dynamicServiceMapper.GetHost.check m2 w2 svc item) := by
        simp [dynamicServiceMapper.GetHost, RWMutex.RLock, hlook, hres]
      rw [hg, deferred_read_locked _ (check_locked m2 w2 svc item hl2).1]
      simp only [Bool.false_eq_true, if_false] at hrun
      have h3 := runAlone_trans svc (1 + 1) 7 _ _ _ _ _ _ _ _ _ h2 hrun
      obtain ⟨k, hk, hr⟩ := runAlone_trans svc (1 + 1 + 7) 10 _ _ _ _ _ _ _ _ _ h3
        (runAlone_check svc m2 w2 item hl2)
      exact ⟨k, by omega, hr⟩

/-- Writing to a position of a list what it holds leaves the list as it
is. -/
theorem set_same (l : List Caller) (i : Nat) (c : Caller) (h : l[i]? = some c) :
    l.set i c = l := by
  induction l generalizing i with
  | nil => rfl
  | cons a l ih =>
    cases i with
    | zero =>
      simp only [List.getElem?_cons_zero, Option.some.injEq] at h
      subst h
      rfl
    | succ i =>
      simp only [List.getElem?_cons_succ] at h
      simp only [List.set_cons_succ, ih i h]

/-- A schedule in two parts runs the first part and then the second. -/
theorem run_append (svc : GoString) (xs ys : List Nat) :
    ∀ s : System, System.run svc (xs ++ ys) s = (System.run svc xs s).bind (System.run svc ys) := by
  induction xs with
  | nil => intro s; rfl
  | cons i xs ih =>
    intro s
    simp only [List.cons_append, System.run]
    cases s.step svc i with
    | none => rfl
    | some s2 => exact ih s2

/-- A schedule in which only the caller i runs is that caller running
alone, whatever the other callers are. -/
theorem run_replicate (svc : GoString) (i k : Nat) :
    ∀ (callers : List Caller) (c : Caller) (m : dynamicServiceMapper) (w : World),
      callers[i]? = some c →
      System.run svc (List.replicate k i) { callers := callers, m := m, w := w }
        = (Caller.runAlone svc k c m w).map
            (fun r => { callers := callers.set i r.1, m := r.2.1, w := r.2.2 }) := by
  induction k with
  | zero =>
    intro callers c m w hc
    simp [System.run, Caller.runAlone, set_same callers i c hc]
  | succ k ih =>
    intro callers c m w hc
    have hlt : i < callers.length := (List.getElem?_eq_some_iff.mp hc).1
    simp only [List.replicate_succ, System.run, System.step, hc, Caller.runAlone]
    cases c.step svc m w with
    | moved c2 m2 w2 =>
      simp only [Option.some_bind]
      rw [ih (callers.set i c2) c2 m2 w2 (by simp [hlt])]
      simp [List.set_set]
    | waits =>
      simp only [Option.some_bind]
      exact ih callers c m w hc
    | fatal msg => rfl

/-- Every schedule keeps the locks consistent and runs without the fatal
error of releasing a lock that is not held. -/
theorem run_consistent (svc : GoString) (schedule : List Nat) :
    ∀ s : System, s.consistent → ∃ s2, System.run svc schedule s = some s2 ∧ s2.consistent := by
  induction schedule with
  | nil => intro s h; exact ⟨s, rfl, h⟩
  | cons i rest ih =>
    intro s h
    obtain ⟨s1, h1, hc1⟩ := step_consistent svc i s h
    obtain ⟨s2, h2, hc2⟩ := ih s1 hc1
    exact ⟨s2, by simp [System.run, h1, h2], hc2⟩

/-- Callers that have not started on an idle mapper: the locks are
consistent. -/
theorem start_consistent (n : Nat) (m : dynamicServiceMapper) (w : World)
    (hidle : m.mtx = { readers := 0, writer := false }) :
    System.consistent { callers := List.replicate n .start, m := m, w := w } := by
  refine ⟨?_, ?_, ?_⟩
  · simp [hidle, Caller.holdsRead]
  · simp [hidle, Caller.holdsWrite]
  · simp [hidle]

/-- In a consistent system the mutex is held as the callers stand: where a
caller holds the write lock the mutex has its writer and no reader, and where
a caller holds a read lock the mutex has a reader and no writer. -/
theorem consistent_at (s : System) (h : s.consistent) (i : Nat) (c : Caller)
    (hc : s.callers[i]? = some c) :
    (c.holdsWrite = 1 → s.m.mtx = { readers := 0, writer := true }) ∧
      (c.holdsRead = 1 → s.m.mtx.writer = false ∧ 1 ≤ s.m.mtx.readers) := by
  obtain ⟨h1, h2, h3⟩ := h
  have hr := sum_map_set Caller.holdsRead s.callers i c .start hc
  have hw := sum_map_set Caller.holdsWrite s.callers i c .start hc
  have hs1 : Caller.holdsRead .start = 0 := rfl
  have hs2 : Caller.holdsWrite .start = 0 := rfl
  rw [hs1] at hr
  rw [hs2] at hw
  constructor
  · intro hwc
    cases hwr : s.m.mtx.writer with
    | true =>
      have hz := h3 hwr
      cases hm : s.m.mtx with
      | mk readers writer =>
        rw [hm] at hwr hz
        simp only at hwr hz
        rw [hwr, hz]
    | false =>
      rw [hwr] at h2
      simp only [Bool.false_eq_true, if_false] at h2
      omega
  · intro hrc
    cases hwr : s.m.mtx.writer with
    | true =>
      have hz := h3 hwr
      omega
    | false => exact ⟨rfl, by omega⟩

/-- The cache is changed by the statement m.serviceHost[svc] = item alone. -/
theorem Caller_step_cache (svc : GoString) (c c2 : Caller) (m m2 : dynamicServiceMapper)
    (w w2 : World) (h : c.step svc m w = .moved c2 m2 w2)
    (hne : m2.serviceHost ≠ m.serviceHost) :
    ∃ again item, c = .store again item ∧ m2.serviceHost = mapAssign m.serviceHost svc item := by
  have hmoved : ∀ (a a2 : Caller) (x x2 : dynamicServiceMapper) (y y2 : World),
      Stepped.moved a x y = Stepped.moved a2 x2 y2 → x = x2 := by
    intro a a2 x x2 y y2 hh
    injection hh
  cases c with
  | store again item =>
    simp only [Caller.step] at h
    have := hmoved _ _ _ _ _ _ h
    subst this
    exact ⟨again, item, rfl, rfl⟩
  | start =>
    simp only [Caller.step] at h
    cases hl : m.mtx.RLock with
    | none => rw [hl] at h; exact Stepped.noConfusion h
    | some mtx =>
      rw [hl] at h
      have := hmoved _ _ _ _ _ _ h
      subst this
      exact (hne rfl).elim
  | lookup =>
    simp only [Caller.step] at h
    cases hl : m.serviceHost.lookup svc with
    | none =>
      rw [hl] at h
      have := hmoved _ _ _ _ _ _ h
      subst this
      exact (hne rfl).elim
    | some item =>
      rw [hl] at h
      have := hmoved _ _ _ _ _ _ h
      subst this
      exact (hne rfl).elim
  | query again =>
    simp only [Caller.step] at h
    cases hq : w.registry w.queries svc with
    | error err =>
      rw [hq] at h
      have := hmoved _ _ _ _ _ _ h
      subst this
      exact (hne rfl).elim
    | ok resp =>
      rw [hq] at h
      simp only at h
      by_cases hty : resp.Services.Type_ = strobj.Type_.String
      · simp only [hty, if_true] at h
        have := hmoved _ _ _ _ _ _ h
        subst this
        exact (hne rfl).elim
      · simp only [hty, if_false] at h
        have := hmoved _ _ _ _ _ _ h
        subst this
        exact (hne rfl).elim
  | upgrade again hosts =>
    simp only [Caller.step] at h
    cases hl : m.mtx.RUnlock with
    | none => rw [hl] at h; exact Stepped.noConfusion h
    | some mtx =>
      rw [hl] at h
      have := hmoved _ _ _ _ _ _ h
      subst this
      exact (hne rfl).elim
  | lock again hosts =>
    simp only [Caller.step] at h
    cases hl : m.mtx.Lock with
    | none => rw [hl] at h; exact Stepped.noConfusion h
    | some mtx =>
      rw [hl] at h
      have := hmoved _ _ _ _ _ _ h
      subst this
      exact (hne rfl).elim
  | stamp again hosts =>
    simp only [Caller.step] at h
    have := hmoved _ _ _ _ _ _ h
    subst this
    exact (hne rfl).elim
  | unlock again item =>
    simp only [Caller.step] at h
    cases hl : m.mtx.Unlock with
    | none => rw [hl] at h; exact Stepped.noConfusion h
    | some mtx =>
      rw [hl] at h
      have := hmoved _ _ _ _ _ _ h
      subst this
      exact (hne rfl).elim
  | relock again item =>
    simp only [Caller.step] at h
    cases hl : m.mtx.RLock with
    | none => rw [hl] at h; exact Stepped.noConfusion h
    | some mtx =>
      rw [hl] at h
      have := hmoved _ _ _ _ _ _ h
      subst this
      exact (hne rfl).elim
  | check item =>
    simp only [Caller.step] at h
    by_cases hexp : Unix (w.clock w.readings) > item.expired
    · simp only [hexp, if_true] at h
      have := hmoved _ _ _ _ _ _ h
      subst this
      exact (hne rfl).elim
    · simp only [hexp, if_false] at h
      have := hmoved _ _ _ _ _ _ h
      subst this
      exact (hne rfl).elim
  | pick item =>
    simp only [Caller.step] at h
    have := hmoved _ _ _ _ _ _ h
    subst this
    exact (hne (by rw [(pick_queries m w item).2])).elim
  | leave o =>
    simp only [Caller.step] at h
    cases hl : m.mtx.RUnlock with
    | none => rw [hl] at h; exact Stepped.noConfusion h
    | some mtx =>
      rw [hl] at h
      have := hmoved _ _ _ _ _ _ h
      subst this
      exact (hne rfl).elim
  | done o =>
    simp only [Caller.step] at h
    exact Stepped.noConfusion h

/-- In a system the cache is changed by the statement
m.serviceHost[svc] = item of the caller that moves alone. -/
theorem step_cache (svc : GoString) (i : Nat) (s s2 : System) (h : s.step svc i = some s2)
    (hne : s2.m.serviceHost ≠ s.m.serviceHost) :
    ∃ again item, s.callers[i]? = some (.store again item) ∧
      s2.m.serviceHost = mapAssign s.m.serviceHost svc item := by
  unfold System.step at h
  cases hc : s.callers[i]? with
  | none =>
    rw [hc] at h
    simp only [Option.some.injEq] at h
    subst h
    exact (hne rfl).elim
  | some c =>
    rw [hc] at h
    simp only at h
    cases hs : c.step svc s.m s.w with
    | moved c2 m2 w2 =>
      rw [hs] at h
      simp only [Option.some.injEq] at h
      subst h
      obtain ⟨again, item, hcc, hm⟩ := Caller_step_cache svc c c2 s.m m2 s.w w2 hs hne
      exact ⟨again, item, by rw [hcc], hm⟩
    | waits =>
      rw [hs] at h
      simp only [Option.some.injEq] at h
      subst h
      exact (hne rfl).elim
    | fatal msg =>
      rw [hs] at h
      exact Option.noConfusion h

/-- When the cache has an entry for the service, a statement of a caller
leaves an entry in the cache, and the queries made and still ahead of the
caller do not grow. -/
theorem Caller_step_ahead (svc : GoString) (c c2 : Caller) (m m2 : dynamicServiceMapper)
    (w w2 : World) (h : c.step svc m w = .moved c2 m2 w2)
    (hentry : ∃ item, m.serviceHost.lookup svc = some item) :
    (∃ item, m2.serviceHost.lookup svc = some item) ∧
      w2.queries + c2.queriesAhead ≤ w.queries + c.queriesAhead := by
  have hmoved : ∀ (a a2 : Caller) (x x2 : dynamicServiceMapper) (y y2 : World),
      Stepped.moved a x y = Stepped.moved a2 x2 y2 → a = a2 ∧ x = x2 ∧ y = y2 := by
    intro a a2 x x2 y y2 hh
    injection hh with h1 h2 h3
    exact ⟨h1, h2, h3⟩
  cases c with
  | store again item =>
    simp only [Caller.step] at h
    obtain ⟨rfl, rfl, rfl⟩ := hmoved _ _ _ _ _ _ h
    exact ⟨⟨item, by simp [mapAssign, List.lookup]⟩, le_refl _⟩
  | start =>
    simp only [Caller.step] at h
    cases hl : m.mtx.RLock with
    | none => rw [hl] at h; exact Stepped.noConfusion h
    | some mtx =>
      rw [hl] at h
      obtain ⟨rfl, rfl, rfl⟩ := hmoved _ _ _ _ _ _ h
      exact ⟨hentry, le_refl _⟩
  | lookup =>
    simp only [Caller.step] at h
    obtain ⟨item, hitem⟩ := hentry
    rw [hitem] at h
    obtain ⟨rfl, rfl, rfl⟩ := hmoved _ _ _ _ _ _ h
    exact ⟨⟨item, hitem⟩, le_refl _⟩
  | query again =>
    simp only [Caller.step] at h
    cases hq : w.registry w.queries svc with
    | error err =>
      rw [hq] at h
      obtain ⟨rfl, rfl, rfl⟩ := hmoved _ _ _ _ _ _ h
      refine ⟨hentry, ?_⟩
      cases again <;> simp [Caller.queriesAhead]
    | ok resp =>
      rw [hq] at h
      simp only at h
      by_cases hty : resp.Services.Type_ = strobj.Type_.String
      · simp only [hty, if_true] at h
        obtain ⟨rfl, rfl, rfl⟩ := hmoved _ _ _ _ _ _ h
        refine ⟨hentry, ?_⟩
        cases again <;> simp [Caller.queriesAhead]
      · simp only [hty, if_false] at h
        obtain ⟨rfl, rfl, rfl⟩ := hmoved _ _ _ _ _ _ h
        refine ⟨hentry, ?_⟩
        cases again <;> simp [Caller.queriesAhead]
  | upgrade again hosts =>
    simp only [Caller.step] at h
    cases hl : m.mtx.RUnlock with
    | none => rw [hl] at h; exact Stepped.noConfusion h
    | some mtx =>
      rw [hl] at h
      obtain ⟨rfl, rfl, rfl⟩ := hmoved _ _ _ _ _ _ h
      exact ⟨hentry, le_refl _⟩
  | lock again hosts =>
    simp only [Caller.step] at h
    cases hl : m.mtx.Lock with
    | none => rw [hl] at h; exact Stepped.noConfusion h
    | some mtx =>
      rw [hl] at h
      obtain ⟨rfl, rfl, rfl⟩ := hmoved _ _ _ _ _ _ h
      exact ⟨hentry, le_refl _⟩
  | stamp again hosts =>
    simp only [Caller.step] at h
    obtain ⟨rfl, rfl, rfl⟩ := hmoved _ _ _ _ _ _ h
    exact ⟨hentry, le_refl _⟩
  | unlock again item =>
    simp only [Caller.step] at h
    cases hl : m.mtx.Unlock with
    | none => rw [hl] at h; exact Stepped.noConfusion h
    | some mtx =>
      rw [hl] at h
      obtain ⟨rfl, rfl, rfl⟩ := hmoved _ _ _ _ _ _ h
      exact ⟨hentry, le_refl _⟩
  | relock again item =>
    simp only [Caller.step] at h
    cases hl : m.mtx.RLock with
    | none => rw [hl] at h; exact Stepped.noConfusion h
    | some mtx =>
      rw [hl] at h
      obtain ⟨rfl, rfl, rfl⟩ := hmoved _ _ _ _ _ _ h
      refine ⟨hentry, ?_⟩
      cases again <;> simp [Caller.queriesAhead]
  | check item =>
    simp only [Caller.step] at h
    by_cases hexp : Unix (w.clock w.readings) > item.expired
    · simp only [hexp, if_true] at h
      obtain ⟨rfl, rfl, rfl⟩ := hmoved _ _ _ _ _ _ h
      exact ⟨hentry, by simp [Caller.queriesAhead]⟩
    · simp only [hexp, if_false] at h
      obtain ⟨rfl, rfl, rfl⟩ := hmoved _ _ _ _ _ _ h
      exact ⟨hentry, by simp [Caller.queriesAhead]⟩
  | pick item =>
    simp only [Caller.step] at h
    obtain ⟨rfl, rfl, rfl⟩ := hmoved _ _ _ _ _ _ h
    refine ⟨by rw [(pick_queries m w item).2]; exact hentry, ?_⟩
    rw [(pick_queries m w item).1]
    simp [Caller.queriesAhead]
  | leave o =>
    simp only [Caller.step] at h
    cases hl : m.mtx.RUnlock with
    | none => rw [hl] at h; exact Stepped.noConfusion h
    | some mtx =>
      rw [hl] at h
      obtain ⟨rfl, rfl, rfl⟩ := hmoved _ _ _ _ _ _ h
      exact ⟨hentry, le_refl _⟩
  | done o =>
    simp only [Caller.step] at h
    exact Stepped.noConfusion h

/-- When the cache has an entry for the service, no statement of a schedule
removes it, and the queries made together with those still ahead of the
callers do not grow. -/
theorem run_ahead (svc : GoString) (schedule : List Nat) :
    ∀ (s s2 : System), System.run svc schedule s = some s2 →
      (∃ item, s.m.serviceHost.lookup svc = some item) →
      (∃ item, s2.m.serviceHost.lookup svc = some item) ∧
        s2.w.queries + (s2.callers.map Caller.queriesAhead).sum
          ≤ s.w.queries + (s.callers.map Caller.queriesAhead).sum := by
  induction schedule with
  | nil =>
    intro s s2 h hentry
    simp only [System.run, Option.some.injEq] at h
    subst h
    exact ⟨hentry, le_refl _⟩
  | cons i rest ih =>
    intro s s2 h hentry
    simp only [System.run] at h
    cases hs : s.step svc i with
    | none => rw [hs] at h; exact Option.noConfusion h
    | some s1 =>
      rw [hs] at h
      simp only [Option.some_bind] at h
      have hone : (∃ item, s1.m.serviceHost.lookup svc = some item) ∧
          s1.w.queries + (s1.callers.map Caller.queriesAhead).sum
            ≤ s.w.queries + (s.callers.map Caller.queriesAhead).sum := by
        unfold System.step at hs
        cases hc : s.callers[i]? with
        | none =>
          rw [hc] at hs
          simp only [Option.some.injEq] at hs
          subst hs
          exact ⟨hentry, le_refl _⟩
        | some c =>
          rw [hc] at hs
          simp only at hs
          cases hst : c.step svc s.m s.w with
          | moved c2 m2 w2 =>
            rw [hst] at hs
            simp only [Option.some.injEq] at hs
            subst hs
            obtain ⟨he, hq⟩ := Caller_step_ahead svc c c2 s.m m2 s.w w2 hst hentry
            have hsum := sum_map_set Caller.queriesAhead s.callers i c c2 hc
            exact ⟨he, by simp only; omega⟩
          | waits =>
            rw [hst] at hs
            simp only [Option.some.injEq] at hs
            subst hs
            exact ⟨hentry, le_refl _⟩
          | fatal msg =>
            rw [hst] at hs
            exact Option.noConfusion hs
      obtain ⟨he2, hq2⟩ := ih s1 s2 h hone.1
      exact ⟨he2, le_trans hq2 hone.2⟩

/-- The callers that run one after the other on an idle mapper return what
successive calls of GetHost return, and leave the mapper and the world those
calls leave. -/
theorem run_oneByOne (svc : GoString) (fuel : Nat) (hf : 19 ≤ fuel) (n : Nat) :
    ∀ (front : List Caller) (m : dynamicServiceMapper) (w : World),
      m.mtx = { readers := 0, writer := false } →
      System.run svc (oneByOne fuel front.length n)
          { callers := front ++ List.replicate n .start, m := m, w := w }
        = some { callers := front ++
                  (dynamicServiceMapper.GetHost.calls svc n m w).1.map Caller.done,
                 m := (dynamicServiceMapper.GetHost.calls svc n m w).2.1,
                 w := (dynamicServiceMapper.GetHost.calls svc n m w).2.2 } := by
  induction n with
  | zero =>
    intro front m w _
    simp [oneByOne, System.run, dynamicServiceMapper.GetHost.calls]
  | succ n ih =>
    intro front m w hidle
    have hc : (front ++ List.replicate (n + 1) Caller.start)[front.length]? = some .start := by
      rw [List.getElem?_append_right (le_refl _), Nat.sub_self, List.replicate_succ]
      exact List.getElem?_cons_zero
    have hidle2 : (m.GetHost w svc).2.1.mtx = { readers := 0, writer := false } :=
      (GetHost_unlocked m w svc hidle).1
    have hnext := ih (front ++ [.done (m.GetHost w svc).1]) (m.GetHost w svc).2.1
      (m.GetHost w svc).2.2 hidle2
    simp only [oneByOne, run_append, run_replicate svc front.length fuel _ .start m w hc,
      runAlone_GetHost svc m w hidle fuel hf, Option.map_some', Option.some_bind]
    simp only [List.length_append, List.length_singleton, List.append_assoc,
      List.singleton_append] at hnext
    simp only [List.replicate_succ, List.set_append_right _ _ (le_refl _), Nat.sub_self,
      List.set_cons_zero, dynamicServiceMapper.GetHost.calls, List.map_cons]
    exact hnext

/-- Successive calls of GetHost on an idle mapper whose entry for the
service has at least one host and has not expired at any of the times read:
every call returns one of the hosts of the entry, none queries the registry,
and the mapper stays as it is. -/
theorem calls_fresh (m : dynamicServiceMapper) (svc : GoString) (svcItem : dynamicServiceItem)
    (hidle : m.mtx = { readers := 0, writer := false })
    (hentry : m.serviceHost.lookup svc = some svcItem)
    (hne : svcItem.hosts ≠ []) (n : Nat) :
    ∀ w : World, (∀ i, i < n → Unix (w.clock (w.readings + i)) ≤ svcItem.expired) →
      (∀ o ∈ (dynamicServiceMapper.GetHost.calls svc n m w).1,
        ∃ h, h ∈ svcItem.hosts ∧ o = .ok h) ∧
      (dynamicServiceMapper.GetHost.calls svc n m w).1.length = n ∧
      (dynamicServiceMapper.GetHost.calls svc n m w).2.1 = m ∧
      (dynamicServiceMapper.GetHost.calls svc n m w).2.2.queries = w.queries := by
  induction n with
  | zero => intro w _; simp [dynamicServiceMapper.GetHost.calls]
  | succ n ih =>
    intro w hw
    obtain ⟨h, hmem, _, hg⟩ := GetHost_fresh m w svc svcItem hidle hentry
      (by simpa using hw 0 (Nat.succ_pos n)) hne
    obtain ⟨i1, i2, i3, i4⟩ := ih { w with readings := w.readings + 1, draws := w.draws + 1 }
      (fun i hi => by
        have := hw (i + 1) (Nat.succ_lt_succ hi)
        simpa [Nat.add_assoc, Nat.add_comm 1 i] using this)
    simp only [dynamicServiceMapper.GetHost.calls, hg]
    refine ⟨?_, by simp [i2], i3, i4⟩
    intro o ho
    rcases List.mem_cons.mp ho with rfl | ho
    · exact ⟨h, hmem, rfl⟩
    · exact i1 o ho

/-- A schedule in which only the caller i runs, when that caller alone
reaches a position. -/
theorem run_block (svc : GoString) (i k : Nat) (callers : List Caller) (c c2 : Caller)
    (m m2 : dynamicServiceMapper) (w w2 : World)
    (hc : callers[i]? = some c)
    (hr : Caller.runAlone svc k c m w = some (c2, m2, w2)) :
    System.run svc (List.replicate k i) { callers := callers, m := m, w := w }
      = some { callers := callers.set i c2, m := m2, w := w2 } := by
  rw [run_replicate svc i k callers c m w hc, hr]
  rfl

/-- Two callers that take turns on an idle mapper whose entry for the service
has expired at the two times they read, the registry answering both queries
with a known service type with at least one host: each caller makes its own
query and returns a host of its own answer, and the cache holds the entry
stored last. -/
theorem run_takingTurns (svc : GoString) (m : dynamicServiceMapper) (w : World)
    (svcItem : dynamicServiceItem) (resp1 resp2 : serviceregistry.AvailableServicesResponse)
    (hidle : m.mtx = { readers := 0, writer := false })
    (hentry : m.serviceHost.lookup svc = some svcItem)
    (hexp1 : Unix (w.clock w.readings) > svcItem.expired)
    (hexp2 : Unix (w.clock (w.readings + 1)) > svcItem.expired)
    (hq1 : w.registry w.queries svc = .ok resp1)
    (hq2 : w.registry (w.queries + 1) svc = .ok resp2)
    (hty1 : resp1.Services.Type_ = strobj.Type_.Object)
    (hty2 : resp2.Services.Type_ = strobj.Type_.Object)
    (hne1 : resolveService.hosts resp1.Services.ObjectVal ≠ [])
    (hne2 : resolveService.hosts resp2.Services.ObjectVal ≠ []) :
    ∃ h1 h2 s, System.run svc takingTurns { callers := [.start, .start], m := m, w := w }
        = some s ∧
      s.callers = [.done (.ok h1), .done (.ok h2)] ∧
      h1 ∈ resolveService.hosts resp1.Services.ObjectVal ∧
      h2 ∈ resolveService.hosts resp2.Services.ObjectVal ∧
      s.w.queries = w.queries + 2 ∧
      s.m.mtx = { readers := 0, writer := false } ∧
      s.m.serviceHost.lookup svc
        = some { hosts := resolveService.hosts resp2.Services.ObjectVal,
                 expired := Unix (w.clock (w.readings + 3) + m.itemTTL) } := by
  obtain ⟨ttl, mtx, cache⟩ := m
  simp only at hidle hentry
  subst hidle
  obtain ⟨hostsA, hA⟩ : ∃ x, x = resolveService.hosts resp1.Services.ObjectVal := ⟨_, rfl⟩
  obtain ⟨hostsB, hB⟩ : ∃ x, x = resolveService.hosts resp2.Services.ObjectVal := ⟨_, rfl⟩
  rw [← hA] at hne1
  rw [← hB] at hne2
  have hsplit : takingTurns
      = List.replicate 4 0 ++ (List.replicate 4 1 ++ (List.replicate 1 0 ++
          (List.replicate 1 1 ++ (List.replicate 4 0 ++ (List.replicate 4 1 ++
            (List.replicate 3 0 ++ List.replicate 3 1)))))) := rfl
  -- the first caller up to the end of its query
  have b1 := run_block svc 0 4 [.start, .start] .start (.upgrade true hostsA)
    { itemTTL := ttl, mtx := { readers := 0, writer := false }, serviceHost := cache }
    { itemTTL := ttl, mtx := { readers := 1, writer := false }, serviceHost := cache }
    w { w with readings := w.readings + 1, queries := w.queries + 1 } rfl
    (by simp [Caller.runAlone, Caller.step, RWMutex.RLock, hentry, hexp1, hq1, hty1, hA])
  -- the second caller up to the end of its query
  have b2 := run_block svc 1 4 [.upgrade true hostsA, .start] .start (.upgrade true hostsB)
    { itemTTL := ttl, mtx := { readers := 1, writer := false }, serviceHost := cache }
    { itemTTL := ttl, mtx := { readers := 2, writer := false }, serviceHost := cache }
    { w with readings := w.readings + 1, queries := w.queries + 1 }
    { w with readings := w.readings + 1 + 1, queries := w.queries + 1 + 1 } rfl
    (by simp [Caller.runAlone, Caller.step, RWMutex.RLock, hentry, hexp2, hq2, hty2, hB])
  -- both give up their read locks
  have b3 := run_block svc 0 1 [.upgrade true hostsA, .upgrade true hostsB]
    (.upgrade true hostsA) (.lock true hostsA)
    { itemTTL := ttl, mtx := { readers := 2, writer := false }, serviceHost := cache }
    { itemTTL := ttl, mtx := { readers := 1, writer := false }, serviceHost := cache }
    { w with readings := w.readings + 1 + 1, queries := w.queries + 1 + 1 }
    { w with readings := w.readings + 1 + 1, queries := w.queries + 1 + 1 } rfl
    (by simp [Caller.runAlone, Caller.step, RWMutex.RUnlock])
  have b4 := run_block svc 1 1 [.lock true hostsA, .upgrade true hostsB]
    (.upgrade true hostsB) (.lock true hostsB)
    { itemTTL := ttl, mtx := { readers := 1, writer := false }, serviceHost := cache }
    { itemTTL := ttl, mtx := { readers := 0, writer := false }, serviceHost := cache }
    { w with readings := w.readings + 1 + 1, queries := w.queries + 1 + 1 }
    { w with readings := w.readings + 1 + 1, queries := w.queries + 1 + 1 } rfl
    (by simp [Caller.runAlone, Caller.step, RWMutex.RUnlock])
  -- the first caller stores its entry under the write lock
  have b5 := run_block svc 0 4 [.lock true hostsA, .lock true hostsB]
    (.lock true hostsA)
    (.relock true { hosts := hostsA, expired := Unix (w.clock (w.readings + 1 + 1) + ttl) })
    { itemTTL := ttl, mtx := { readers := 0, writer := false }, serviceHost := cache }
    { itemTTL := ttl, mtx := { readers := 0, writer := false },
      serviceHost := mapAssign cache svc
        { hosts := hostsA, expired := Unix (w.clock (w.readings + 1 + 1) + ttl) } }
    { w with readings := w.readings + 1 + 1, queries := w.queries + 1 + 1 }
    { w with readings := w.readings + 1 + 1 + 1, queries := w.queries + 1 + 1 } rfl
    (by simp [Caller.runAlone, Caller.step, RWMutex.Lock, RWMutex.Unlock])
  -- the second caller stores its entry under the write lock
  have b6 := run_block svc 1 4
    [.relock true { hosts := hostsA, expired := Unix (w.clock (w.readings + 1 + 1) + ttl) },
      .lock true hostsB]
    (.lock true hostsB)
    (.relock true
      { hosts := hostsB, expired := Unix (w.clock (w.readings + 1 + 1 + 1) + ttl) })
    { itemTTL := ttl, mtx := { readers := 0, writer := false },
      serviceHost := mapAssign cache svc
        { hosts := hostsA, expired := Unix (w.clock (w.readings + 1 + 1) + ttl) } }
    { itemTTL := ttl, mtx := { readers := 0, writer := false },
      serviceHost := mapAssign
        (mapAssign cache svc
          { hosts := hostsA, expired := Unix (w.clock (w.readings + 1 + 1) + ttl) })
        svc { hosts := hostsB, expired := Unix (w.clock (w.readings + 1 + 1 + 1) + ttl) } }
    { w with readings := w.readings + 1 + 1 + 1, queries := w.queries + 1 + 1 }
    { w with readings := w.readings + 1 + 1 + 1 + 1, queries := w.queries + 1 + 1 } rfl
    (by simp [Caller.runAlone, Caller.step, RWMutex.Lock, RWMutex.Unlock])
  -- the two callers choose their hosts and return
  obtain ⟨cache2, hC⟩ : ∃ x : List (GoString × dynamicServiceItem),
      x = mapAssign
        (mapAssign cache svc
          { hosts := hostsA, expired := Unix (w.clock (w.readings + 1 + 1) + ttl) })
        svc { hosts := hostsB, expired := Unix (w.clock (w.readings + 1 + 1 + 1) + ttl) } :=
    ⟨_, rfl⟩
  obtain ⟨w4, hW⟩ : ∃ x : World,
      x = { w with readings := w.readings + 1 + 1 + 1 + 1, queries := w.queries + 1 + 1 } :=
    ⟨_, rfl⟩
  rw [← hC, ← hW] at b6
  obtain ⟨h1, hh1, hp1⟩ := pick_some
    { itemTTL := ttl, mtx := { readers := 1, writer := false }, serviceHost := cache2 }
    w4 { hosts := hostsA, expired := Unix (w.clock (w.readings + 1 + 1) + ttl) } hne1
  obtain ⟨h2, hh2, hp2⟩ := pick_some
    { itemTTL := ttl, mtx := { readers := 1, writer := false }, serviceHost := cache2 }
    { w4 with draws := w4.draws + 1 }
    { hosts := hostsB, expired := Unix (w.clock (w.readings + 1 + 1 + 1) + ttl) } hne2
  have b7 := run_block svc 0 3
    [.relock true { hosts := hostsA, expired := Unix (w.clock (w.readings + 1 + 1) + ttl) },
      .relock true
        { hosts := hostsB, expired := Unix (w.clock (w.readings + 1 + 1 + 1) + ttl) }]
    (.relock true { hosts := hostsA, expired := Unix (w.clock (w.readings + 1 + 1) + ttl) })
    (.done (.ok h1))
    { itemTTL := ttl, mtx := { readers := 0, writer := false }, serviceHost := cache2 }
    { itemTTL := ttl, mtx := { readers := 0, writer := false }, serviceHost := cache2 }
    w4 { w4 with draws := w4.draws + 1 } rfl
    (by simp [Caller.runAlone, Caller.step, RWMutex.RLock, RWMutex.RUnlock, hp1])
  have b8 := run_block svc 1 3
    [.done (.ok h1),
      .relock true
        { hosts := hostsB, expired := Unix (w.clock (w.readings + 1 + 1 + 1) + ttl) }]
    (.relock true { hosts := hostsB, expired := Unix (w.clock (w.readings + 1 + 1 + 1) + ttl) })
    (.done (.ok h2))
    { itemTTL := ttl, mtx := { readers := 0, writer := false }, serviceHost := cache2 }
    { itemTTL := ttl, mtx := { readers := 0, writer := false }, serviceHost := cache2 }
    { w4 with draws := w4.draws + 1 } { w4 with draws := w4.draws + 1 + 1 } rfl
    (by simp [Caller.runAlone, Caller.step, RWMutex.RLock, RWMutex.RUnlock, hp2])
  simp only [List.set_cons_zero, List.set_cons_succ] at b1 b2 b3 b4 b5 b6 b7 b8
  refine ⟨h1, h2,
    { callers := [.done (.ok h1), .done (.ok h2)],
      m := { itemTTL := ttl, mtx := { readers := 0, writer := false }, serviceHost := cache2 },
      w := { w4 with draws := w4.draws + 1 + 1 } },
    ?_, rfl, hA ▸ (List.mem_iff_getElem?.mpr ⟨_, hh1⟩ : h1 ∈ hostsA),
    hB ▸ (List.mem_iff_getElem?.mpr ⟨_, hh2⟩ : h2 ∈ hostsB), ?_, rfl, ?_⟩
  · rw [hsplit]
    simp only [run_append, b1, b2, b3, b4, b5, b6, b7, b8, Option.some_bind]
  · rw [hW]
  · rw [hC]
    simp [mapAssign, List.lookup, Nat.add_assoc, hB]

/-- The sum of a function that is zero at every element of a list. -/
theorem sum_map_zero (f : Caller → Nat) (l : List Caller) (h : ∀ c ∈ l, f c = 0) :
    (l.map f).sum = 0 := by
  induction l with
  | nil => rfl
  | cons a l ih =>
    simp only [List.map_cons, List.sum_cons, h a (List.mem_cons_self _ _),
      ih (fun c hc => h c (List.mem_cons_of_mem _ hc))]

/-- When every caller has returned, the mutex of a consistent system is
free. -/
theorem consistent_done (s : System) (h : s.consistent)
    (hd : ∀ c ∈ s.callers, ∃ o, c = .done o) :
    s.m.mtx = { readers := 0, writer := false } := by
  obtain ⟨h1, h2, _⟩ := h
  have hr : (s.callers.map Caller.holdsRead).sum = 0 :=
    sum_map_zero _ _ (fun c hc => by obtain ⟨o, rfl⟩ := hd c hc; rfl)
  have hw : (s.callers.map Caller.holdsWrite).sum = 0 :=
    sum_map_zero _ _ (fun c hc => by obtain ⟨o, rfl⟩ := hd c hc; rfl)
  rw [hr] at h1
  rw [hw] at h2
  cases hm : s.m.mtx with
  | mk readers writer =>
    rw [hm] at h1 h2
    simp only at h1 h2
    cases writer with
    | true => simp at h2
    | false => rw [h1]

/-- C27: the lock discipline of the dynamic resolver, with the state of the
mutex made explicit and GetHost and resolveService executed statement by
statement. From a mapper whose mutex is free, every schedule of any number of
callers, a single one included, runs without the fatal error of releasing a
lock that is not held and keeps the mutex consistent with where the callers
stand; in a consistent system a caller that stands at the assignment to the
cache (or at the statement before or after it) finds the mutex with its
writer and no reader, a caller that stands inside GetHost outside the
upgrade (so at the entry of resolveService and after each of its returns, by
a registry error, by ServiceNotFound or by success) finds a reader and no
writer, and the cache is changed by the assignment alone, made while the
write lock is held; when every caller has returned the mutex is free. A
single caller has at every moment exactly the locks of the mutex, and it
returns within nineteen statements with what GetHost returns, the mutex free.
The calls on the mutex are those of the source: resolveService entered with
the read lock held returns with it held, with an item or an error; entered
without a read lock it ends, for a known service type, by the fatal error of
RUnlock; entered with two read locks it blocks at Lock with one read lock
left and the cache unchanged; and GetHost blocks when the write lock is
held. -/
theorem C27_lock_discipline (svc : GoString) (m : dynamicServiceMapper) (w : World) :
    (m.mtx = { readers := 0, writer := false } → ∀ (n : Nat) (schedule : List Nat),
      ∃ s, System.run svc schedule { callers := List.replicate n .start, m := m, w := w }
          = some s ∧ s.consistent) ∧
    (∀ s : System, s.consistent → ∀ (i : Nat) (c : Caller), s.callers[i]? = some c →
      (c.holdsWrite = 1 → s.m.mtx = { readers := 0, writer := true }) ∧
      (c.holdsRead = 1 → s.m.mtx.writer = false ∧ 1 ≤ s.m.mtx.readers)) ∧
    (∀ (s s2 : System) (i : Nat), s.consistent → s.step svc i = some s2 →
      s2.m.serviceHost ≠ s.m.serviceHost →
      s.m.mtx = { readers := 0, writer := true } ∧
      ∃ again item, s.callers[i]? = some (.store again item) ∧
        s2.m.serviceHost = mapAssign s.m.serviceHost svc item) ∧
    (∀ s : System, s.consistent → (∀ c ∈ s.callers, ∃ o, c = .done o) →
      s.m.mtx = { readers := 0, writer := false }) ∧
    (m.mtx = { readers := 0, writer := false } → ∀ k : Nat,
      ∃ c m2 w2, System.run svc (List.replicate k 0) { callers := [.start], m := m, w := w }
          = some { callers := [c], m := m2, w := w2 } ∧
        m2.mtx = { readers := c.holdsRead, writer := decide (c.holdsWrite = 1) }) ∧
    (m.mtx = { readers := 0, writer := false } → ∀ fuel : Nat, 19 ≤ fuel →
      System.run svc (List.replicate fuel 0) { callers := [.start], m := m, w := w }
        = some { callers := [.done (m.GetHost w svc).1], m := (m.GetHost w svc).2.1,
                 w := (m.GetHost w svc).2.2 } ∧
      (m.GetHost w svc).2.1.mtx = { readers := 0, writer := false }) ∧
    (m.mtx = { readers := 1, writer := false } →
      (m.resolveService w svc).2.1.mtx = { readers := 1, writer := false } ∧
      ((∃ item, (m.resolveService w svc).1 = .ok item) ∨
        ∃ err, (m.resolveService w svc).1 = .error err)) ∧
    (∀ resp, w.registry w.queries svc = .ok resp →
      resp.Services.Type_ = strobj.Type_.Object →
      (m.mtx = { readers := 0, writer := false } →
        (m.resolveService w svc).1 = .panic (str "sync: RUnlock of unlocked RWMutex")) ∧
      (m.mtx = { readers := 2, writer := false } →
        (m.resolveService w svc).1 = .blocked ∧
        (m.resolveService w svc).2.1.mtx = { readers := 1, writer := false } ∧
        (m.resolveService w svc).2.1.serviceHost = m.serviceHost)) ∧
    (m.mtx.writer = true → (m.GetHost w svc).1 = .blocked) := by
  refine ⟨?_, ?_, ?_, ?_, ?_, ?_, ?_, ?_, ?_⟩
  · intro hidle n schedule
    exact run_consistent svc schedule _ (start_consistent n m w hidle)
  · intro s hs i c hc
    exact consistent_at s hs i c hc
  · intro s s2 i hs hstep hne
    obtain ⟨again, item, hc, hm⟩ := step_cache svc i s s2 hstep hne
    exact ⟨(consistent_at s hs i _ hc).1 rfl, again, item, hc, hm⟩
  · intro s hs hd
    exact consistent_done s hs hd
  · intro hidle k
    obtain ⟨s, hrun, hcons⟩ := run_consistent svc (List.replicate k 0)
      { callers := [.start], m := m, w := w } (start_consistent 1 m w hidle)
    rw [run_replicate svc 0 k [.start] .start m w rfl] at hrun
    cases hr : Caller.runAlone svc k .start m w with
    | none => rw [hr] at hrun; exact Option.noConfusion hrun
    | some r =>
      rw [hr] at hrun
      simp only [Option.map_some', Option.some.injEq, List.set_cons_zero] at hrun
      subst hrun
      refine ⟨r.1, r.2.1, r.2.2, ?_, ?_⟩
      · rw [run_replicate svc 0 k [.start] .start m w rfl, hr]
        rfl
      · obtain ⟨h1, h2, _⟩ := hcons
        simp only [List.map_cons, List.map_nil, List.sum_cons, List.sum_nil,
          Nat.add_zero] at h1 h2
        cases hm : r.2.1.mtx with
        | mk readers writer =>
          rw [hm] at h1 h2
          simp only at h1 h2
          rw [← h1, h2]
          cases writer <;> rfl
  · intro hidle fuel hf
    refine ⟨?_, (GetHost_unlocked m w svc hidle).1⟩
    rw [run_replicate svc 0 fuel [.start] .start m w rfl,
      runAlone_GetHost svc m w hidle fuel hf]
    rfl
  · intro hl
    exact resolveService_locked m w svc hl
  · intro resp hq hty
    constructor
    · intro h0
      simp [dynamicServiceMapper.resolveService, hq, hty, h0, RWMutex.RUnlock]
    · intro h2
      simp [dynamicServiceMapper.resolveService, hq, hty, h2, RWMutex.RUnlock, RWMutex.Lock]
  · intro hw
    simp [dynamicServiceMapper.GetHost, RWMutex.RLock, hw]

/-- C27 on a fresh mapper answered with the single host: a caller alone
returns that host within nineteen statements and leaves the mutex free, and
two callers that take turns end without a fatal error. -/
theorem C27_lock_discipline_witness :
    (System.run (str "org.opencastproject.ingest") (List.replicate 19 0)
        { callers := [.start], m := NewDynamicServiceMapper (60 * 1000000000),
          w := steadyWorld (.ok oneHost) }).map (fun s => (s.callers, s.m.mtx))
      = some ([.done (.ok (str "https://admin.opencast.org"))],
          { readers := 0, writer := false }) ∧
    ∃ s, System.run (str "org.opencastproject.ingest") takingTurns
        { callers := List.replicate 2 .start, m := NewDynamicServiceMapper (60 * 1000000000),
          w := steadyWorld (.ok oneHost) } = some s ∧ s.consistent := by
  have h := C27_lock_discipline (str "org.opencastproject.ingest")
    (NewDynamicServiceMapper (60 * 1000000000)) (steadyWorld (.ok oneHost))
  refine ⟨?_, h.1 rfl 2 takingTurns⟩
  rw [(h.2.2.2.2.2.1 rfl 19 (le_refl _)).1]
  decide

/-- C26, the claim as stated fails: two callers resolve the service at
1700000100 s on the mapper whose entry expired at 1700000060 s; they take
turns so that both read the expired entry before either stores its refresh;
both return a host, the mutex is free, and two registry queries have been
issued, not one. -/
theorem C26_two_callers_two_queries :
    cachedMapper.serviceHost.lookup (str "org.opencastproject.ingest")
        = some { hosts := [str "https://admin.opencast.org"], expired := 1700000060 } ∧
      (System.run (str "org.opencastproject.ingest") takingTurns
          { callers := [.start, .start], m := cachedMapper,
            w := worldAt (1700000100 * 1000000000) (.ok oneHost) 0 }).map
        (fun s => (s.callers, s.w.queries, s.m.mtx))
      = some ([.done (.ok (str "https://admin.opencast.org")),
                .done (.ok (str "https://admin.opencast.org"))],
          2, { readers := 0, writer := false }) := by
  refine ⟨by decide, by decide⟩

/-- C26, amended: the resolver has no single-flight. For callers of GetHost
for a service that has an entry in the cache of an idle mapper, every
schedule of n callers runs without a fatal error and issues at most n
registry queries, one per caller. When the entry has expired and the
registry answers with a known service type with at least one host: callers
that run one after the other issue exactly one query, the later callers
being served from the refreshed entry as long as it has not expired, and all
return hosts of that answer; two callers that take turns, so that both check
the expired entry before either stores its refresh, issue two queries, each
returns a host of the answer to its own query, and the entry stored last
stays in the cache. -/
theorem C26_one_query_per_caller (svc : GoString) (m : dynamicServiceMapper) (w : World)
    (svcItem : dynamicServiceItem)
    (hidle : m.mtx = { readers := 0, writer := false })
    (hentry : m.serviceHost.lookup svc = some svcItem) :
    (∀ (n : Nat) (schedule : List Nat),
      ∃ s, System.run svc schedule { callers := List.replicate n .start, m := m, w := w }
          = some s ∧ s.w.queries ≤ w.queries + n) ∧
    (∀ (resp : serviceregistry.AvailableServicesResponse) (n fuel : Nat), 19 ≤ fuel →
      Unix (w.clock w.readings) > svcItem.expired →
      w.registry w.queries svc = .ok resp →
      resp.Services.Type_ = strobj.Type_.Object →
      resolveService.hosts resp.Services.ObjectVal ≠ [] →
      (∀ i, i < n → Unix (w.clock (w.readings + 2 + i))
        ≤ Unix (w.clock (w.readings + 1) + m.itemTTL)) →
      ∃ s, System.run svc (oneByOne fuel 0 (n + 1))
          { callers := List.replicate (n + 1) .start, m := m, w := w } = some s ∧
        s.w.queries = w.queries + 1 ∧
        s.callers.length = n + 1 ∧
        ∀ c ∈ s.callers, ∃ h, h ∈ resolveService.hosts resp.Services.ObjectVal ∧
          c = .done (.ok h)) ∧
    (∀ (resp1 resp2 : serviceregistry.AvailableServicesResponse),
      Unix (w.clock w.readings) > svcItem.expired →
      Unix (w.clock (w.readings + 1)) > svcItem.expired →
      w.registry w.queries svc = .ok resp1 →
      w.registry (w.queries + 1) svc = .ok resp2 →
      resp1.Services.Type_ = strobj.Type_.Object →
      resp2.Services.Type_ = strobj.Type_.Object →
      resolveService.hosts resp1.Services.ObjectVal ≠ [] →
      resolveService.hosts resp2.Services.ObjectVal ≠ [] →
      ∃ h1 h2 s, System.run svc takingTurns { callers := [.start, .start], m := m, w := w }
          = some s ∧
        s.callers = [.done (.ok h1), .done (.ok h2)] ∧
        h1 ∈ resolveService.hosts resp1.Services.ObjectVal ∧
        h2 ∈ resolveService.hosts resp2.Services.ObjectVal ∧
        s.w.queries = w.queries + 2 ∧
        s.m.mtx = { readers := 0, writer := false } ∧
        s.m.serviceHost.lookup svc
          = some { hosts := resolveService.hosts resp2.Services.ObjectVal,
                   expired := Unix (w.clock (w.readings + 3) + m.itemTTL) }) := by
  refine ⟨?_, ?_, ?_⟩
  · intro n schedule
    obtain ⟨s, hrun, _⟩ := run_consistent svc schedule
      { callers := List.replicate n .start, m := m, w := w } (start_consistent n m w hidle)
    refine ⟨s, hrun, ?_⟩
    have hb := (run_ahead svc schedule _ s hrun ⟨svcItem, hentry⟩).2
    have hsum : ((List.replicate n Caller.start).map Caller.queriesAhead).sum = n := by
      simp [Caller.queriesAhead]
    simp only [hsum] at hb
    omega
  · intro resp n fuel hf hexp hq hty hne hfresh
    have hrun := run_oneByOne svc fuel hf (n + 1) [] m w hidle
    simp only [List.length_nil, List.nil_append] at hrun
    obtain ⟨h, hmem, hg⟩ := GetHost_refresh m w svc svcItem resp hidle hentry hexp hq hty hne
    obtain ⟨c1, c2, c3, c4⟩ := calls_fresh
      { m with
        serviceHost := mapAssign m.serviceHost svc
          { hosts := resolveService.hosts resp.Services.ObjectVal,
            expired := Unix (w.clock (w.readings + 1) + m.itemTTL) } }
      svc
      { hosts := resolveService.hosts resp.Services.ObjectVal,
        expired := Unix (w.clock (w.readings + 1) + m.itemTTL) }
      hidle (by simp [mapAssign, List.lookup]) hne n
      { w with readings := w.readings + 1 + 1, queries := w.queries + 1, draws := w.draws + 1 }
      (fun i hi => by simpa [Nat.add_assoc] using hfresh i hi)
    refine ⟨_, hrun, ?_, ?_, ?_⟩
    · simp only [dynamicServiceMapper.GetHost.calls, hg]
      exact c4
    · simp only [dynamicServiceMapper.GetHost.calls, hg, List.length_map, List.length_cons, c2]
    · intro c hc
      simp only [dynamicServiceMapper.GetHost.calls, hg, List.map_cons, List.mem_cons,
        List.mem_map] at hc
      rcases hc with rfl | ⟨o, ho, rfl⟩
      · exact ⟨h, hmem, rfl⟩
      · obtain ⟨h2, hm2, rfl⟩ := c1 o ho
        exact ⟨h2, hm2, rfl⟩
  · intro resp1 resp2 hexp1 hexp2 hq1 hq2 hty1 hty2 hne1 hne2
    exact run_takingTurns svc m w svcItem resp1 resp2 hidle hentry hexp1 hexp2 hq1 hq2
      hty1 hty2 hne1 hne2

/-- C26, amended, on the mapper whose entry expired at 1700000060 s, at
1700000100 s: three callers that run one after the other issue one query. -/
theorem C26_one_query_per_caller_witness :
    ∃ s, System.run (str "org.opencastproject.ingest") (oneByOne 19 0 3)
        { callers := List.replicate 3 .start, m := cachedMapper,
          w := worldAt (1700000100 * 1000000000) (.ok threeHosts) 1 } = some s ∧
      s.w.queries = 1 ∧ s.callers.length = 3 := by
  obtain ⟨s, h1, h2, h3, _⟩ := (C26_one_query_per_caller (str "org.opencastproject.ingest")
    cachedMapper (worldAt (1700000100 * 1000000000) (.ok threeHosts) 1)
    { hosts := [str "https://admin.opencast.org"], expired := 1700000060 }
    (by decide) (by decide)).2.1 threeHosts 2 19 (le_refl _) (by decide) rfl rfl (by decide)
    (fun i _ => show Unix (1700000100 * 1000000000)
      ≤ Unix (1700000100 * 1000000000 + 60 * 1000000000) by decide)
  exact ⟨s, h1, h2, h3⟩

/-! ## C24 and C28: the client -/

/-- C24, code bug: New installs the option that sets User-Agent, but the
client option WithRequestOptions replaces the client-wide request options
instead of adding to them, so the option is lost. On the client of the
example of the repository, built with
WithRequestOptions(WithBasicAuth("admin", "opencast")), the outbound call of
a GET request carries the header Authorization alone and no User-Agent,
while on a client built by New without options the same request carries
User-Agent: OpencastGoClient/1.0. -/
theorem C24_WithRequestOptions_drops_user_agent :
    (∀ (zeroHTTP : http.Client) (sm : ServiceMapper) (opts : List RequestOpts),
      ∃ c, New zeroHTTP sm [WithRequestOptions opts] = .ok c ∧ c.reqOpts = opts) ∧
    (∃ c req httpReq, exampleClient = .ok c ∧ eventsRequest = .ok req ∧
      (c.Do plainNet noFiles req).2 = some httpReq ∧
      httpReq.Header = some [(str "Authorization", [str "Basic YWRtaW46b3BlbmNhc3Q="])] ∧
      (httpReq.Header.getD []).lookup (str "User-Agent") = none ∧
      http.Header.Get (httpReq.Header.getD []) (str "User-Agent") = []) ∧
    (∃ c req httpReq, New okHTTP stableOpencast.GetHost [] = .ok c ∧ eventsRequest = .ok req ∧
      (c.Do plainNet noFiles req).2 = some httpReq ∧
      http.Header.Get (httpReq.Header.getD []) (str "User-Agent")
        = str "OpencastGoClient/1.0") := by
  refine ⟨fun zeroHTTP sm opts => ⟨_, rfl, rfl⟩, ?_, ?_⟩
  · exact ⟨_, _, _, rfl, rfl, rfl, by decide, by decide, by decide⟩
  · exact ⟨_, _, _, rfl, rfl, rfl, by decide⟩

/-- What an outbound call built by Request.HTTPRequest is made of: its URL
is the text of the URL of the request, and its header map is that of the
request, with Content-Type set to the content type of the body when the body
declares one. -/
theorem HTTPRequest_ok_shape (net : NetLib) (fs : FileSystem) (req : Request)
    (sm : ServiceMapper) (httpReq : http.Request)
    (h : (req.HTTPRequest net fs sm).1 = .ok httpReq) :
    ∃ u, req.URL net sm = .ok u ∧ httpReq.URL = net.String u ∧
      (httpReq.GetBody.ContentType = [] → httpReq.Header = req.Header) ∧
      (httpReq.GetBody.ContentType ≠ [] → ∃ hd, req.Header = some hd ∧
        httpReq.Header
          = some (MIMEHeader.Set hd (str "Content-Type") httpReq.GetBody.ContentType)) := by
  have hcanon : textproto.CanonicalMIMEHeaderKey (str "Content-Type") = str "Content-Type" := by
    decide
  unfold Request.HTTPRequest at h
  cases hu : req.URL net sm with
  | error err => simp [hu] at h
  | ok u =>
    simp only [hu] at h
    generalize ((req.Body.getD NoBody).Reader fs) = rd at h
    obtain ⟨o, body1⟩ := rd
    cases o with
    | error err => simp at h
    | ok body =>
      simp only at h
      cases hn : net.NewRequestWithContext req.Ctx req.Method (net.String u) with
      | some err => simp [hn] at h
      | none =>
        simp only [hn] at h
        by_cases hct : (body1.Len fs).2.ContentType = []
        · simp only [hct, ne_eq, not_true_eq_false, if_false] at h
          have he := Outcome.ok.inj h
          subst he
          exact ⟨u, rfl, rfl, fun _ => rfl, fun hne => (hne hct).elim⟩
        · simp only [ne_eq, hct, not_false_eq_true, if_true] at h
          cases hh : req.Header with
          | none => simp [hh, http.Header.Set] at h
          | some hd =>
            simp only [hh, http.Header.Set, hcanon] at h
            have he := Outcome.ok.inj h
            subst he
            exact ⟨u, rfl, rfl, fun hc => (hct hc).elim, fun _ => ⟨hd, rfl, rfl⟩⟩

/-- What a function reads from a request is the same after a list of options
as before, when every option of the list leaves it as it is. -/
theorem ApplyOptions_preserves {α : Type} (f : Request → α) (opts : List RequestOpts)
    (hk : ∀ opt ∈ opts, ∀ r r2, opt r = .ok r2 → f r2 = f r) :
    ∀ (req req2 : Request), req.ApplyOptions opts = .ok req2 → f req2 = f req := by
  induction opts with
  | nil =>
    intro req req2 h
    simp only [Request.ApplyOptions] at h
    rw [Outcome.ok.inj h]
  | cons opt opts ih =>
    intro req req2 h
    simp only [Request.ApplyOptions] at h
    cases ho : opt req with
    | ok r =>
      rw [ho] at h
      simp only at h
      rw [ih (fun o hin => hk o (List.mem_cons_of_mem _ hin)) r req2 h]
      exact hk opt (List.mem_cons_self _ _) req r ho
    | error err => rw [ho] at h; exact Outcome.noConfusion h
    | panic msg => rw [ho] at h; exact Outcome.noConfusion h
    | blocked => rw [ho] at h; exact Outcome.noConfusion h

/-- A list of options with one option in its middle, applied with success:
the request before that option, the request after it, and the last request
is reached from that one by the options that follow. -/
theorem ApplyOptions_middle (req req2 : Request) (pre post : List RequestOpts)
    (opt : RequestOpts) (h : req.ApplyOptions (pre ++ [opt] ++ post) = .ok req2) :
    ∃ r1 r2, req.ApplyOptions pre = .ok r1 ∧ opt r1 = .ok r2 ∧
      r2.ApplyOptions post = .ok req2 := by
  rw [List.append_assoc, ApplyOptions_append] at h
  cases h1 : req.ApplyOptions pre with
  | ok r1 =>
    rw [h1] at h
    simp only [List.singleton_append, Request.ApplyOptions] at h
    cases h2 : opt r1 with
    | ok r2 =>
      rw [h2] at h
      exact ⟨r1, r2, rfl, h2, h⟩
    | error err => rw [h2] at h; exact Outcome.noConfusion h
    | panic msg => rw [h2] at h; exact Outcome.noConfusion h
    | blocked => rw [h2] at h; exact Outcome.noConfusion h
  | error err => rw [h1] at h; exact Outcome.noConfusion h
  | panic msg => rw [h1] at h; exact Outcome.noConfusion h
  | blocked => rw [h1] at h; exact Outcome.noConfusion h

/-- C28, the claim as stated fails for the header Content-Type: the request
was built with the option that sets Content-Type to text/plain, the
client-wide option sets it to text/csv, and the outbound call carries
application/json, the content type of the body. -/
theorem C28_content_type_of_body_wins :
    ∃ c req httpReq, csvClient = .ok c ∧ plainTextRequest = .ok req ∧
      (c.Do plainNet noFiles req).2 = some httpReq ∧
      http.Header.Get (req.Header.getD []) (str "Content-Type") = str "text/plain" ∧
      c.reqOpts.length = 1 ∧
      http.Header.Get (httpReq.Header.getD []) (str "Content-Type") = str "application/json" ∧
      http.Header.Get (httpReq.Header.getD []) (str "Content-Type") ≠ str "text/csv" :=
  ⟨_, _, _, rfl, rfl, rfl, by decide, rfl, by decide, by decide⟩

/-- C28, amended: client.Do applies the client-wide request options to the
request as it was built, so after the options of the request itself, and
hands the call built from the result to the HTTP client. For a header key
that a client-wide option sets (no later client-wide option changing it), the
outbound call carries the client-wide value, except that for the key
Content-Type it carries the content type of the body when the body declares
one; for a query key that a client-wide option sets, the query of the
outbound URL is the encoding of a query that has the client-wide value. -/
theorem C28_client_options_applied_last (net : NetLib) (fs : FileSystem) (c : client)
    (req req2 : Request) (httpReq : http.Request) (k v : GoString)
    (pre post : List RequestOpts)
    (happly : req.ApplyOptions c.reqOpts = .ok req2)
    (hcall : (req2.HTTPRequest net fs c.sm).1 = .ok httpReq) :
    (c.Do net fs req).2 = some httpReq ∧
    (∀ ctx method service path body ropts,
      NewRequest ctx method service path body ropts = .ok req →
      NewRequest ctx method service path body (ropts ++ c.reqOpts) = .ok req2) ∧
    (c.reqOpts = pre ++ [WithHeader k v] ++ post →
      (∀ opt ∈ post, ∀ r r2, opt r = .ok r2 →
        http.Header.Get (r2.Header.getD []) k = http.Header.Get (r.Header.getD []) k) →
      http.Header.Get (req2.Header.getD []) k = v ∧
      (textproto.CanonicalMIMEHeaderKey k ≠ str "Content-Type" ∨
          httpReq.GetBody.ContentType = [] →
        http.Header.Get (httpReq.Header.getD []) k = v) ∧
      (textproto.CanonicalMIMEHeaderKey k = str "Content-Type" →
          httpReq.GetBody.ContentType ≠ [] →
        http.Header.Get (httpReq.Header.getD []) k = httpReq.GetBody.ContentType)) ∧
    (c.reqOpts = pre ++ [WithQuery k v] ++ post →
      (∀ opt ∈ post, ∀ r r2, opt r = .ok r2 →
        url.Values.Get (r2.Query.getD []) k = url.Values.Get (r.Query.getD []) k) →
      url.Values.Get (req2.Query.getD []) k = v ∧
      ∃ u, req2.URL net c.sm = .ok u ∧
        u.RawQuery = url.Values.Encode (req2.Query.getD []) ∧
        httpReq.URL = net.String u) := by
  obtain ⟨u, hu, hurl, hplain, htyped⟩ := HTTPRequest_ok_shape net fs req2 c.sm httpReq hcall
  refine ⟨?_, ?_, ?_, ?_⟩
  · simp only [client.Do, happly, hcall]
    cases c.http httpReq <;> rfl
  · intro ctx method service path body ropts hnew
    unfold NewRequest at hnew ⊢
    rw [ApplyOptions_append, hnew]
    exact happly
  · intro hopts hpost
    rw [hopts] at happly
    obtain ⟨r1, r2, _, hset, hrest⟩ := ApplyOptions_middle req req2 pre post _ happly
    have h2 : http.Header.Get (r2.Header.getD []) k = v := by
      unfold WithHeader http.Header.Set at hset
      cases hh : r1.Header with
      | none => rw [hh] at hset; exact Outcome.noConfusion hset
      | some hd =>
        rw [hh] at hset
        simp only at hset
        rw [← Outcome.ok.inj hset]
        simp [http.Header.Get, Get_Set]
    have h3 : http.Header.Get (req2.Header.getD []) k = v := by
      rw [ApplyOptions_preserves (fun r => http.Header.Get (r.Header.getD []) k) post hpost
        r2 req2 hrest]
      exact h2
    refine ⟨h3, ?_, ?_⟩
    · intro hcase
      by_cases hct : httpReq.GetBody.ContentType = []
      · rw [hplain hct]; exact h3
      · have hne : textproto.CanonicalMIMEHeaderKey k ≠ str "Content-Type" := by
          rcases hcase with hc | hc
          · exact hc
          · exact (hct hc).elim
        obtain ⟨hd, hhd, hset2⟩ := htyped hct
        rw [hset2, ← h3, hhd]
        have hb : (textproto.CanonicalMIMEHeaderKey k == str "Content-Type") = false := by
          simpa using hne
        simp [http.Header.Get, MIMEHeader.Get, MIMEHeader.Set, List.lookup, hb,
          lookup_filter_ne hd (str "Content-Type") _ hne]
    · intro hkey hct
      obtain ⟨hd, _, hset2⟩ := htyped hct
      rw [hset2]
      simp [http.Header.Get, hkey, Get_Set]
  · intro hopts hpost
    rw [hopts] at happly
    obtain ⟨r1, r2, _, hset, hrest⟩ := ApplyOptions_middle req req2 pre post _ happly
    have h2 : url.Values.Get (r2.Query.getD []) k = v := by
      unfold WithQuery at hset
      cases hq : r1.Query with
      | none => rw [hq] at hset; exact Outcome.noConfusion hset
      | some q =>
        rw [hq] at hset
        simp only at hset
        rw [← Outcome.ok.inj hset]
        simp [url.Values.Get, (Values_Set_Del q k v).1]
    refine ⟨?_, u, hu, ?_, hurl⟩
    · rw [ApplyOptions_preserves (fun r => url.Values.Get (r.Query.getD []) k) post hpost
        r2 req2 hrest]
      exact h2
    · unfold Request.URL at hu
      cases hs : c.sm req2.Service with
      | error err => rw [hs] at hu; exact Except.noConfusion hu
      | ok host =>
        rw [hs] at hu
        simp only at hu
        cases hp : net.Parse host with
        | error err => rw [hp] at hu; exact Except.noConfusion hu
        | ok u0 =>
          rw [hp] at hu
          simp only at hu
          rw [← Except.ok.inj hu]

/-- C28, amended, on a client whose options set X-Tenant to b and limit to
20 and a request built with X-Tenant set to a and limit set to 10: the
outbound call carries X-Tenant: b and the query limit=20. -/
theorem C28_client_options_applied_last_witness :
    ∃ httpReq, (tenantClient.Do plainNet noFiles tenantRequest).2 = some httpReq ∧
      http.Header.Get (httpReq.Header.getD []) (str "X-Tenant") = str "b" ∧
      httpReq.URL = str "https://stable.opencast.org/api/events?limit=20" := by
  have h := C28_client_options_applied_last plainNet noFiles tenantClient tenantRequest
    (⟨some (), str "GET", str "org.opencastproject.external", str "/api/events",
      some [(str "limit", [str "20"])], some [(str "X-Tenant", [str "b"])], some NoBody⟩ : Request)
    (⟨str "GET", str "https://stable.opencast.org/api/events?limit=20", ⟨[], none, none⟩,
      NoBody, 0, some [(str "X-Tenant", [str "b"])]⟩ : http.Request)
    (str "X-Tenant") (str "b") [] [WithQuery (str "limit") (str "20")]
    (by decide) (by decide)
  have hpost : ∀ opt ∈ [WithQuery (str "limit") (str "20")], ∀ r r2, opt r = .ok r2 →
      http.Header.Get (r2.Header.getD []) (str "X-Tenant")
        = http.Header.Get (r.Header.getD []) (str "X-Tenant") := by
    intro opt hin r r2 ho
    rw [List.mem_singleton] at hin
    subst hin
    unfold WithQuery at ho
    cases hq : r.Query with
    | none => rw [hq] at ho; exact Outcome.noConfusion ho
    | some q =>
      rw [hq] at ho
      simp only at ho
      rw [← Outcome.ok.inj ho]
  exact ⟨_, h.1, (h.2.2.1 rfl hpost).2.1 (Or.inl (by decide)), rfl⟩

/-- The request tenantRequest is what NewRequest builds, and the client
tenantClient is what New returns. -/
theorem tenant_samples_built :
    NewRequest (some ()) (str "GET") (str "org.opencastproject.external") (str "/api/events")
        (some NoBody) [WithHeader (str "X-Tenant") (str "a"), WithQuery (str "limit") (str "10")]
      = .ok tenantRequest ∧
    ∃ c, New okHTTP stableOpencast.GetHost
        [WithRequestOptions [WithHeader (str "X-Tenant") (str "b"),
          WithQuery (str "limit") (str "20")]] = .ok c ∧
      c.reqOpts = tenantClient.reqOpts :=
  ⟨by decide, _, rfl, rfl⟩

/-! ## C29: the search options of the series -/

/-- C29, code bug: WithSeriesSearchOptions.Apply sets three query parameters
from the wrong fields and the value of a fourth from the wrong field. On a
request with an empty query: the field SeriesID alone sets fuzzyMatch and no
seriesId; the field Edit alone sets seriesId=true and no edit; the field
FuzzyMatch alone sets edit=true and no fuzzyMatch; the field CreatedTo alone
sets createdto to the text of CreatedFrom, the zero time. The neighbouring
fields are set from the field of the same name, as seriesTitle and
createdfrom show, and the zero options set nothing. -/
theorem C29_series_search_keys_shifted :
    (∀ (s : GoString) (r : Request) (q : MIMEHeader), s ≠ [] → r.Query = some q →
      WithSeriesSearchOptions.Apply { WithSeriesSearchOptions.zero with SeriesID := s } r
        = .ok { r with Query := some (url.Values.Set q (str "fuzzyMatch") s) }) ∧
    WithSeriesSearchOptions.Apply { WithSeriesSearchOptions.zero with SeriesID := str "abc" }
        seriesRequest
      = .ok { seriesRequest with Query := some [(str "fuzzyMatch", [str "abc"])] } ∧
    WithSeriesSearchOptions.Apply { WithSeriesSearchOptions.zero with Edit := true }
        seriesRequest
      = .ok { seriesRequest with Query := some [(str "seriesId", [str "true"])] } ∧
    WithSeriesSearchOptions.Apply { WithSeriesSearchOptions.zero with FuzzyMatch := true }
        seriesRequest
      = .ok { seriesRequest with Query := some [(str "edit", [str "true"])] } ∧
    WithSeriesSearchOptions.Apply { WithSeriesSearchOptions.zero with CreatedTo := jan2 }
        seriesRequest
      = .ok { seriesRequest with
          Query := some [(str "createdto", [str "0001-01-01T00:00:00Z"])] } ∧
    WithSeriesSearchOptions.Apply { WithSeriesSearchOptions.zero with CreatedFrom := jan2 }
        seriesRequest
      = .ok { seriesRequest with
          Query := some [(str "createdfrom", [str "2024-01-02T03:04:05Z"])] } ∧
    WithSeriesSearchOptions.Apply
        { WithSeriesSearchOptions.zero with SeriesTitle := str "Cats" } seriesRequest
      = .ok { seriesRequest with Query := some [(str "seriesTitle", [str "Cats"])] } ∧
    WithSeriesSearchOptions.Apply
        { WithSeriesSearchOptions.zero with Offset := 20 } seriesRequest
      = .ok { seriesRequest with Query := some [(str "offset", [str "20"])] } ∧
    WithSeriesSearchOptions.Apply WithSeriesSearchOptions.zero seriesRequest
      = .ok seriesRequest := by
  refine ⟨?_, by decide, by decide, by decide, by decide, by decide, by decide, by decide,
    by decide⟩
  intro s r q hs hq
  simp [WithSeriesSearchOptions.Apply, WithSeriesSearchOptions.opts,
    WithSeriesSearchOptions.zero, time.Time.zero, hs, Request.ApplyOptions, WithQuery, hq]

/-! ## C30: the header block and the names given by the caller -/

/-- The CRLF sequences of two strings in a row are those of the two strings,
unless the first ends in a CR and the second starts with an LF. -/
theorem countCRLF_append (s t : GoString) (h : s.getLast? ≠ some 13 ∨ t.head? ≠ some 10) :
    countCRLF (s ++ t) = countCRLF s + countCRLF t := by
  induction s with
  | nil => simp [countCRLF]
  | cons c s ih =>
    cases s with
    | nil =>
      have hno : ¬ (c = 13 ∧ t.head? = some 10) := by
        rintro ⟨hc, ht⟩
        rcases h with h | h
        · exact h (by simp [hc])
        · exact h ht
      simp [countCRLF, hno]
    | cons d s =>
      have ih2 := ih (by simpa [List.getLast?_cons_cons] using h)
      have hhead : ((d :: s) ++ t).head? = (d :: s).head? := rfl
      simp only [List.cons_append] at ih2 hhead ⊢
      rw [countCRLF, countCRLF.eq_2 c (d :: s), ih2, hhead]
      omega

/-- The first byte of an escaped string is an LF exactly when the first byte
of the string is. -/
theorem EscapeQuotes_head (s : GoString) :
    (EscapeQuotes s).head? = some 10 ↔ s.head? = some 10 := by
  cases s with
  | nil => simp [EscapeQuotes]
  | cons c s =>
    by_cases h1 : c = 92
    · subst h1; simp [EscapeQuotes, List.flatMap_cons]
    · by_cases h2 : c = 34
      · subst h2; simp [EscapeQuotes, List.flatMap_cons]
      · simp [EscapeQuotes, List.flatMap_cons, h1, h2]

/-- The function EscapeQuotes neither removes nor adds a CRLF sequence. -/
theorem countCRLF_EscapeQuotes (s : GoString) : countCRLF (EscapeQuotes s) = countCRLF s := by
  induction s with
  | nil => rfl
  | cons c s ih =>
    have hcons : EscapeQuotes (c :: s)
        = (if c = 92 then [92, 92] else if c = 34 then [92, 34] else [c]) ++ EscapeQuotes s := by
      simp [EscapeQuotes, List.flatMap_cons]
    rw [hcons]
    by_cases h1 : c = 92
    · subst h1
      simp [countCRLF, ih]
    · by_cases h2 : c = 34
      · subst h2
        simp [countCRLF, ih]
      · simp only [h1, h2, if_false, List.singleton_append, countCRLF, ih]
        by_cases h3 : c = 13
        · simp only [h3, true_and, EscapeQuotes_head]
        · simp [h3]

/-- The CRLF sequences of a string between a prefix that does not end in a
CR and a suffix that does not start with an LF. -/
theorem countCRLF_wrap (front s back : GoString) (hfront : front.getLast? ≠ some 13)
    (hback : back.head? ≠ some 10) :
    countCRLF (front ++ s ++ back) = countCRLF front + countCRLF s + countCRLF back := by
  rw [countCRLF_append (front ++ s) back (Or.inr hback),
    countCRLF_append front s (Or.inl hfront)]

/-- The header block of a part whose header has the single key
Content-Disposition with one value: one line. -/
theorem headerBlock_one (part : Part) (v : GoString)
    (h : part.GetHeader = MIMEHeader.Set [] (str "Content-Disposition") v) :
    headerBlock part = str "Content-Disposition" ++ str ": " ++ v ++ str "\r\n" ∧
      headerValues part = 1 := by
  simp [headerBlock, headerValues, h, MIMEHeader.Set, io.Pipe, writeHeader_open,
    MIMEHeader.Keys, slices.Sorted, MIMEHeader.Get, List.lookup]

/-- The keys of a header that has the keys Content-Disposition and
Content-Type, in ascending order. -/
theorem sorted_keys_two (v w : GoString) :
    slices.Sorted (MIMEHeader.Keys
      (MIMEHeader.Set (MIMEHeader.Set [] (str "Content-Disposition") v) (str "Content-Type") w))
      = [str "Content-Disposition", str "Content-Type"] ∧
    MIMEHeader.Keys
      (MIMEHeader.Set (MIMEHeader.Set [] (str "Content-Disposition") v) (str "Content-Type") w)
      = [str "Content-Type", str "Content-Disposition"] ∧
    (MIMEHeader.Set (MIMEHeader.Set [] (str "Content-Disposition") v) (str "Content-Type") w).Get
      (str "Content-Disposition") = [v] ∧
    (MIMEHeader.Set (MIMEHeader.Set [] (str "Content-Disposition") v) (str "Content-Type") w).Get
      (str "Content-Type") = [w] := by
  have hne : (str "Content-Disposition" != str "Content-Type") = true := by decide
  have hset : MIMEHeader.Set (MIMEHeader.Set [] (str "Content-Disposition") v)
      (str "Content-Type") w
      = [(str "Content-Type", [w]), (str "Content-Disposition", [v])] := by
    simp [MIMEHeader.Set, List.filter, hne]
  have hkeys : MIMEHeader.Keys [(str "Content-Type", [w]), (str "Content-Disposition", [v])]
      = [str "Content-Type", str "Content-Disposition"] := by
    have : ([str "Content-Type", str "Content-Disposition"] : List GoString).dedup
        = [str "Content-Type", str "Content-Disposition"] := by decide
    simpa [MIMEHeader.Keys] using this
  rw [hset, hkeys]
  refine ⟨by decide, rfl, ?_, ?_⟩
  · have hb : (str "Content-Disposition" == str "Content-Type") = false := by decide
    simp [MIMEHeader.Get, List.lookup, hb]
  · simp [MIMEHeader.Get, List.lookup]

/-- The header block of a part whose header has the keys Content-Disposition
and Content-Type with one value each: two lines. -/
theorem headerBlock_two (part : Part) (v w : GoString)
    (h : part.GetHeader
      = MIMEHeader.Set (MIMEHeader.Set [] (str "Content-Disposition") v)
          (str "Content-Type") w) :
    headerBlock part
        = (str "Content-Disposition" ++ str ": " ++ v ++ str "\r\n") ++
          (str "Content-Type" ++ str ": " ++ w ++ str "\r\n") ∧
      headerValues part = 2 := by
  obtain ⟨hs, hk, hg1, hg2⟩ := sorted_keys_two v w
  constructor
  · simp only [headerBlock, h, hs, io.Pipe, writeHeader_open, List.flatMap_cons,
      List.flatMap_nil, hg1, hg2, List.nil_append, List.append_nil]
  · simp only [headerValues, h, hk, List.map_cons, List.map_nil, hg1, hg2, List.length_cons,
      List.length_nil, List.sum_cons, List.sum_nil]
    rfl

/-- A string that ends with a non-empty suffix ends with the last byte of
the suffix. -/
theorem getLast?_append_ne (s t : GoString) (c : Nat) (ht : t.getLast? = some c)
    (hc : c ≠ 13) : (s ++ t).getLast? ≠ some 13 := by
  rw [List.getLast?_append, ht]
  simpa using hc

/-- The CRLF sequences of a header line: those of the value and the one that
ends the line, when the key holds none. -/
theorem countCRLF_line (k v : GoString) (hk : countCRLF (k ++ str ": ") = 0) :
    countCRLF (k ++ str ": " ++ v ++ str "\r\n") = countCRLF v + 1 := by
  have hfront : (k ++ str ": ").getLast? ≠ some 13 := by
    exact getLast?_append_ne _ _ 32 (by decide) (by decide)
  rw [countCRLF_append (k ++ str ": " ++ v) (str "\r\n") (Or.inr (by decide)),
    countCRLF_append (k ++ str ": ") v (Or.inl hfront), hk]
  have : countCRLF (str "\r\n") = 1 := by decide
  omega

/-- The value of Content-Disposition for a field name has the CRLF sequences
of the name. -/
theorem countCRLF_disposition (fieldname : GoString) :
    countCRLF (str "form-data; name=\"" ++ EscapeQuotes fieldname ++ str "\"")
      = countCRLF fieldname := by
  rw [countCRLF_wrap _ _ _ (by decide) (by decide), countCRLF_EscapeQuotes]
  have h1 : countCRLF (str "form-data; name=\"") = 0 := by decide
  have h2 : countCRLF (str "\"") = 0 := by decide
  omega

/-- The value of Content-Disposition for a field name and a file name has
the CRLF sequences of the two names. -/
theorem countCRLF_disposition_file (fieldname filename : GoString) :
    countCRLF (str "form-data; name=\"" ++ EscapeQuotes fieldname ++ str "\"; filename=\"" ++
          EscapeQuotes filename ++ str "\"")
      = countCRLF fieldname + countCRLF filename := by
  · have hfront : (str "form-data; name=\"" ++ EscapeQuotes fieldname
        ++ str "\"; filename=\"").getLast? ≠ some 13 :=
      getLast?_append_ne _ _ 34 (by decide) (by decide)
    rw [countCRLF_wrap _ _ _ hfront (by decide), countCRLF_wrap _ _ _ (by decide) (by decide),
      countCRLF_EscapeQuotes, countCRLF_EscapeQuotes]
    have h1 : countCRLF (str "form-data; name=\"") = 0 := by decide
    have h2 : countCRLF (str "\"; filename=\"") = 0 := by decide
    have h3 : countCRLF (str "\"") = 0 := by decide
    omega

/-- The header block of a part with the two header lines of a file or stream
part has the CRLF sequences of the two names and the two that end the
lines. -/
theorem countCRLF_block_two (part : Part) (fieldname filename : GoString)
    (h : part.GetHeader
      = MIMEHeader.Set (MIMEHeader.Set [] (str "Content-Disposition")
          (str "form-data; name=\"" ++ EscapeQuotes fieldname ++ str "\"; filename=\"" ++
            EscapeQuotes filename ++ str "\""))
          (str "Content-Type") (str "application/octet-stream")) :
    countCRLF (headerBlock part) = headerValues part + countCRLF fieldname + countCRLF filename := by
  obtain ⟨hb, hv⟩ := headerBlock_two part _ _ h
  have hc := countCRLF_disposition_file fieldname filename
  have hline2 : countCRLF (str "Content-Type" ++ str ": " ++ str "application/octet-stream"
      ++ str "\r\n") = 1 := by decide
  have hlast : (str "Content-Disposition" ++ str ": " ++
      (str "form-data; name=\"" ++ EscapeQuotes fieldname ++ str "\"; filename=\"" ++
        EscapeQuotes filename ++ str "\"") ++ str "\r\n").getLast? ≠ some 13 :=
    getLast?_append_ne _ _ 10 (by decide) (by decide)
  rw [hb, hv, countCRLF_append _ _ (Or.inl hlast), countCRLF_line _ _ (by decide), hc, hline2]
  omega

/-- C30, the claim as stated fails: the field name a CR LF X-Injected: 1
gives a header block with two CRLF sequences for its one header value, the
second line being the header line X-Injected: 1" that the caller's name
introduced. -/
theorem C30_field_name_adds_header_line :
    headerValues (FormFieldString (str "a\r\nX-Injected: 1") (str "v")) = 1 ∧
      countCRLF (headerBlock (FormFieldString (str "a\r\nX-Injected: 1") (str "v"))) = 2 ∧
      headerBlock (FormFieldString (str "a\r\nX-Injected: 1") (str "v"))
        = str "Content-Disposition: form-data; name=\"a\r\n" ++ str "X-Injected: 1\"\r\n" := by
  refine ⟨by decide, by decide, by decide⟩

/-- C30, amended: for every field name, file name, path of a file, value and
reader, the header block the encoder emits for a part built by FormField,
FormFieldString, File or Stream has one CRLF sequence for every header value
of the part and one more for every CRLF sequence in the field name and in the
file name (for File: in the last element of the path); so for names that
contain no CR directly followed by an LF it has exactly one CRLF per header
value, each at the end of its header line. -/
theorem C30_header_block_crlf_count (fieldname filename file value : GoString)
    (r : Option ReadCloser) :
    (countCRLF (headerBlock (FormField fieldname value))
        = headerValues (FormField fieldname value) + countCRLF fieldname ∧
      countCRLF (headerBlock (FormFieldString fieldname value))
        = headerValues (FormFieldString fieldname value) + countCRLF fieldname ∧
      countCRLF (headerBlock (File fieldname file))
        = headerValues (File fieldname file) + countCRLF fieldname
          + countCRLF (path.Base file) ∧
      countCRLF (headerBlock (Stream fieldname filename r))
        = headerValues (Stream fieldname filename r) + countCRLF fieldname
          + countCRLF filename) ∧
    (headerValues (FormField fieldname value) = 1 ∧
      headerValues (FormFieldString fieldname value) = 1 ∧
      headerValues (File fieldname file) = 2 ∧
      headerValues (Stream fieldname filename r) = 2) ∧
    (countCRLF fieldname = 0 →
      countCRLF (headerBlock (FormField fieldname value)) = 1 ∧
      countCRLF (headerBlock (FormFieldString fieldname value)) = 1 ∧
      (countCRLF (path.Base file) = 0 → countCRLF (headerBlock (File fieldname file)) = 2) ∧
      (countCRLF filename = 0 →
        countCRLF (headerBlock (Stream fieldname filename r)) = 2)) := by
  have hc := countCRLF_disposition fieldname
  obtain ⟨hb1, hv1⟩ := headerBlock_one (FormField fieldname value) _ rfl
  obtain ⟨hb2, hv2⟩ := headerBlock_one (FormFieldString fieldname value) _ rfl
  have h1 : countCRLF (headerBlock (FormField fieldname value))
      = headerValues (FormField fieldname value) + countCRLF fieldname := by
    rw [hb1, hv1, countCRLF_line _ _ (by decide), hc]
    omega
  have h2 : countCRLF (headerBlock (FormFieldString fieldname value))
      = headerValues (FormFieldString fieldname value) + countCRLF fieldname := by
    rw [hb2, hv2, countCRLF_line _ _ (by decide), hc]
    omega
  have h3 := countCRLF_block_two (File fieldname file) fieldname (path.Base file) rfl
  have h4 := countCRLF_block_two (Stream fieldname filename r) fieldname filename rfl
  have hv3 := (headerBlock_two (File fieldname file) _ _ rfl).2
  have hv4 := (headerBlock_two (Stream fieldname filename r) _ _ rfl).2
  refine ⟨⟨h1, h2, h3, h4⟩, ⟨hv1, hv2, hv3, hv4⟩, ?_⟩
  intro h0
  refine ⟨by omega, by omega, fun hf => by omega, fun hf => by omega⟩

/-- C30, amended, on the file part for the field video and the path
/tmp/cat.mp4: the two header lines, with two CRLF sequences. -/
theorem C30_header_block_crlf_count_witness :
    countCRLF (headerBlock (File (str "video") (str "/tmp/cat.mp4"))) = 2 ∧
      headerBlock (File (str "video") (str "/tmp/cat.mp4"))
        = str "Content-Disposition: form-data; name=\"video\"; filename=\"cat.mp4\"\r\n"
          ++ str "Content-Type: application/octet-stream\r\n" :=
  ⟨((C30_header_block_crlf_count (str "video") [] (str "/tmp/cat.mp4") [] none).2.2
      (by decide)).2.2.1 (by decide),
    by decide⟩

end Opencast
